import Mathlib

/-! Snooker table physics: integration, collision, potting and respawn.

A shallow embedding of `src/main.cpp`.

* A C++ `double` is read in two ways.  The exact reading takes it for an
  element of an arbitrary linearly ordered field `K`; it carries the control
  flow of the program: guards, branches, the frame loop, potting and respawn.
  The rounded reading (`Double`, the definitions `Fp.*`) takes it for an
  IEEE-754 binary64 number and rounds every operation; it carries the
  statements about the numbers `handleCollision` writes, which hold in the
  exact reading only through identities such as `n · n = 1`.
* In the exact reading `std::sqrt` is a function parameter `sqrt : K → K`.
  The theorems that depend on what a square root is assume `IsSqrt sqrt`;
  `Real.sqrt` satisfies it.
* In the exact reading a division by zero (`Vec2d::norm` of the zero vector,
  which in IEEE-754 arithmetic yields NaN components) and a throwing
  `std::unordered_map::at` are modelled by `none`.
* Console output and rendering are not modelled.
-/

namespace Snooker

/-! ## Constants -/

def SCREEN_WIDTH : Int := 800
def SCREEN_HEIGHT : Int := 400
def BALL_RADIUS : Int := 10
def TABLE_MARGIN : Int := 60
def POCKET_RADIUS : Int := 20

section Defs

variable {K : Type} [LinearOrderedField K]

def FRICTION : K := 0.9995
def TRIANGLE_START_X : K := (SCREEN_WIDTH : K) * 0.75
def TRIANGLE_START_Y : K := (SCREEN_HEIGHT : K) / 2.0
def SPACING : K := ((BALL_RADIUS * 2 + 2 : Int) : K)

/-! ## Vec2d -/

/-- The struct `Vec2d`. -/
structure Vec2d (K : Type) where
  x : K
  y : K
deriving DecidableEq, Repr

/-- The member `Vec2d::dot`. -/
def Vec2d.dot (a rhs : Vec2d K) : K := a.x * rhs.x + a.y * rhs.y

/-- The member `Vec2d::squaredLength`. -/
def Vec2d.squaredLength (a : Vec2d K) : K := a.dot a

/-- The member `Vec2d::operator+` (and `+=`). -/
def Vec2d.add (a rhs : Vec2d K) : Vec2d K := ⟨a.x + rhs.x, a.y + rhs.y⟩

/-- The member `Vec2d::operator-` (and `-=`). -/
def Vec2d.sub (a rhs : Vec2d K) : Vec2d K := ⟨a.x - rhs.x, a.y - rhs.y⟩

/-- The member `Vec2d::operator*` (and `*=`). -/
def Vec2d.mul (a : Vec2d K) (multiplier : K) : Vec2d K := ⟨a.x * multiplier, a.y * multiplier⟩

/-- The member `Vec2d::operator/`: `none` when the divisor is zero. -/
def Vec2d.div (a : Vec2d K) (divisor : K) : Option (Vec2d K) :=
  if divisor = 0 then none else some ⟨a.x / divisor, a.y / divisor⟩

/-- The member `Vec2d::norm`: `*this / std::sqrt(squaredLength())`. -/
def Vec2d.norm (sqrt : K → K) (a : Vec2d K) : Option (Vec2d K) :=
  a.div (sqrt a.squaredLength)

/-! ## Ball, Pocket -/

/-- The struct `Color`; a `Uint8` channel is a natural number below 256. -/
structure Color where
  r : Nat
  g : Nat
  b : Nat
deriving DecidableEq, Repr

/-- The struct `Ball`. -/
structure Ball (K : Type) where
  pos : Vec2d K
  v : Vec2d K
  color : Color
  points : Int
  potted : Bool
  name : String
deriving DecidableEq, Repr

/-- The struct `Pocket`. -/
structure Pocket (K : Type) where
  pos : Vec2d K
deriving DecidableEq, Repr

/-- The function `createBall`: a lookup in the table of the seven named balls;
`none` stands for the exception thrown by `balls.at(ballName)`. -/
def createBall (ballName : String) : Option (Ball K) :=
  if ballName = "Yellow Ball" then
    some ⟨⟨(SCREEN_WIDTH : K) / 2.0 - 3 * SPACING, (SCREEN_HEIGHT : K) / 2.0⟩, ⟨0, 0⟩,
      ⟨255, 255, 0⟩, 2, false, "Yellow Ball"⟩
  else if ballName = "Green Ball" then
    some ⟨⟨(SCREEN_WIDTH : K) / 2.0 - SPACING, (TABLE_MARGIN : K) + SPACING * 2⟩, ⟨0, 0⟩,
      ⟨0, 255, 0⟩, 3, false, "Green Ball"⟩
  else if ballName = "Brown Ball" then
    some ⟨⟨(SCREEN_WIDTH : K) / 2.0 - SPACING,
        ((SCREEN_HEIGHT - TABLE_MARGIN : Int) : K) - SPACING * 2⟩, ⟨0, 0⟩,
      ⟨139, 69, 19⟩, 4, false, "Brown Ball"⟩
  else if ballName = "Blue Ball" then
    some ⟨⟨(SCREEN_WIDTH : K) / 2.0, (SCREEN_HEIGHT : K) / 2.0⟩, ⟨0, 0⟩,
      ⟨0, 0, 255⟩, 5, false, "Blue Ball"⟩
  else if ballName = "Pink Ball" then
    some ⟨⟨TRIANGLE_START_X - SPACING * 3, (SCREEN_HEIGHT : K) / 2.0⟩, ⟨0, 0⟩,
      ⟨255, 105, 180⟩, 6, false, "Pink Ball"⟩
  else if ballName = "Black Ball" then
    some ⟨⟨TRIANGLE_START_X + SPACING * 6, (SCREEN_HEIGHT : K) / 2.0⟩, ⟨0, 0⟩,
      ⟨0, 0, 0⟩, 7, false, "Black Ball"⟩
  else if ballName = "Cue Ball" then
    some ⟨⟨(SCREEN_WIDTH : K) / 4.0, (SCREEN_HEIGHT : K) / 2.0⟩, ⟨0, 0⟩,
      ⟨255, 255, 255⟩, 0, false, "Cue Ball"⟩
  else none

/-- The function `createPockets`. -/
def createPockets : List (Pocket K) :=
  [ ⟨⟨(TABLE_MARGIN : K), (TABLE_MARGIN : K)⟩⟩,
    ⟨⟨(SCREEN_WIDTH : K) / 2.0, (TABLE_MARGIN : K)⟩⟩,
    ⟨⟨((SCREEN_WIDTH - TABLE_MARGIN : Int) : K), (TABLE_MARGIN : K)⟩⟩,
    ⟨⟨(TABLE_MARGIN : K), ((SCREEN_HEIGHT - TABLE_MARGIN : Int) : K)⟩⟩,
    ⟨⟨(SCREEN_WIDTH : K) / 2.0, ((SCREEN_HEIGHT - TABLE_MARGIN : Int) : K)⟩⟩,
    ⟨⟨((SCREEN_WIDTH - TABLE_MARGIN : Int) : K), ((SCREEN_HEIGHT - TABLE_MARGIN : Int) : K)⟩⟩ ]

/-- The function `isBallInPocket`. -/
def isBallInPocket (ball : Ball K) (pocket : Pocket K) : Bool :=
  decide ((ball.pos.sub pocket.pos).squaredLength < ((POCKET_RADIUS * POCKET_RADIUS : Int) : K))

/-- The pocket loop of `handlePotting`: the first pocket holding the ball
pots it; only a red ball adds its points to the score. -/
def handlePottingLoop (ball : Ball K) : List (Pocket K) → Int → Ball K × Int
  | [], score => (ball, score)
  | pocket :: rest, score =>
    if isBallInPocket ball pocket then
      if ball.name = "Cue Ball" then ({ ball with potted := true }, score)
      else if ball.points > 1 then ({ ball with potted := true }, score)
      else ({ ball with potted := true }, score + ball.points)
    else handlePottingLoop ball rest score

/-- The function `handlePotting`. -/
def handlePotting (ball : Ball K) (pockets : List (Pocket K)) (score : Int) : Ball K × Int :=
  if ball.potted then (ball, score) else handlePottingLoop ball pockets score

/-- The function `handlePottedBalls`: every potted cue or coloured ball is
replaced by `createBall(ball.name)`; a potted red ball is left alone. -/
def handlePottedBalls : List (Ball K) → Option (List (Ball K))
  | [] => some []
  | ball :: rest =>
    if !ball.potted then (handlePottedBalls rest).map (ball :: ·)
    else if ball.name = "Cue Ball" then
      (createBall ball.name).bind fun c => (handlePottedBalls rest).map (c :: ·)
    else if ball.points > 1 then
      (createBall ball.name).bind fun c => (handlePottedBalls rest).map (c :: ·)
    else (handlePottedBalls rest).map (ball :: ·)

/-- The function `isMoving`. -/
def isMoving (ball : Ball K) : Bool :=
  if ball.v.squaredLength < 0.0001 then false else true

/-- The function `std::clamp`. -/
def clamp (v lo hi : K) : K := if v < lo then lo else if hi < v then hi else v

/-- The function `updateBall`; the pair is the updated ball and the returned flag. -/
def updateBall (ball : Ball K) : Ball K × Bool :=
  if ball.potted || !isMoving ball then (ball, false)
  else
    let ball := { ball with pos := ball.pos.add ball.v }
    let ball := { ball with v := ball.v.mul FRICTION }
    let ball :=
      if ball.pos.x - (BALL_RADIUS : K) < (TABLE_MARGIN : K) ∨
          ball.pos.x + (BALL_RADIUS : K) > ((SCREEN_WIDTH - TABLE_MARGIN : Int) : K) then
        { ball with
          v := ⟨-ball.v.x, ball.v.y⟩
          pos := ⟨clamp ball.pos.x ((TABLE_MARGIN + BALL_RADIUS : Int) : K)
            ((SCREEN_WIDTH - TABLE_MARGIN - BALL_RADIUS : Int) : K), ball.pos.y⟩ }
      else ball
    let ball :=
      if ball.pos.y - (BALL_RADIUS : K) < (TABLE_MARGIN : K) ∨
          ball.pos.y + (BALL_RADIUS : K) > ((SCREEN_HEIGHT - TABLE_MARGIN : Int) : K) then
        { ball with
          v := ⟨ball.v.x, -ball.v.y⟩
          pos := ⟨ball.pos.x, clamp ball.pos.y ((TABLE_MARGIN + BALL_RADIUS : Int) : K)
            ((SCREEN_HEIGHT - TABLE_MARGIN - BALL_RADIUS : Int) : K)⟩ }
      else ball
    (ball, true)

/-- The function `handleCollision` in exact arithmetic; `none` when `ab.norm()`
divides by zero.  The rounded reading of the same function is `Fp.handleCollision`. -/
def handleCollision (sqrt : K → K) (a b : Ball K) : Option (Ball K × Ball K) :=
  if a.potted || b.potted then some (a, b)
  else if !isMoving a && !isMoving b then some (a, b)
  else
    let ab := b.pos.sub a.pos
    let distance := sqrt ab.squaredLength
    if distance < ((BALL_RADIUS * 2 : Int) : K) then
      let overlap := ((BALL_RADIUS * 2 : Int) : K) - distance
      match ab.norm sqrt with
      | none => none
      | some abNorm =>
        let a := { a with pos := a.pos.sub ((abNorm.mul overlap).mul 0.5) }
        let b := { b with pos := b.pos.add ((abNorm.mul overlap).mul 0.5) }
        let v := abNorm.mul ((a.v.sub b.v).dot abNorm)
        some ({ a with v := a.v.sub v }, { b with v := b.v.add v })
    else some (a, b)

/-! ## One frame of the simulation loop in `main` -/

/-- The pair of the ball list and the score, the variables `balls` and `score` of `main`. -/
structure State (K : Type) where
  balls : List (Ball K)
  score : Int
deriving DecidableEq, Repr

/-- The loop `for (auto& ball : balls) if(!updateBall(ball)) movingBalls--;`
threading the counter `movingBalls`. -/
def updateAll : List (Ball K) → Nat → List (Ball K) × Nat
  | [], movingBalls => ([], movingBalls)
  | ball :: rest, movingBalls =>
    let r := updateBall ball
    let t := updateAll rest (if !r.2 then movingBalls - 1 else movingBalls)
    (r.1 :: t.1, t.2)

/-- The loop `for (auto& ball : balls) if(!ball.potted) handlePotting(ball, pockets, score);`. -/
def pottingAll (pockets : List (Pocket K)) : List (Ball K) → Int → List (Ball K) × Int
  | [], score => ([], score)
  | ball :: rest, score =>
    let r := if !ball.potted then handlePotting ball pockets score else (ball, score)
    let t := pottingAll pockets rest r.2
    (r.1 :: t.1, t.2)

/-- The inner collision loop for a fixed `balls[i]`, here `a`, against the
balls `balls[i+1], balls[i+2], ...` in order. -/
def collideRow (sqrt : K → K) (a : Ball K) : List (Ball K) → Option (Ball K × List (Ball K))
  | [] => some (a, [])
  | b :: rest =>
    match handleCollision sqrt a b with
    | none => none
    | some (a1, b1) =>
      match collideRow sqrt a1 rest with
      | none => none
      | some (a2, rest1) => some (a2, b1 :: rest1)

/-- The nested loop `for i, for j = i + 1 ..: handleCollision(balls[i], balls[j])`,
with `n` the number of outer iterations still to run on the balls from
index `i` on: ball `i` is collided with every later ball, then the loop goes
on with the later balls as that pass left them. -/
def collideFrom (sqrt : K → K) : Nat → List (Ball K) → Option (List (Ball K))
  | 0, balls => some balls
  | _ + 1, [] => some []
  | n + 1, a :: rest =>
    match collideRow sqrt a rest with
    | none => none
    | some (a1, rest1) =>
      match collideFrom sqrt n rest1 with
      | none => none
      | some rest2 => some (a1 :: rest2)

/-- The whole collision pass: `balls.size()` outer iterations. -/
def collideAll (sqrt : K → K) (balls : List (Ball K)) : Option (List (Ball K)) :=
  collideFrom sqrt balls.length balls

/-- One iteration of the `while (running)` loop after event polling: update
all balls, check potting, respawn when no ball moved, resolve collisions. -/
def tick (sqrt : K → K) (s : State K) : Option (State K) :=
  let u := updateAll s.balls s.balls.length
  let p := pottingAll createPockets u.1 s.score
  match (if u.2 = 0 then handlePottedBalls p.1 else some p.1) with
  | none => none
  | some balls3 =>
    match collideAll sqrt balls3 with
    | none => none
    | some balls4 => some ⟨balls4, p.2⟩

/-- The mouse-release branch of event polling: `cueBall->v = V`, where
`cueBall` points at `balls[0]`.  In `main` the vector is
`(mouse - cueBall->pos) * 0.005`; here `V` is any vector. -/
def launch (V : Vec2d K) (s : State K) : State K :=
  match s.balls with
  | [] => s
  | cue :: rest => ⟨{ cue with v := V } :: rest, s.score⟩

/-- The red balls pushed by the loops over `row` and `col`. -/
def redBalls : List (Ball K) :=
  (List.range 5).flatMap fun row => (List.range (row + 1)).map fun col =>
    ⟨⟨TRIANGLE_START_X + (row : K) * SPACING,
      TRIANGLE_START_Y - (row : K) * SPACING / 2 + (col : K) * SPACING⟩,
     ⟨0, 0⟩, ⟨255, 0, 0⟩, 1, false, "Red Ball"⟩

/-- The ball list built at start-up by the `push_back` calls of `main`.  Every
`createBall` call here names a key of the table, so `toList` is the one ball
that call returns. -/
def initialBalls : List (Ball K) :=
  (createBall "Cue Ball").toList ++ redBalls ++
    (createBall "Yellow Ball").toList ++ (createBall "Green Ball").toList ++
    (createBall "Brown Ball").toList ++ (createBall "Blue Ball").toList ++
    (createBall "Pink Ball").toList ++ (createBall "Black Ball").toList

/-- The state at start-up: the initial ball list and `score = 0`. -/
def initialState : State K := ⟨initialBalls, 0⟩

/-- The states the loop can pass through from `s`: any sequence of frames
(`tick`) and cue launches. -/
inductive Steps (sqrt : K → K) : State K → State K → Prop
  | refl (s : State K) : Steps sqrt s s
  | tick {s s1 s2 : State K} : Steps sqrt s s1 → tick sqrt s1 = some s2 → Steps sqrt s s2
  | launch {s s1 : State K} (V : Vec2d K) : Steps sqrt s s1 → Steps sqrt s (launch V s1)

/-- The states reachable from the initial layout. -/
def Reachable (sqrt : K → K) (s : State K) : Prop := Steps sqrt initialState s

/-! ## Specification vocabulary -/

/-- The law an exact square-root function obeys on the non-negative numbers;
`std::sqrt` on `double` obeys it up to rounding only (see `Double.sqrt`). -/
def IsSqrt (sqrt : K → K) : Prop := ∀ x : K, 0 ≤ x → 0 ≤ sqrt x ∧ sqrt x * sqrt x = x

/-- The sum of the squared speeds of two balls. -/
def energy (a b : Ball K) : K := a.v.squaredLength + b.v.squaredLength

/-- The vector `ab / d` by components, for the balls `a`, `b` and the number `d`. -/
def unitNormal (a b : Ball K) (d : K) : Vec2d K :=
  ⟨(b.pos.x - a.pos.x) / d, (b.pos.y - a.pos.y) / d⟩

/-- The two balls the overlap branch of `handleCollision` leaves, for the
normal `n` and the distance `d`. -/
def resolved (a b : Ball K) (n : Vec2d K) (d : K) : Ball K × Ball K :=
  ({ a with pos := a.pos.sub ((n.mul (20 - d)).mul 0.5),
            v := a.v.sub (n.mul ((a.v.sub b.v).dot n)) },
   { b with pos := b.pos.add ((n.mul (20 - d)).mul 0.5),
            v := b.v.add (n.mul ((a.v.sub b.v).dot n)) })

/-- A red ball that has been potted: `points == 1`, not the cue ball, `potted`. -/
def RedPotted (ball : Ball K) : Prop :=
  ball.points = 1 ∧ ball.name ≠ "Cue Ball" ∧ ball.potted = true

/-- A ball that `handlePottedBalls` would respawn has a name `createBall` knows. -/
def WellNamed (ball : Ball K) : Prop :=
  (ball.name = "Cue Ball" ∨ ball.points > 1) → ∃ c : Ball K, createBall ball.name = some c

/-- The rest predicate of a frame: the ball is potted or is not moving. -/
def Inert (ball : Ball K) : Prop := ball.potted = true ∨ isMoving ball = false

/-- Scenario input: a ball at `(100, 200)` moving right with velocity `(2, 0)`. -/
def headOnA : Ball K := ⟨⟨100, 200⟩, ⟨2, 0⟩, ⟨255, 255, 255⟩, 0, false, "Cue Ball"⟩

/-- Scenario input: a ball at `(115, 200)` moving left with velocity `(-2, 0)`. -/
def headOnB : Ball K := ⟨⟨115, 200⟩, ⟨-2, 0⟩, ⟨255, 0, 0⟩, 1, false, "Red Ball"⟩

/-- Scenario input: the cue ball at `(200, 200)` launched with velocity `(4, 0)`. -/
def launchedCue : Ball K := ⟨⟨200, 200⟩, ⟨4, 0⟩, ⟨255, 255, 255⟩, 0, false, "Cue Ball"⟩

/-- Scenario input: a ball entering the top-left corner, at `(72, 73)` with velocity `(-5, -4)`. -/
def cornerBall : Ball K := ⟨⟨72, 73⟩, ⟨-5, -4⟩, ⟨255, 0, 0⟩, 1, false, "Red Ball"⟩

/-- Scenario input: a ball at rest at `(100, 200)`. -/
def restingA : Ball K := ⟨⟨100, 200⟩, ⟨0, 0⟩, ⟨255, 0, 0⟩, 1, false, "Red Ball"⟩

/-- Scenario input: a ball at rest at `(110, 200)`, overlapping `restingA`. -/
def restingB : Ball K := ⟨⟨110, 200⟩, ⟨0, 0⟩, ⟨255, 0, 0⟩, 1, false, "Red Ball"⟩

/-- Scenario input: a ball at `(715, 200)` moving right with velocity `(2, 0)`. -/
def cushionA : Ball K := ⟨⟨715, 200⟩, ⟨2, 0⟩, ⟨255, 255, 255⟩, 0, false, "Cue Ball"⟩

/-- Scenario input: a ball at rest against the right cushion, at `(730, 200)`. -/
def cushionB : Ball K := ⟨⟨730, 200⟩, ⟨0, 0⟩, ⟨255, 0, 0⟩, 1, false, "Red Ball"⟩

/-- Scenario input: a launch velocity that sends the cue ball into the top-left pocket. -/
def foulShot : Vec2d K := ⟨-140, -140⟩

/-- Scenario state: the layout one frame after `foulShot`, the cue ball potted
at the top-left corner, every other ball where it started. -/
def cuePottedState : State K :=
  ⟨⟨⟨70, 70⟩, ⟨139.93, 139.93⟩, ⟨255, 255, 255⟩, 0, true, "Cue Ball"⟩ ::
    (initialBalls (K := K)).tail, 0⟩

/-- Scenario state: a resting cue ball and one potted red ball, score 1. -/
def oneRedPottedState : State K :=
  ⟨[⟨⟨200, 200⟩, ⟨0, 0⟩, ⟨255, 255, 255⟩, 0, false, "Cue Ball"⟩,
    ⟨⟨65, 65⟩, ⟨3, 3⟩, ⟨255, 0, 0⟩, 1, true, "Red Ball"⟩], 1⟩

/-- Scenario state: `oneRedPottedState` one frame after the cue launch `(4, 0)`. -/
def oneRedPottedNext : State K :=
  ⟨[⟨⟨204, 200⟩, ⟨3.998, 0⟩, ⟨255, 255, 255⟩, 0, false, "Cue Ball"⟩,
    ⟨⟨65, 65⟩, ⟨3, 3⟩, ⟨255, 0, 0⟩, 1, true, "Red Ball"⟩], 1⟩

/-- Scenario input: a moving red ball at `(70, 70)`, inside the top-left pocket's zone. -/
def redNearPocket : Ball K := ⟨⟨70, 70⟩, ⟨1, 1⟩, ⟨255, 0, 0⟩, 1, false, "Red Ball"⟩

/-- Scenario input: two pockets that both hold `redNearPocket`. -/
def twoPockets : List (Pocket K) := [⟨⟨60, 60⟩⟩, ⟨⟨65, 65⟩⟩]

/-- A red ball: `points == 1` and not the cue ball. -/
def isRed (ball : Ball K) : Bool := decide (ball.points = 1) && decide (ball.name ≠ "Cue Ball")

/-- A red ball that is potted. -/
def isRedPotted (ball : Ball K) : Bool := isRed ball && ball.potted

/-- The `else` branch of `handlePotting` is taken by red balls only. -/
def Sound (ball : Ball K) : Prop :=
  ball.name ≠ "Cue Ball" → ¬ ball.points > 1 → ball.points = 1

/-- Scenario input: a launch velocity that carries the cue ball onto the Blue Ball's spot. -/
def blueShot : Vec2d K := ⟨200, 0⟩

/-- Scenario input: the cue ball one integration step after `blueShot`. -/
def cueOnBlue : Ball K := ⟨⟨400, 200⟩, ⟨199.9, 0⟩, ⟨255, 255, 255⟩, 0, false, "Cue Ball"⟩

/-- Scenario input: the Blue Ball on its spot. -/
def blueBall : Ball K := ⟨⟨400, 200⟩, ⟨0, 0⟩, ⟨0, 0, 255⟩, 5, false, "Blue Ball"⟩

/-- Scenario input: a launch velocity that lands the cue ball beside the last red of the rack. -/
def breakShot : Vec2d K := ⟨499.7, 59.6⟩

/-- Scenario input: the 14 red balls in front of the last one. -/
def frontReds : List (Ball K) := redBalls.take 14

/-- Scenario input: the last red ball of the rack, at `(688, 244)`. -/
def cornerRed : Ball K := ⟨⟨688, 244⟩, ⟨0, 0⟩, ⟨255, 0, 0⟩, 1, false, "Red Ball"⟩

/-- Scenario input: the six coloured balls on their spots. -/
def colouredBalls : List (Ball K) := (initialBalls (K := K)).drop 16

/-- Scenario input: the cue ball one integration step after `breakShot`. -/
def cueBreak1 : Ball K :=
  ⟨⟨699.7, 259.6⟩, ⟨499.45015, 59.5702⟩, ⟨255, 255, 255⟩, 0, false, "Cue Ball"⟩

/-- Scenario input: the cue ball after its collision with `cornerRed`. -/
def cueBreak2 : Ball K :=
  ⟨⟨699.85, 259.8⟩, ⟨291.0544, -218.2908⟩, ⟨255, 255, 255⟩, 0, false, "Cue Ball"⟩

/-- Scenario input: `cornerRed` after the cue ball has hit it. -/
def cornerRed2 : Ball K :=
  ⟨⟨687.85, 243.8⟩, ⟨208.39575, 277.861⟩, ⟨255, 0, 0⟩, 1, false, "Red Ball"⟩

/-- Scenario input: the cue ball stopped by a launch with velocity `(0, 0)`. -/
def cueStopped : Ball K :=
  ⟨⟨699.85, 259.8⟩, ⟨0, 0⟩, ⟨255, 255, 255⟩, 0, false, "Cue Ball"⟩

/-- Scenario input: `cornerRed2` one integration step later, in the bottom-right corner. -/
def cornerRed3 : Ball K :=
  ⟨⟨730, 330⟩, ⟨-208.291552125, -277.7220695⟩, ⟨255, 0, 0⟩, 1, false, "Red Ball"⟩

/-- Scenario input: `cornerRed3` potted. -/
def cornerRedPotted : Ball K :=
  ⟨⟨730, 330⟩, ⟨-208.291552125, -277.7220695⟩, ⟨255, 0, 0⟩, 1, true, "Red Ball"⟩

/-- Scenario state: one frame after `breakShot` from the initial layout. -/
def breakState : State K := ⟨cueBreak2 :: (frontReds ++ cornerRed2 :: colouredBalls), 0⟩

/-- Scenario state: one launch `(0, 0)` and one more frame after `breakState`:
the last red of the rack is potted and the score is 1. -/
def redPottedState : State K :=
  ⟨(cueStopped :: frontReds) ++ cornerRedPotted :: colouredBalls, 1⟩

/-! ## Double precision

The definitions above read a C++ `double` as an element of an exact ordered
field.  The definitions below read it as an IEEE-754 binary64 number: every
`+`, `-`, `*`, `/` and `std::sqrt` returns the exact result rounded to the
nearest double, ties to even, each operation on its own (no fused
multiply-add).  Zero carries no sign; the only divisor of the program is the
square root of a sum of squares, which is never the negative zero.  The
operations return roundings; a value `Double.fin q` written by hand is a double
only if `q` is one. -/

/-- A C++ `double`: a finite value, an infinity with its sign, or NaN. -/
inductive Double where
  | fin (q : ℚ)
  | inf (neg : Bool)
  | nan
deriving DecidableEq

/-- The power of two with exponent `E`. -/
def pow2 (E : Int) : ℚ :=
  if 0 ≤ E then ((2 ^ E.toNat : Nat) : ℚ) else 1 / ((2 ^ (-E).toNat : Nat) : ℚ)

/-- Numerator and denominator of `(n / d) / 2 ^ E`. -/
def scale (n d : Nat) (E : Int) : Nat × Nat :=
  if 0 ≤ E then (n, d * 2 ^ E.toNat) else (n * 2 ^ (-E).toNat, d)

/-- Halving steps until the number falls below 2. -/
def log2Aux : Nat → Nat → Nat
  | 0, _ => 0
  | k + 1, n => if n < 2 then 0 else log2Aux k (n / 2) + 1

/-- The position of the leading binary digit of `n`. -/
def log2 (n : Nat) : Nat := log2Aux n n

/-- The binary digits of the integer square root of `n`, from digit `k - 1` down. -/
def isqrtAux (n : Nat) : Nat → Nat → Nat
  | 0, r => r
  | k + 1, r =>
    if (r + 2 ^ k) * (r + 2 ^ k) ≤ n then isqrtAux n k (r + 2 ^ k) else isqrtAux n k r

/-- The largest `r` with `r * r ≤ n`. -/
def isqrt (n : Nat) : Nat := isqrtAux n (log2 n / 2 + 1) 0

/-- The exponent `e` with `2 ^ e ≤ n / d < 2 ^ (e + 1)`, for positive `n` and `d`. -/
def ilog2 (n d : Nat) : Int :=
  let e : Int := (log2 n : Int) - (log2 d : Int)
  if (scale n d e).2 ≤ (scale n d e).1 then e else e - 1

/-- The integer nearest to `N / D`, ties to even. -/
def roundNearestEven (N D : Nat) : Nat :=
  let f := N / D
  let r := N % D
  if 2 * r < D then f else if D < 2 * r then f + 1 else if f % 2 = 0 then f else f + 1

/-- The double nearest to the rational `q`: 53 significant binary digits, the
exponent of the last digit not below `-1074`, overflow to an infinity. -/
def Double.round (q : ℚ) : Double :=
  if q = 0 then .fin 0
  else
    let n := q.num.natAbs
    let d := q.den
    let E := max (ilog2 n d) (-1022) - 52
    let m := roundNearestEven (scale n d E).1 (scale n d E).2
    let r : ℚ := (m : ℚ) * pow2 E
    if pow2 1024 ≤ r then .inf (decide (q < 0)) else .fin (if q < 0 then -r else r)

/-- The double nearest to the square root of the positive rational `q`. -/
def roundSqrt (q : ℚ) : ℚ :=
  let n := q.num.natAbs
  let d := q.den
  let E := ilog2 n d / 2 - 52
  let N := (scale n d (2 * E)).1
  let D := (scale n d (2 * E)).2
  let f := isqrt (N / D)
  let m :=
    if 4 * N < (2 * f + 1) ^ 2 * D then f
    else if (2 * f + 1) ^ 2 * D < 4 * N then f + 1
    else if f % 2 = 0 then f else f + 1
  (m : ℚ) * pow2 E

/-- The conversion of an `int` to `double`. -/
def Double.ofInt (n : Int) : Double := Double.round (n : ℚ)

/-- Unary minus on `double`. -/
def Double.neg : Double → Double
  | .fin x => .fin (-x)
  | .inf s => .inf (!s)
  | .nan => .nan

/-- The operator `+` on `double`. -/
def Double.add : Double → Double → Double
  | .fin x, .fin y => Double.round (x + y)
  | .fin _, .inf t => .inf t
  | .inf s, .fin _ => .inf s
  | .inf s, .inf t => if s = t then .inf s else .nan
  | _, _ => .nan

/-- The operator `-` on `double`. -/
def Double.sub (x y : Double) : Double := x.add y.neg

/-- The operator `*` on `double`. -/
def Double.mul : Double → Double → Double
  | .fin x, .fin y => Double.round (x * y)
  | .fin x, .inf t => if x = 0 then .nan else .inf (decide (x < 0) != t)
  | .inf s, .fin y => if y = 0 then .nan else .inf (s != decide (y < 0))
  | .inf s, .inf t => .inf (s != t)
  | _, _ => .nan

/-- The operator `/` on `double`; `0 / 0` is NaN, `x / 0` an infinity. -/
def Double.div : Double → Double → Double
  | .fin x, .fin y =>
    if y = 0 then (if x = 0 then .nan else .inf (decide (x < 0))) else Double.round (x / y)
  | .fin _, .inf _ => .fin 0
  | .inf s, .fin y => .inf (s != decide (y < 0))
  | _, _ => .nan

/-- The function `std::sqrt` on `double`. -/
def Double.sqrt : Double → Double
  | .fin x => if x < 0 then .nan else if x = 0 then .fin 0 else .fin (roundSqrt x)
  | .inf false => .inf false
  | _ => .nan

/-- The comparison `<` on `double`; false when either side is NaN. -/
def Double.lt : Double → Double → Bool
  | .fin x, .fin y => decide (x < y)
  | .fin _, .inf t => !t
  | .inf s, .fin _ => s
  | .inf s, .inf t => s && !t
  | _, _ => false

instance : Add Double := ⟨Double.add⟩

instance : Sub Double := ⟨Double.sub⟩

instance : Mul Double := ⟨Double.mul⟩

instance : Div Double := ⟨Double.div⟩

/-- The member `Vec2d::dot` in double precision. -/
def Fp.dot (a rhs : Vec2d Double) : Double := a.x * rhs.x + a.y * rhs.y

/-- The member `Vec2d::squaredLength` in double precision. -/
def Fp.squaredLength (a : Vec2d Double) : Double := Fp.dot a a

/-- The member `Vec2d::operator+` (and `+=`) in double precision. -/
def Fp.add (a rhs : Vec2d Double) : Vec2d Double := ⟨a.x + rhs.x, a.y + rhs.y⟩

/-- The member `Vec2d::operator-` (and `-=`) in double precision. -/
def Fp.sub (a rhs : Vec2d Double) : Vec2d Double := ⟨a.x - rhs.x, a.y - rhs.y⟩

/-- The member `Vec2d::operator*` in double precision. -/
def Fp.mul (a : Vec2d Double) (multiplier : Double) : Vec2d Double :=
  ⟨a.x * multiplier, a.y * multiplier⟩

/-- The member `Vec2d::operator/` in double precision. -/
def Fp.div (a : Vec2d Double) (divisor : Double) : Vec2d Double :=
  ⟨a.x / divisor, a.y / divisor⟩

/-- The member `Vec2d::norm` in double precision: `*this / std::sqrt(squaredLength())`. -/
def Fp.norm (a : Vec2d Double) : Vec2d Double := Fp.div a (Double.sqrt (Fp.squaredLength a))

/-- The function `isMoving` in double precision. -/
def Fp.isMoving (ball : Ball Double) : Bool :=
  if Double.lt (Fp.squaredLength ball.v) (Double.round 0.0001) then false else true

/-- The function `handleCollision` in double precision; the pair is `a` and `b`
after the call. -/
def Fp.handleCollision (a b : Ball Double) : Ball Double × Ball Double :=
  if a.potted || b.potted then (a, b)
  else if !Fp.isMoving a && !Fp.isMoving b then (a, b)
  else
    let ab := Fp.sub b.pos a.pos
    let distance := Double.sqrt (Fp.squaredLength ab)
    if Double.lt distance (Double.ofInt (BALL_RADIUS * 2)) then
      let overlap := Double.ofInt (BALL_RADIUS * 2) - distance
      let abNorm := Fp.norm ab
      let a := { a with pos := Fp.sub a.pos (Fp.mul (Fp.mul abNorm overlap) (Double.round 0.5)) }
      let b := { b with pos := Fp.add b.pos (Fp.mul (Fp.mul abNorm overlap) (Double.round 0.5)) }
      let v := Fp.mul abNorm (Fp.dot (Fp.sub a.v b.v) abNorm)
      ({ a with v := Fp.sub a.v v }, { b with v := Fp.add b.v v })
    else (a, b)

/-- The sum of the squared speeds of two balls, computed in double precision. -/
def Fp.energy (a b : Ball Double) : Double := Fp.squaredLength a.v + Fp.squaredLength b.v

/-- The centre distance of two balls as `handleCollision` computes it. -/
def Fp.distance (a b : Ball Double) : Double :=
  Double.sqrt (Fp.squaredLength (Fp.sub b.pos a.pos))

/-- A ball with the given integer coordinates and velocity components. -/
def Fp.ball (x y vx vy : Int) : Ball Double :=
  ⟨⟨Double.ofInt x, Double.ofInt y⟩, ⟨Double.ofInt vx, Double.ofInt vy⟩, ⟨255, 0, 0⟩, 1, false,
    "Red Ball"⟩

/-- Scenario input: a ball at `(100, 200)` with velocity `(2, 0)`. -/
def Fp.headOnA : Ball Double := Fp.ball 100 200 2 0

/-- Scenario input: a ball at `(115, 200)` with velocity `(-2, 0)`. -/
def Fp.headOnB : Ball Double := Fp.ball 115 200 (-2) 0

/-- Scenario input: a ball at `(100, 100)` with velocity `(3, 1)`. -/
def Fp.glancingA : Ball Double := Fp.ball 100 100 3 1

/-- Scenario input: a ball at `(109, 112)` with velocity `(-1, 2)`. -/
def Fp.glancingB : Ball Double := Fp.ball 109 112 (-1) 2

/-- Scenario input: a ball at `(300, 200)` with velocity `(4, 0)`. -/
def Fp.obliqueA : Ball Double := Fp.ball 300 200 4 0

/-- Scenario input: a ball at rest at `(307, 203)`. -/
def Fp.obliqueB : Ball Double := Fp.ball 307 203 0 0

/-- Scenario input: a ball at `(100, 100)` with velocity `(-3, 0)`. -/
def Fp.skewA : Ball Double := Fp.ball 100 100 (-3) 0

/-- Scenario input: a ball at `(103, 104)` with velocity `(-1, -1)`. -/
def Fp.skewB : Ball Double := Fp.ball 103 104 (-1) (-1)

/-- Scenario input: a ball at `(400, 200)` with velocity `(4, 0)`. -/
def Fp.stackedA : Ball Double := Fp.ball 400 200 4 0

/-- Scenario input: a ball at rest at `(400, 200)`. -/
def Fp.stackedB : Ball Double := Fp.ball 400 200 0 0

/-- The unit roundoff of binary64: half the distance from 1 to the next double. -/
def unitRoundoff : ℚ := 1 / 2 ^ 53

/-- The smallest positive normal double, `2 ^ (-1022)`. -/
def tiny : ℚ := 1 / 2 ^ 1022

/-- The error of one rounding that does not overflow: `r` differs from the
exact value `q` by at most the unit roundoff times `|q|`, plus `2 ^ (-1075)`
where the result is subnormal. -/
def Rounds (q r : ℚ) : Prop := |r - q| ≤ (|q| + tiny) * unitRoundoff

/-- Scenario input: a ball at `(0, 0)` with velocity `(2, 0)`. -/
def Fp.nearA : Ball Double := Fp.ball 0 0 2 0

/-- Scenario input: a ball at `(3 * 2 ^ (-538), 0)` with velocity `(-2, 0)`. -/
def Fp.nearB : Ball Double :=
  ⟨⟨Double.fin (3 / 2 ^ 538), Double.fin 0⟩, ⟨Double.fin (-2), Double.fin 0⟩, ⟨255, 0, 0⟩, 1,
    false, "Red Ball"⟩

end Defs

section Theorems

variable {K : Type} [LinearOrderedField K]

/-! ## Vectors and the collision branch -/

theorem isMoving_eq_false_iff (ball : Ball K) :
    isMoving ball = false ↔ ball.v.squaredLength < 0.0001 := by
  unfold isMoving; split <;> simp [*]

theorem squaredLength_nonneg (u : Vec2d K) : 0 ≤ u.squaredLength := by
  unfold Vec2d.squaredLength Vec2d.dot
  nlinarith [mul_self_nonneg u.x, mul_self_nonneg u.y]

theorem squaredLength_sub_eq_zero_iff (p q : Vec2d K) :
    (q.sub p).squaredLength = 0 ↔ p = q := by
  constructor
  · intro h
    have h' : (q.x - p.x) * (q.x - p.x) + (q.y - p.y) * (q.y - p.y) = 0 := h
    have hx : q.x - p.x = 0 := by
      nlinarith [mul_self_nonneg (q.x - p.x), mul_self_nonneg (q.y - p.y)]
    have hy : q.y - p.y = 0 := by
      nlinarith [mul_self_nonneg (q.x - p.x), mul_self_nonneg (q.y - p.y)]
    cases p; cases q; simp only [Vec2d.mk.injEq] at hx hy ⊢
    constructor <;> linarith
  · rintro rfl; simp [Vec2d.squaredLength, Vec2d.dot, Vec2d.sub]

theorem ballDiameter_cast : ((BALL_RADIUS * 2 : Int) : K) = 20 := by
  norm_num [BALL_RADIUS]

theorem handleCollision_unfold (sqrt : K → K) (a b : Ball K)
    (ha : a.potted = false) (hb : b.potted = false)
    (hm : isMoving a = true ∨ isMoving b = true) :
    handleCollision sqrt a b =
      if sqrt (b.pos.sub a.pos).squaredLength < 20 then
        (if sqrt (b.pos.sub a.pos).squaredLength = 0 then none
         else some (resolved a b (unitNormal a b (sqrt (b.pos.sub a.pos).squaredLength))
            (sqrt (b.pos.sub a.pos).squaredLength)))
      else some (a, b) := by
  have hm' : (!isMoving a && !isMoving b) = false := by
    rcases hm with h | h <;> simp [h]
  unfold handleCollision
  simp only [ha, hb, hm', Bool.or_self, Bool.false_eq_true, if_false, ballDiameter_cast,
    Vec2d.norm, Vec2d.div]
  by_cases h20 : sqrt (b.pos.sub a.pos).squaredLength < 20
  · by_cases h0 : sqrt (b.pos.sub a.pos).squaredLength = 0
    · simp only [if_pos h20, if_pos h0]
    · simp only [if_pos h20, if_neg h0]
      cases a; cases b; cases ha; cases hb; rfl
  · simp only [if_neg h20]

theorem unitNormal_dot_self (sqrt : K → K) (hs : IsSqrt sqrt) (a b : Ball K)
    (h0 : sqrt (b.pos.sub a.pos).squaredLength ≠ 0) :
    (unitNormal a b (sqrt (b.pos.sub a.pos).squaredLength)).dot
      (unitNormal a b (sqrt (b.pos.sub a.pos).squaredLength)) = 1 := by
  have hd := (hs _ (squaredLength_nonneg (b.pos.sub a.pos))).2
  have hd' : sqrt (b.pos.sub a.pos).squaredLength * sqrt (b.pos.sub a.pos).squaredLength =
      (b.pos.x - a.pos.x) * (b.pos.x - a.pos.x) + (b.pos.y - a.pos.y) * (b.pos.y - a.pos.y) := hd
  generalize sqrt (b.pos.sub a.pos).squaredLength = d at h0 hd'
  simp only [unitNormal, Vec2d.dot]
  field_simp
  linarith

theorem resolved_energy (a b : Ball K) (n : Vec2d K) (d : K) (hn : n.dot n = 1) :
    energy (resolved a b n d).1 (resolved a b n d).2 = energy a b := by
  simp only [Vec2d.dot] at hn
  simp only [energy, resolved, Vec2d.squaredLength, Vec2d.dot, Vec2d.sub, Vec2d.add, Vec2d.mul]
  linear_combination
    (2 * ((a.v.x - b.v.x) * n.x + (a.v.y - b.v.y) * n.y) ^ 2) * hn

theorem sqrt_ne_zero_of_ne (sqrt : K → K) (hs : IsSqrt sqrt) (a b : Ball K)
    (hne : a.pos ≠ b.pos) : sqrt (b.pos.sub a.pos).squaredLength ≠ 0 := by
  intro h
  have hd := (hs _ (squaredLength_nonneg (b.pos.sub a.pos))).2
  rw [h, mul_zero] at hd
  exact hne ((squaredLength_sub_eq_zero_iff a.pos b.pos).1 hd.symm)

theorem isSqrt_real : IsSqrt Real.sqrt :=
  fun x hx => ⟨Real.sqrt_nonneg x, Real.mul_self_sqrt hx⟩

theorem isSqrt_unique (sqrt : K → K) (hs : IsSqrt sqrt) (r : K) (hr : 0 ≤ r) :
    sqrt (r * r) = r := by
  obtain ⟨h1, h2⟩ := hs (r * r) (mul_self_nonneg r)
  nlinarith [mul_self_nonneg (sqrt (r * r) - r)]

theorem headOn_distance :
    Real.sqrt ((headOnB (K := ℝ)).pos.sub headOnA.pos).squaredLength = 15 := by
  have h : ((headOnB (K := ℝ)).pos.sub headOnA.pos).squaredLength = 15 * 15 := by
    norm_num [headOnA, headOnB, Vec2d.sub, Vec2d.squaredLength, Vec2d.dot]
  rw [h]
  exact isSqrt_unique Real.sqrt isSqrt_real 15 (by norm_num)

theorem headOnA_moving : isMoving (headOnA (K := K)) = true := by
  norm_num [isMoving, headOnA, Vec2d.squaredLength, Vec2d.dot]

theorem headOn_resolved :
    resolved (headOnA (K := ℝ)) headOnB ⟨1, 0⟩ 15 =
      (⟨⟨97.5, 200⟩, ⟨-2, 0⟩, ⟨255, 255, 255⟩, 0, false, "Cue Ball"⟩,
       ⟨⟨117.5, 200⟩, ⟨2, 0⟩, ⟨255, 0, 0⟩, 1, false, "Red Ball"⟩) := by
  norm_num [resolved, headOnA, headOnB, Vec2d.sub, Vec2d.add, Vec2d.mul, Vec2d.dot]

/-- The overlap branch of `handleCollision` in closed form: two unpotted balls,
one of them moving, at distance `0 < d < 20` with normal `n = ab / d`. -/
theorem handleCollision_eq_resolved (sqrt : K → K) (a b : Ball K)
    (ha : a.potted = false) (hb : b.potted = false)
    (hm : isMoving a = true ∨ isMoving b = true)
    (d : K) (hd : d = sqrt (b.pos.sub a.pos).squaredLength) (h0 : 0 < d) (h20 : d < 20)
    (n : Vec2d K) (hn : n = ⟨(b.pos.x - a.pos.x) / d, (b.pos.y - a.pos.y) / d⟩) :
    handleCollision sqrt a b = some (resolved a b n d) := by
  rw [handleCollision_unfold sqrt a b ha hb hm, ← hd, if_pos h20, if_neg (ne_of_gt h0), hn]
  rfl

theorem normal_dot_self (sqrt : K → K) (hs : IsSqrt sqrt) (a b : Ball K)
    (d : K) (hd : d = sqrt (b.pos.sub a.pos).squaredLength) (h0 : 0 < d)
    (n : Vec2d K) (hn : n = ⟨(b.pos.x - a.pos.x) / d, (b.pos.y - a.pos.y) / d⟩) :
    n.x * n.x + n.y * n.y = 1 := by
  have hne : sqrt (b.pos.sub a.pos).squaredLength ≠ 0 := by rw [← hd]; exact ne_of_gt h0
  have := unitNormal_dot_self sqrt hs a b hne
  rw [← hd] at this
  rw [hn]; exact this

theorem resolved_distance (sqrt : K → K) (hs : IsSqrt sqrt) (a b : Ball K)
    (d : K) (hd : d = sqrt (b.pos.sub a.pos).squaredLength) (h0 : 0 < d)
    (n : Vec2d K) (hn : n = ⟨(b.pos.x - a.pos.x) / d, (b.pos.y - a.pos.y) / d⟩) :
    sqrt ((resolved a b n d).2.pos.sub (resolved a b n d).1.pos).squaredLength = 20 := by
  have hnn := normal_dot_self sqrt hs a b d hd h0 n hn
  have hd0 : d ≠ 0 := ne_of_gt h0
  have hx : b.pos.x - a.pos.x = n.x * d := by rw [hn]; field_simp
  have hy : b.pos.y - a.pos.y = n.y * d := by rw [hn]; field_simp
  have h400 : ((resolved a b n d).2.pos.sub (resolved a b n d).1.pos).squaredLength
      = 20 * 20 := by
    simp only [resolved, Vec2d.squaredLength, Vec2d.dot, Vec2d.sub, Vec2d.add, Vec2d.mul]
    have e1 : b.pos.x + n.x * (20 - d) * 0.5 - (a.pos.x - n.x * (20 - d) * 0.5) = 20 * n.x := by
      have : b.pos.x = a.pos.x + n.x * d := by linarith
      rw [this]; norm_num; ring
    have e2 : b.pos.y + n.y * (20 - d) * 0.5 - (a.pos.y - n.y * (20 - d) * 0.5) = 20 * n.y := by
      have : b.pos.y = a.pos.y + n.y * d := by linarith
      rw [this]; norm_num; ring
    rw [e1, e2]
    linear_combination 400 * hnn
  rw [h400]
  exact isSqrt_unique sqrt hs 20 (by norm_num)

/-- Energy in exact arithmetic.  For two unpotted balls that are not both at
rest, every pair of balls `handleCollision` returns has a sum of squared
speeds `|a.v|² + |b.v|²` not greater than before the call; and the call does
return a pair whenever the two centres differ.  The proof rests on `n · n = 1`,
which the rounded reading does not have. -/
theorem handleCollision_energy (sqrt : K → K) (hs : IsSqrt sqrt) (a b : Ball K)
    (ha : a.potted = false) (hb : b.potted = false)
    (hm : isMoving a = true ∨ isMoving b = true) :
    (∀ a1 b1 : Ball K, handleCollision sqrt a b = some (a1, b1) → energy a1 b1 ≤ energy a b) ∧
      (a.pos ≠ b.pos → ∃ a1 b1 : Ball K, handleCollision sqrt a b = some (a1, b1)) := by
  rw [handleCollision_unfold sqrt a b ha hb hm]
  constructor
  · intro a1 b1 h
    split at h
    · split at h
      · cases h
      · rename_i h0
        cases h
        exact le_of_eq (resolved_energy a b _ _ (unitNormal_dot_self sqrt hs a b h0))
    · cases h
      exact le_refl _
  · intro hne
    have h0 := sqrt_ne_zero_of_ne sqrt hs a b hne
    split
    · exact ⟨_, _, rfl⟩
    · exact ⟨_, _, rfl⟩

theorem handleCollision_energy_witness :
    (headOnA (K := ℝ)).pos ≠ headOnB.pos ∧
    (∀ a1 b1 : Ball ℝ, handleCollision Real.sqrt headOnA headOnB = some (a1, b1) →
        energy a1 b1 ≤ energy (headOnA (K := ℝ)) headOnB) ∧
      ((headOnA (K := ℝ)).pos ≠ headOnB.pos →
        ∃ a1 b1 : Ball ℝ, handleCollision Real.sqrt headOnA headOnB = some (a1, b1)) :=
  ⟨by norm_num [headOnA, headOnB],
    handleCollision_energy Real.sqrt isSqrt_real headOnA headOnB rfl rfl
      (Or.inl headOnA_moving)⟩

/-- Claim C2 fails as stated: two unpotted balls at rest whose centres are 10 apart
are returned unchanged by `handleCollision`, so their distance stays below 20. -/
theorem resting_overlap_not_resolved :
    Real.sqrt ((restingB (K := ℝ)).pos.sub restingA.pos).squaredLength < 20 ∧
    handleCollision Real.sqrt (restingA (K := ℝ)) restingB = some (restingA, restingB) ∧
    ¬ (20 ≤ Real.sqrt ((restingB (K := ℝ)).pos.sub restingA.pos).squaredLength) := by
  have h : ((restingB (K := ℝ)).pos.sub restingA.pos).squaredLength = 10 * 10 := by
    norm_num [restingA, restingB, Vec2d.sub, Vec2d.squaredLength, Vec2d.dot]
  have hd : Real.sqrt ((restingB (K := ℝ)).pos.sub restingA.pos).squaredLength = 10 := by
    rw [h]; exact isSqrt_unique Real.sqrt isSqrt_real 10 (by norm_num)
  refine ⟨by rw [hd]; norm_num, ?_, by rw [hd]; norm_num⟩
  norm_num [handleCollision, isMoving, restingA, restingB, Vec2d.squaredLength, Vec2d.dot]

/-- Separation in exact arithmetic.  For two unpotted balls, not both at
rest, at centre distance `0 < d < 20` with `n = (b.pos - a.pos) / d`,
`handleCollision` moves `a` by `-n * (20 - d) / 2` and `b` by `+n * (20 - d) / 2`,
and the centre distance afterwards is exactly 20.  The proof rests on
`n · n = 1`, which the rounded reading does not have. -/
theorem handleCollision_separates (sqrt : K → K) (hs : IsSqrt sqrt) (a b : Ball K)
    (ha : a.potted = false) (hb : b.potted = false)
    (hm : isMoving a = true ∨ isMoving b = true)
    (d : K) (hd : d = sqrt (b.pos.sub a.pos).squaredLength) (h0 : 0 < d) (h20 : d < 20)
    (n : Vec2d K) (hn : n = ⟨(b.pos.x - a.pos.x) / d, (b.pos.y - a.pos.y) / d⟩) :
    ∃ a1 b1 : Ball K, handleCollision sqrt a b = some (a1, b1) ∧
      a1.pos = a.pos.sub (n.mul ((20 - d) / 2)) ∧
      b1.pos = b.pos.add (n.mul ((20 - d) / 2)) ∧
      sqrt (b1.pos.sub a1.pos).squaredLength = 20 := by
  refine ⟨_, _, handleCollision_eq_resolved sqrt a b ha hb hm d hd h0 h20 n hn, ?_, ?_,
    resolved_distance sqrt hs a b d hd h0 n hn⟩
  · simp only [resolved, Vec2d.sub, Vec2d.mul, Vec2d.mk.injEq]
    constructor <;> norm_num <;> ring
  · simp only [resolved, Vec2d.add, Vec2d.mul, Vec2d.mk.injEq]
    constructor <;> norm_num <;> ring

theorem handleCollision_separates_witness :
    ((15 : ℝ) = Real.sqrt ((headOnB (K := ℝ)).pos.sub headOnA.pos).squaredLength ∧
      (0 : ℝ) < 15 ∧ (15 : ℝ) < 20) ∧
    ∃ a1 b1 : Ball ℝ, handleCollision Real.sqrt headOnA headOnB = some (a1, b1) ∧
      a1.pos = (headOnA (K := ℝ)).pos.sub ((⟨1, 0⟩ : Vec2d ℝ).mul ((20 - 15) / 2)) ∧
      b1.pos = (headOnB (K := ℝ)).pos.add ((⟨1, 0⟩ : Vec2d ℝ).mul ((20 - 15) / 2)) ∧
      Real.sqrt (b1.pos.sub a1.pos).squaredLength = 20 :=
  ⟨⟨headOn_distance.symm, by norm_num, by norm_num⟩,
    handleCollision_separates Real.sqrt isSqrt_real headOnA headOnB rfl rfl
      (Or.inl headOnA_moving) 15 headOn_distance.symm (by norm_num) (by norm_num) ⟨1, 0⟩
      (by norm_num [headOnA, headOnB])⟩

/-- Exchange in exact arithmetic.  For two unpotted balls, not both at
rest, at centre distance `0 < d < 20` with unit normal `n = (b.pos - a.pos) / d`,
`handleCollision` yields `a.v' = a.v - n * ((a.v - b.v) · n)` and
`b.v' = b.v + n * ((a.v - b.v) · n)`; the components along `n` are exchanged
and the component along any `t` orthogonal to `n` is unchanged.  The proof
rests on `n · n = 1`, which the rounded reading does not have. -/
theorem handleCollision_exchange (sqrt : K → K) (hs : IsSqrt sqrt) (a b : Ball K)
    (ha : a.potted = false) (hb : b.potted = false)
    (hm : isMoving a = true ∨ isMoving b = true)
    (d : K) (hd : d = sqrt (b.pos.sub a.pos).squaredLength) (h0 : 0 < d) (h20 : d < 20)
    (n : Vec2d K) (hn : n = ⟨(b.pos.x - a.pos.x) / d, (b.pos.y - a.pos.y) / d⟩) :
    ∃ a1 b1 : Ball K, handleCollision sqrt a b = some (a1, b1) ∧
      a1.v = a.v.sub (n.mul ((a.v.sub b.v).dot n)) ∧
      b1.v = b.v.add (n.mul ((a.v.sub b.v).dot n)) ∧
      a1.v.dot n = b.v.dot n ∧ b1.v.dot n = a.v.dot n ∧
      ∀ t : Vec2d K, t.dot n = 0 → a1.v.dot t = a.v.dot t ∧ b1.v.dot t = b.v.dot t := by
  have hnn := normal_dot_self sqrt hs a b d hd h0 n hn
  refine ⟨_, _, handleCollision_eq_resolved sqrt a b ha hb hm d hd h0 h20 n hn,
    rfl, rfl, ?_, ?_, ?_⟩
  · simp only [resolved, Vec2d.dot, Vec2d.sub, Vec2d.mul]
    linear_combination (-((a.v.x - b.v.x) * n.x + (a.v.y - b.v.y) * n.y)) * hnn
  · simp only [resolved, Vec2d.dot, Vec2d.sub, Vec2d.add, Vec2d.mul]
    linear_combination (((a.v.x - b.v.x) * n.x + (a.v.y - b.v.y) * n.y)) * hnn
  · intro t ht
    have ht' : t.x * n.x + t.y * n.y = 0 := ht
    constructor
    · simp only [resolved, Vec2d.dot, Vec2d.sub, Vec2d.mul]
      linear_combination (-((a.v.x - b.v.x) * n.x + (a.v.y - b.v.y) * n.y)) * ht'
    · simp only [resolved, Vec2d.dot, Vec2d.sub, Vec2d.add, Vec2d.mul]
      linear_combination (((a.v.x - b.v.x) * n.x + (a.v.y - b.v.y) * n.y)) * ht'

theorem handleCollision_exchange_witness :
    handleCollision Real.sqrt (headOnA (K := ℝ)) headOnB =
      some (⟨⟨97.5, 200⟩, ⟨-2, 0⟩, ⟨255, 255, 255⟩, 0, false, "Cue Ball"⟩,
        ⟨⟨117.5, 200⟩, ⟨2, 0⟩, ⟨255, 0, 0⟩, 1, false, "Red Ball"⟩) ∧
    (20 : ℝ) ≤ Real.sqrt
      ((⟨117.5, 200⟩ : Vec2d ℝ).sub (⟨97.5, 200⟩ : Vec2d ℝ)).squaredLength ∧
    ∃ a1 b1 : Ball ℝ, handleCollision Real.sqrt headOnA headOnB = some (a1, b1) ∧
      a1.v = (headOnA (K := ℝ)).v.sub
        ((⟨1, 0⟩ : Vec2d ℝ).mul (((headOnA (K := ℝ)).v.sub headOnB.v).dot ⟨1, 0⟩)) ∧
      b1.v = (headOnB (K := ℝ)).v.add
        ((⟨1, 0⟩ : Vec2d ℝ).mul (((headOnA (K := ℝ)).v.sub headOnB.v).dot ⟨1, 0⟩)) ∧
      a1.v.dot ⟨1, 0⟩ = (headOnB (K := ℝ)).v.dot ⟨1, 0⟩ ∧
      b1.v.dot ⟨1, 0⟩ = (headOnA (K := ℝ)).v.dot ⟨1, 0⟩ ∧
      ∀ t : Vec2d ℝ, t.dot ⟨1, 0⟩ = 0 →
        a1.v.dot t = (headOnA (K := ℝ)).v.dot t ∧ b1.v.dot t = (headOnB (K := ℝ)).v.dot t := by
  refine ⟨?_, ?_, handleCollision_exchange Real.sqrt isSqrt_real headOnA headOnB rfl rfl
      (Or.inl headOnA_moving) 15 headOn_distance.symm (by norm_num) (by norm_num) ⟨1, 0⟩
      (by norm_num [headOnA, headOnB])⟩
  · rw [handleCollision_eq_resolved Real.sqrt headOnA headOnB rfl rfl (Or.inl headOnA_moving)
      15 headOn_distance.symm (by norm_num) (by norm_num) ⟨1, 0⟩
      (by norm_num [headOnA, headOnB]), headOn_resolved]
  · have h : ((⟨117.5, 200⟩ : Vec2d ℝ).sub (⟨97.5, 200⟩ : Vec2d ℝ)).squaredLength
        = 20 * 20 := by
      norm_num [Vec2d.sub, Vec2d.squaredLength, Vec2d.dot]
    rw [h, isSqrt_unique Real.sqrt isSqrt_real 20 (by norm_num)]

/-! ## The integrator `updateBall` -/

theorem updateBall_guard_iff (ball : Ball K) :
    (ball.potted || !isMoving ball) = true ↔
      (ball.potted = true ∨ ball.v.squaredLength < 0.0001) := by
  simp [isMoving_eq_false_iff]

/-- The ball `updateBall` leaves when the guard does not fire, written with the constants. -/
theorem updateBall_moving (ball : Ball K) (hp : ball.potted = false)
    (hm : ¬ ball.v.squaredLength < 0.0001) :
    updateBall ball =
      ({ ball with
          pos := ⟨if ball.pos.x + ball.v.x - 10 < 60 ∨ ball.pos.x + ball.v.x + 10 > 740
                    then clamp (ball.pos.x + ball.v.x) 70 730 else ball.pos.x + ball.v.x,
                  if ball.pos.y + ball.v.y - 10 < 60 ∨ ball.pos.y + ball.v.y + 10 > 340
                    then clamp (ball.pos.y + ball.v.y) 70 330 else ball.pos.y + ball.v.y⟩
          v := ⟨if ball.pos.x + ball.v.x - 10 < 60 ∨ ball.pos.x + ball.v.x + 10 > 740
                    then -(ball.v.x * 0.9995) else ball.v.x * 0.9995,
                if ball.pos.y + ball.v.y - 10 < 60 ∨ ball.pos.y + ball.v.y + 10 > 340
                    then -(ball.v.y * 0.9995) else ball.v.y * 0.9995⟩ }, true) := by
  have hg : (ball.potted || !isMoving ball) = false := by
    rw [Bool.eq_false_iff]
    intro h
    rcases (updateBall_guard_iff ball).1 h with h | h
    · rw [hp] at h; cases h
    · exact hm h
  have c1 : ((BALL_RADIUS : Int) : K) = 10 := by norm_num [BALL_RADIUS]
  have c2 : ((TABLE_MARGIN : Int) : K) = 60 := by norm_num [TABLE_MARGIN]
  have c3 : ((SCREEN_WIDTH - TABLE_MARGIN : Int) : K) = 740 := by
    norm_num [SCREEN_WIDTH, TABLE_MARGIN]
  have c4 : ((SCREEN_HEIGHT - TABLE_MARGIN : Int) : K) = 340 := by
    norm_num [SCREEN_HEIGHT, TABLE_MARGIN]
  have c5 : ((TABLE_MARGIN + BALL_RADIUS : Int) : K) = 70 := by
    norm_num [BALL_RADIUS, TABLE_MARGIN]
  have c6 : ((SCREEN_WIDTH - TABLE_MARGIN - BALL_RADIUS : Int) : K) = 730 := by
    norm_num [SCREEN_WIDTH, TABLE_MARGIN, BALL_RADIUS]
  have c7 : ((SCREEN_HEIGHT - TABLE_MARGIN - BALL_RADIUS : Int) : K) = 330 := by
    norm_num [SCREEN_HEIGHT, TABLE_MARGIN, BALL_RADIUS]
  unfold updateBall
  simp only [hg, Bool.false_eq_true, if_false, c1, c2, c3, c4, c5, c6, c7, FRICTION,
    Vec2d.add, Vec2d.mul]
  by_cases hx : ball.pos.x + ball.v.x - 10 < 60 ∨ ball.pos.x + ball.v.x + 10 > 740 <;>
  by_cases hy : ball.pos.y + ball.v.y - 10 < 60 ∨ ball.pos.y + ball.v.y + 10 > 340 <;>
  simp only [hx, hy, if_true, if_false]

theorem clamp_of_lt (p lo hi : K) (h : p < lo) : clamp p lo hi = lo := by
  simp [clamp, h]

theorem clamp_of_gt (p lo hi : K) (hlo : lo ≤ hi) (h : hi < p) : clamp p lo hi = hi := by
  have : ¬ p < lo := not_lt.2 (le_trans hlo (le_of_lt h))
  simp [clamp, h, this]

theorem clamp_mem (p lo hi : K) (hlo : lo ≤ hi) : lo ≤ clamp p lo hi ∧ clamp p lo hi ≤ hi := by
  unfold clamp
  split
  · exact ⟨le_refl _, hlo⟩
  · split
    · exact ⟨hlo, le_refl _⟩
    · constructor
      · exact not_lt.1 ‹_›
      · exact not_lt.1 ‹_›

/-- Claim C8 (integrator no-op and return value).  `updateBall` returns false
and leaves the ball unchanged if and only if the ball is potted or its
squared speed `v.x² + v.y²` is below `0.0001`; in every other case it returns
true. -/
theorem updateBall_noop_iff (ball : Ball K) :
    (((updateBall ball).2 = false ∧ (updateBall ball).1 = ball) ↔
        (ball.potted = true ∨ ball.v.squaredLength < 0.0001)) ∧
      (¬ (ball.potted = true ∨ ball.v.squaredLength < 0.0001) → (updateBall ball).2 = true) := by
  by_cases h : ball.potted = true ∨ ball.v.squaredLength < 0.0001
  · have hg := (updateBall_guard_iff ball).2 h
    simp [updateBall, hg, h]
  · have hp : ball.potted = false := by
      cases hb : ball.potted
      · rfl
      · exact absurd (Or.inl hb) h
    have hm : ¬ ball.v.squaredLength < 0.0001 := fun hlt => h (Or.inr hlt)
    rw [updateBall_moving ball hp hm]
    simp [h]

/-- Claim C9 (Euler step with friction).  For an unpotted moving ball whose
moved position `pos + v` keeps the ball's edges inside the table on both axes
(`60 ≤ p - 10` and `p + 10 ≤ 740` on x, `≤ 340` on y), `updateBall` yields
`pos' = pos + v` and `v' = 0.9995 * v`, every other field unchanged, and
returns true. -/
theorem updateBall_euler (ball : Ball K) (hp : ball.potted = false)
    (hm : ¬ ball.v.squaredLength < 0.0001)
    (hx1 : 60 ≤ ball.pos.x + ball.v.x - 10) (hx2 : ball.pos.x + ball.v.x + 10 ≤ 740)
    (hy1 : 60 ≤ ball.pos.y + ball.v.y - 10) (hy2 : ball.pos.y + ball.v.y + 10 ≤ 340) :
    updateBall ball =
      ({ ball with pos := ⟨ball.pos.x + ball.v.x, ball.pos.y + ball.v.y⟩,
                   v := ⟨0.9995 * ball.v.x, 0.9995 * ball.v.y⟩ }, true) := by
  have hx : ¬ (ball.pos.x + ball.v.x - 10 < 60 ∨ ball.pos.x + ball.v.x + 10 > 740) := by
    rintro (h | h)
    · exact absurd h (not_lt.2 hx1)
    · exact absurd h (not_lt.2 hx2)
  have hy : ¬ (ball.pos.y + ball.v.y - 10 < 60 ∨ ball.pos.y + ball.v.y + 10 > 340) := by
    rintro (h | h)
    · exact absurd h (not_lt.2 hy1)
    · exact absurd h (not_lt.2 hy2)
  rw [updateBall_moving ball hp hm]
  simp only [hx, hy, if_false, mul_comm]

theorem updateBall_euler_witness :
    updateBall (launchedCue (K := ℚ)) =
      (⟨⟨204, 200⟩, ⟨4 * 0.9995, 0⟩, ⟨255, 255, 255⟩, 0, false, "Cue Ball"⟩, true) :=
  (updateBall_euler launchedCue rfl
      (by norm_num [launchedCue, Vec2d.squaredLength, Vec2d.dot])
      (by norm_num [launchedCue]) (by norm_num [launchedCue])
      (by norm_num [launchedCue]) (by norm_num [launchedCue])).trans
    (by norm_num [launchedCue])

/-- Claim C10 (boundary reflection).  For an unpotted moving ball and for each
axis on its own, with `p` the moved coordinate `pos + v`: if `p - 10 < 60` or
`p + 10 > 740` (340 on y), `updateBall` leaves that axis's velocity equal to
`-(0.9995 * v)` and its position equal to `clamp p 70 730` (`70 330` on y),
which lies in that interval and puts the ball's edge on the crossed boundary;
otherwise the axis keeps position `p` and velocity `0.9995 * v`.  The two
axes are decided separately, so both can reflect in one call. -/
theorem updateBall_reflect (ball : Ball K) (hp : ball.potted = false)
    (hm : ¬ ball.v.squaredLength < 0.0001) :
    (updateBall ball).2 = true ∧
    (ball.pos.x + ball.v.x - 10 < 60 ∨ ball.pos.x + ball.v.x + 10 > 740 →
      (updateBall ball).1.v.x = -(0.9995 * ball.v.x) ∧
      (updateBall ball).1.pos.x = clamp (ball.pos.x + ball.v.x) 70 730 ∧
      70 ≤ (updateBall ball).1.pos.x ∧ (updateBall ball).1.pos.x ≤ 730 ∧
      (ball.pos.x + ball.v.x - 10 < 60 → (updateBall ball).1.pos.x - 10 = 60) ∧
      (ball.pos.x + ball.v.x + 10 > 740 → (updateBall ball).1.pos.x + 10 = 740)) ∧
    (¬ (ball.pos.x + ball.v.x - 10 < 60 ∨ ball.pos.x + ball.v.x + 10 > 740) →
      (updateBall ball).1.v.x = 0.9995 * ball.v.x ∧
      (updateBall ball).1.pos.x = ball.pos.x + ball.v.x) ∧
    (ball.pos.y + ball.v.y - 10 < 60 ∨ ball.pos.y + ball.v.y + 10 > 340 →
      (updateBall ball).1.v.y = -(0.9995 * ball.v.y) ∧
      (updateBall ball).1.pos.y = clamp (ball.pos.y + ball.v.y) 70 330 ∧
      70 ≤ (updateBall ball).1.pos.y ∧ (updateBall ball).1.pos.y ≤ 330 ∧
      (ball.pos.y + ball.v.y - 10 < 60 → (updateBall ball).1.pos.y - 10 = 60) ∧
      (ball.pos.y + ball.v.y + 10 > 340 → (updateBall ball).1.pos.y + 10 = 340)) ∧
    (¬ (ball.pos.y + ball.v.y - 10 < 60 ∨ ball.pos.y + ball.v.y + 10 > 340) →
      (updateBall ball).1.v.y = 0.9995 * ball.v.y ∧
      (updateBall ball).1.pos.y = ball.pos.y + ball.v.y) := by
  rw [updateBall_moving ball hp hm]
  refine ⟨rfl, ?_, ?_, ?_, ?_⟩
  · intro hx
    simp only [hx, if_true]
    refine ⟨by rw [mul_comm], trivial, (clamp_mem _ _ _ (by norm_num)).1,
      (clamp_mem _ _ _ (by norm_num)).2, ?_, ?_⟩
    · intro h
      rw [clamp_of_lt _ _ _ (by linarith)]; norm_num
    · intro h
      rw [clamp_of_gt _ _ _ (by norm_num) (by linarith)]; norm_num
  · intro hx
    simp only [hx, if_false]
    exact ⟨mul_comm _ _, trivial⟩
  · intro hy
    simp only [hy, if_true]
    refine ⟨by rw [mul_comm], trivial, (clamp_mem _ _ _ (by norm_num)).1,
      (clamp_mem _ _ _ (by norm_num)).2, ?_, ?_⟩
    · intro h
      rw [clamp_of_lt _ _ _ (by linarith)]; norm_num
    · intro h
      rw [clamp_of_gt _ _ _ (by norm_num) (by linarith)]; norm_num
  · intro hy
    simp only [hy, if_false]
    exact ⟨mul_comm _ _, trivial⟩

theorem updateBall_reflect_witness :
    updateBall (cornerBall (K := ℚ)) =
      (⟨⟨70, 70⟩, ⟨-(0.9995 * -5), -(0.9995 * -4)⟩, ⟨255, 0, 0⟩, 1, false, "Red Ball"⟩, true) ∧
    (cornerBall (K := ℚ)).pos.x + cornerBall.v.x - 10 < 60 ∧
    (cornerBall (K := ℚ)).pos.y + cornerBall.v.y - 10 < 60 ∧
    (updateBall (cornerBall (K := ℚ))).1.v.x = -(0.9995 * -5) ∧
    (updateBall (cornerBall (K := ℚ))).1.pos.x - 10 = 60 ∧
    (updateBall (cornerBall (K := ℚ))).1.v.y = -(0.9995 * -4) ∧
    (updateBall (cornerBall (K := ℚ))).1.pos.y - 10 = 60 := by
  have hm : ¬ (cornerBall (K := ℚ)).v.squaredLength < 0.0001 := by
    norm_num [cornerBall, Vec2d.squaredLength, Vec2d.dot]
  have hx : (cornerBall (K := ℚ)).pos.x + cornerBall.v.x - 10 < 60 := by norm_num [cornerBall]
  have hy : (cornerBall (K := ℚ)).pos.y + cornerBall.v.y - 10 < 60 := by norm_num [cornerBall]
  have h := updateBall_reflect (cornerBall (K := ℚ)) rfl hm
  have h1 := h.2.1 (Or.inl hx)
  have h2 := h.2.2.2.1 (Or.inl hy)
  refine ⟨?_, hx, hy, h1.1, h1.2.2.2.2.1 hx, h2.1, h2.2.2.2.2.1 hy⟩
  rw [updateBall_moving _ rfl hm]
  norm_num [cornerBall, clamp]

/-! ## Potting -/

theorem handlePottingLoop_cases (ball : Ball K) (pockets : List (Pocket K)) (score : Int) :
    (handlePottingLoop ball pockets score).1.potted = true ∨
      handlePottingLoop ball pockets score = (ball, score) := by
  induction pockets with
  | nil => exact Or.inr rfl
  | cons pocket rest ih =>
    unfold handlePottingLoop
    split
    · left
      split
      · rfl
      · split <;> rfl
    · exact ih

theorem handlePotting_of_potted (ball : Ball K) (pockets : List (Pocket K)) (score : Int)
    (h : ball.potted = true) : handlePotting ball pockets score = (ball, score) := by
  simp [handlePotting, h]

/-- Claim C6 (capture idempotence).  `handlePotting` on an already potted ball
changes neither the ball nor the score, and for every ball, pocket list and
score, calling `handlePotting` twice in a row gives the same ball and score
as calling it once. -/
theorem handlePotting_idempotent (ball : Ball K) (pockets : List (Pocket K)) (score : Int) :
    (ball.potted = true → handlePotting ball pockets score = (ball, score)) ∧
      handlePotting (handlePotting ball pockets score).1 pockets
          (handlePotting ball pockets score).2 = handlePotting ball pockets score := by
  refine ⟨handlePotting_of_potted ball pockets score, ?_⟩
  by_cases hp : ball.potted = true
  · rw [handlePotting_of_potted ball pockets score hp]
    exact handlePotting_of_potted ball pockets score hp
  · have hu : handlePotting ball pockets score = handlePottingLoop ball pockets score := by
      simp [handlePotting, hp]
    rcases handlePottingLoop_cases ball pockets score with h | h
    · rw [hu]
      exact handlePotting_of_potted _ pockets _ h
    · rw [hu, h]
      show handlePotting ball pockets score = (ball, score)
      rw [hu, h]

/-! ## The initial layout -/

theorem createBall_some (n : String) (c : Ball K) (h : createBall n = some c) :
    c.name = n ∧ c.v = ⟨0, 0⟩ ∧ c.potted = false := by
  unfold createBall at h
  split_ifs at h <;> cases h <;> simp_all

theorem redBalls_eq :
    redBalls (K := K) =
    [ ⟨⟨600, 200⟩, ⟨0, 0⟩, ⟨255, 0, 0⟩, 1, false, "Red Ball"⟩,
      ⟨⟨622, 189⟩, ⟨0, 0⟩, ⟨255, 0, 0⟩, 1, false, "Red Ball"⟩,
      ⟨⟨622, 211⟩, ⟨0, 0⟩, ⟨255, 0, 0⟩, 1, false, "Red Ball"⟩,
      ⟨⟨644, 178⟩, ⟨0, 0⟩, ⟨255, 0, 0⟩, 1, false, "Red Ball"⟩,
      ⟨⟨644, 200⟩, ⟨0, 0⟩, ⟨255, 0, 0⟩, 1, false, "Red Ball"⟩,
      ⟨⟨644, 222⟩, ⟨0, 0⟩, ⟨255, 0, 0⟩, 1, false, "Red Ball"⟩,
      ⟨⟨666, 167⟩, ⟨0, 0⟩, ⟨255, 0, 0⟩, 1, false, "Red Ball"⟩,
      ⟨⟨666, 189⟩, ⟨0, 0⟩, ⟨255, 0, 0⟩, 1, false, "Red Ball"⟩,
      ⟨⟨666, 211⟩, ⟨0, 0⟩, ⟨255, 0, 0⟩, 1, false, "Red Ball"⟩,
      ⟨⟨666, 233⟩, ⟨0, 0⟩, ⟨255, 0, 0⟩, 1, false, "Red Ball"⟩,
      ⟨⟨688, 156⟩, ⟨0, 0⟩, ⟨255, 0, 0⟩, 1, false, "Red Ball"⟩,
      ⟨⟨688, 178⟩, ⟨0, 0⟩, ⟨255, 0, 0⟩, 1, false, "Red Ball"⟩,
      ⟨⟨688, 200⟩, ⟨0, 0⟩, ⟨255, 0, 0⟩, 1, false, "Red Ball"⟩,
      ⟨⟨688, 222⟩, ⟨0, 0⟩, ⟨255, 0, 0⟩, 1, false, "Red Ball"⟩,
      ⟨⟨688, 244⟩, ⟨0, 0⟩, ⟨255, 0, 0⟩, 1, false, "Red Ball"⟩ ] := by
  have h5 : List.range 5 = [0, 1, 2, 3, 4] := rfl
  have h4 : List.range 4 = [0, 1, 2, 3] := rfl
  have h3 : List.range 3 = [0, 1, 2] := rfl
  have h2 : List.range 2 = [0, 1] := rfl
  have h1 : List.range 1 = [0] := rfl
  simp only [redBalls, h5, List.flatMap_cons, List.flatMap_nil, h4, h3, h2, h1, List.map_cons,
    List.map_nil, List.append_nil, List.cons_append, List.nil_append, Nat.reduceAdd,
    SCREEN_WIDTH, SCREEN_HEIGHT, BALL_RADIUS, SPACING, TRIANGLE_START_X, TRIANGLE_START_Y]
  norm_num

theorem initialBalls_eq :
    initialBalls (K := K) =
    ⟨⟨200, 200⟩, ⟨0, 0⟩, ⟨255, 255, 255⟩, 0, false, "Cue Ball"⟩ :: (redBalls ++
    [ ⟨⟨334, 200⟩, ⟨0, 0⟩, ⟨255, 255, 0⟩, 2, false, "Yellow Ball"⟩,
      ⟨⟨378, 104⟩, ⟨0, 0⟩, ⟨0, 255, 0⟩, 3, false, "Green Ball"⟩,
      ⟨⟨378, 296⟩, ⟨0, 0⟩, ⟨139, 69, 19⟩, 4, false, "Brown Ball"⟩,
      ⟨⟨400, 200⟩, ⟨0, 0⟩, ⟨0, 0, 255⟩, 5, false, "Blue Ball"⟩,
      ⟨⟨534, 200⟩, ⟨0, 0⟩, ⟨255, 105, 180⟩, 6, false, "Pink Ball"⟩,
      ⟨⟨732, 200⟩, ⟨0, 0⟩, ⟨0, 0, 0⟩, 7, false, "Black Ball"⟩ ]) := by
  simp [initialBalls, createBall, SCREEN_WIDTH, SCREEN_HEIGHT, TABLE_MARGIN, BALL_RADIUS,
    SPACING, TRIANGLE_START_X]
  norm_num

theorem initialBalls_fresh :
    ∀ b ∈ initialBalls (K := K), b.potted = false ∧ b.v = ⟨0, 0⟩ := by
  rw [initialBalls_eq, redBalls_eq]
  simp

theorem initialBalls_wellNamed : ∀ b ∈ initialBalls (K := K), WellNamed b := by
  rw [initialBalls_eq, redBalls_eq]
  simp [WellNamed, createBall]

theorem initialBalls_y_range :
    ∀ b ∈ initialBalls (K := K), 80 ≤ b.pos.y ∧ b.pos.y ≤ 320 := by
  rw [initialBalls_eq, redBalls_eq]
  simp
  norm_num

theorem not_in_pocket_of_y_range (b : Ball K) (h1 : 80 ≤ b.pos.y) (h2 : b.pos.y ≤ 320) :
    ∀ p ∈ createPockets (K := K), isBallInPocket b p = false := by
  have key : ∀ x0 y0 : K, (y0 = 60 ∨ y0 = 340) →
      ¬ ((b.pos.x - x0) * (b.pos.x - x0) + (b.pos.y - y0) * (b.pos.y - y0) < 400) := by
    intro x0 y0 hy hlt
    rcases hy with rfl | rfl
    · nlinarith [mul_self_nonneg (b.pos.x - x0), mul_self_nonneg (b.pos.y - 80)]
    · nlinarith [mul_self_nonneg (b.pos.x - x0), mul_self_nonneg (320 - b.pos.y)]
  intro p hp
  simp only [createPockets, List.mem_cons, List.mem_singleton, List.not_mem_nil, or_false] at hp
  have c60 : ((TABLE_MARGIN : Int) : K) = 60 := by norm_num [TABLE_MARGIN]
  have c340 : ((SCREEN_HEIGHT - TABLE_MARGIN : Int) : K) = 340 := by
    norm_num [SCREEN_HEIGHT, TABLE_MARGIN]
  have c400 : ((POCKET_RADIUS * POCKET_RADIUS : Int) : K) = 400 := by
    norm_num [POCKET_RADIUS]
  rcases hp with rfl | rfl | rfl | rfl | rfl | rfl <;>
    simp only [isBallInPocket, Vec2d.sub, Vec2d.squaredLength, Vec2d.dot, c60, c340, c400,
      decide_eq_false_iff_not] <;>
    exact key _ _ (by simp)

theorem initialBalls_black :
    (initialBalls (K := K))[21]? =
      some ⟨⟨732, 200⟩, ⟨0, 0⟩, ⟨0, 0, 0⟩, 7, false, "Black Ball"⟩ := by
  rw [initialBalls_eq, redBalls_eq]
  rfl

/-! ## Lists of balls -/

theorem forall₂_comp {α : Type} {R S T : α → α → Prop} (h : ∀ a b c, R a b → S b c → T a c) :
    ∀ {l1 l2 l3 : List α}, List.Forall₂ R l1 l2 → List.Forall₂ S l2 l3 → List.Forall₂ T l1 l3 := by
  intro l1 l2 l3 h12
  induction h12 generalizing l3 with
  | nil => intro h23; cases h23; exact List.Forall₂.nil
  | cons hab _ ih =>
    intro h23
    cases h23 with
    | cons hbc htl => exact List.Forall₂.cons (h _ _ _ hab hbc) (ih htl)

theorem forall₂_getElem? {α : Type} {R : α → α → Prop} :
    ∀ {l1 l2 : List α}, List.Forall₂ R l1 l2 → ∀ (i : Nat) (a : α), l1[i]? = some a →
      ∃ b, l2[i]? = some b ∧ R a b := by
  intro l1 l2 h
  induction h with
  | nil => intro i a hi; simp at hi
  | cons hab _ ih =>
    intro i a hi
    cases i with
    | zero =>
      simp only [List.getElem?_cons_zero, Option.some.injEq] at hi
      subst hi
      exact ⟨_, by simp, hab⟩
    | succ j =>
      simp only [List.getElem?_cons_succ] at hi ⊢
      exact ih j a hi

theorem forall₂_refl_of {α : Type} {R : α → α → Prop} (l : List α) (h : ∀ a ∈ l, R a a) :
    List.Forall₂ R l l := List.forall₂_same.2 h

theorem forall₂_mem_right {α : Type} {R : α → α → Prop} :
    ∀ {l1 l2 : List α}, List.Forall₂ R l1 l2 → ∀ b ∈ l2, ∃ a ∈ l1, R a b := by
  intro l1 l2 h
  induction h with
  | nil => intro b hb; simp at hb
  | cons hab _ ih =>
    intro b hb
    rcases List.mem_cons.1 hb with rfl | hb
    · exact ⟨_, List.mem_cons_self _ _, hab⟩
    · obtain ⟨a, ha, hr⟩ := ih b hb
      exact ⟨a, List.mem_cons_of_mem _ ha, hr⟩

/-! ### The four phases of a frame, ball by ball -/

theorem updateAll_forall₂ {R : Ball K → Ball K → Prop} (h : ∀ b, R b (updateBall b).1) :
    ∀ (balls : List (Ball K)) (n : Nat), List.Forall₂ R balls (updateAll balls n).1 := by
  intro balls
  induction balls with
  | nil => intro n; exact List.Forall₂.nil
  | cons b rest ih => intro n; exact List.Forall₂.cons (h b) (ih _)

theorem pottingAll_forall₂ {R : Ball K → Ball K → Prop} (pockets : List (Pocket K))
    (hkeep : ∀ b, b.potted = true → R b b)
    (h : ∀ b score, b.potted = false → R b (handlePotting b pockets score).1) :
    ∀ (balls : List (Ball K)) (score : Int),
      List.Forall₂ R balls (pottingAll pockets balls score).1 := by
  intro balls
  induction balls with
  | nil => intro score; exact List.Forall₂.nil
  | cons b rest ih =>
    intro score
    refine List.Forall₂.cons ?_ (ih _)
    cases hb : b.potted
    · simp only [hb, Bool.not_false, if_true]
      exact h b score hb
    · simp only [hb, Bool.not_true, Bool.false_eq_true, if_false]
      exact hkeep b hb

theorem handlePottedBalls_forall₂ {R : Ball K → Ball K → Prop}
    (hkeep : ∀ b, ¬ (b.potted = true ∧ (b.name = "Cue Ball" ∨ b.points > 1)) → R b b)
    (h : ∀ b c, b.potted = true → (b.name = "Cue Ball" ∨ b.points > 1) →
      createBall b.name = some c → R b c) :
    ∀ (balls balls1 : List (Ball K)), handlePottedBalls balls = some balls1 →
      List.Forall₂ R balls balls1 := by
  intro balls
  induction balls with
  | nil => intro balls1 hb; cases hb; exact List.Forall₂.nil
  | cons b rest ih =>
    intro balls1 hb
    unfold handlePottedBalls at hb
    split_ifs at hb with h1 h2 h3
    · rcases hr : handlePottedBalls rest with _ | r
      · rw [hr] at hb; cases hb
      · rw [hr] at hb; cases hb
        refine List.Forall₂.cons (hkeep b ?_) (ih r hr)
        rintro ⟨hp, _⟩; simp [hp] at h1
    · have hp : b.potted = true := by simpa using h1
      rcases hc : createBall (K := K) b.name with _ | c
      · rw [hc] at hb; cases hb
      · rcases hr : handlePottedBalls rest with _ | r
        · rw [hc, hr] at hb; cases hb
        · rw [hc, hr] at hb; cases hb
          exact List.Forall₂.cons (h b c hp (Or.inl h2) hc) (ih r hr)
    · have hp : b.potted = true := by simpa using h1
      rcases hc : createBall (K := K) b.name with _ | c
      · rw [hc] at hb; cases hb
      · rcases hr : handlePottedBalls rest with _ | r
        · rw [hc, hr] at hb; cases hb
        · rw [hc, hr] at hb; cases hb
          exact List.Forall₂.cons (h b c hp (Or.inr h3) hc) (ih r hr)
    · rcases hr : handlePottedBalls rest with _ | r
      · rw [hr] at hb; cases hb
      · rw [hr] at hb; cases hb
        refine List.Forall₂.cons (hkeep b ?_) (ih r hr)
        rintro ⟨_, h' | h'⟩
        · exact h2 h'
        · exact h3 h'

theorem collideRow_forall₂ {R : Ball K → Ball K → Prop} (sqrt : K → K)
    (hrefl : ∀ b, R b b) (htrans : ∀ a b c, R a b → R b c → R a c)
    (h : ∀ a b a1 b1, handleCollision sqrt a b = some (a1, b1) → R a a1 ∧ R b b1) :
    ∀ (rest : List (Ball K)) (a a2 : Ball K) (rest1 : List (Ball K)),
      collideRow sqrt a rest = some (a2, rest1) → R a a2 ∧ List.Forall₂ R rest rest1 := by
  intro rest
  induction rest with
  | nil =>
    intro a a2 rest1 hc
    simp only [collideRow, Option.some.injEq, Prod.mk.injEq] at hc
    obtain ⟨rfl, rfl⟩ := hc
    exact ⟨hrefl _, List.Forall₂.nil⟩
  | cons b rest ih =>
    intro a a2 rest1 hc
    unfold collideRow at hc
    rcases hab : handleCollision sqrt a b with _ | ⟨a1, b1⟩
    · rw [hab] at hc; cases hc
    · simp only [hab] at hc
      rcases hr : collideRow sqrt a1 rest with _ | ⟨a3, rest3⟩
      · simp only [hr] at hc; cases hc
      · simp only [hr, Option.some.injEq, Prod.mk.injEq] at hc
        obtain ⟨rfl, rfl⟩ := hc
        obtain ⟨h1, h2⟩ := h a b a1 b1 hab
        obtain ⟨h3, h4⟩ := ih a1 a3 rest3 hr
        exact ⟨htrans _ _ _ h1 h3, List.Forall₂.cons h2 h4⟩

theorem collideFrom_forall₂ {R : Ball K → Ball K → Prop} (sqrt : K → K)
    (hrefl : ∀ b, R b b) (htrans : ∀ a b c, R a b → R b c → R a c)
    (h : ∀ a b a1 b1, handleCollision sqrt a b = some (a1, b1) → R a a1 ∧ R b b1) :
    ∀ (n : Nat) (balls balls1 : List (Ball K)),
      collideFrom sqrt n balls = some balls1 → List.Forall₂ R balls balls1 := by
  intro n
  induction n with
  | zero =>
    intro balls balls1 hc
    simp only [collideFrom, Option.some.injEq] at hc
    subst hc
    exact forall₂_refl_of _ (fun b _ => hrefl b)
  | succ n ih =>
    intro balls balls1 hc
    cases balls with
    | nil =>
      simp only [collideFrom, Option.some.injEq] at hc
      subst hc; exact List.Forall₂.nil
    | cons a rest =>
      unfold collideFrom at hc
      rcases hr : collideRow sqrt a rest with _ | ⟨a1, rest1⟩
      · rw [hr] at hc; cases hc
      · simp only [hr] at hc
        rcases hf : collideFrom sqrt n rest1 with _ | rest2
        · simp only [hf] at hc; cases hc
        · simp only [hf, Option.some.injEq] at hc
          subst hc
          obtain ⟨h1, h2⟩ := collideRow_forall₂ sqrt hrefl htrans h rest a a1 rest1 hr
          exact List.Forall₂.cons h1 (forall₂_comp htrans h2 (ih rest1 rest2 hf))

theorem tick_eq_some (sqrt : K → K) (s s1 : State K) (ht : tick sqrt s = some s1) :
    ∃ balls3 balls4 : List (Ball K),
      (if (updateAll s.balls s.balls.length).2 = 0
        then handlePottedBalls (pottingAll createPockets (updateAll s.balls s.balls.length).1
          s.score).1
        else some (pottingAll createPockets (updateAll s.balls s.balls.length).1 s.score).1)
        = some balls3 ∧
      collideAll sqrt balls3 = some balls4 ∧
      s1 = ⟨balls4, (pottingAll createPockets (updateAll s.balls s.balls.length).1 s.score).2⟩ := by
  unfold tick at ht
  simp only at ht
  split at ht
  · cases ht
  · rename_i balls3 h3
    split at ht
    · cases ht
    · rename_i balls4 h4
      cases ht
      exact ⟨balls3, balls4, h3, h4, rfl⟩

theorem tick_forall₂ {R : Ball K → Ball K → Prop} (sqrt : K → K)
    (hrefl : ∀ b, R b b) (htrans : ∀ a b c, R a b → R b c → R a c)
    (hupd : ∀ b, R b (updateBall b).1)
    (hpot : ∀ b score, b.potted = false → R b (handlePotting b createPockets score).1)
    (hresp : ∀ b c, b.potted = true → (b.name = "Cue Ball" ∨ b.points > 1) →
      createBall b.name = some c → R b c)
    (hcol : ∀ a b a1 b1, handleCollision sqrt a b = some (a1, b1) → R a a1 ∧ R b b1)
    (s s1 : State K) (ht : tick sqrt s = some s1) :
    List.Forall₂ R s.balls s1.balls := by
  obtain ⟨balls3, balls4, h3, h4, rfl⟩ := tick_eq_some sqrt s s1 ht
  have h1 := updateAll_forall₂ hupd s.balls s.balls.length
  have h2 := pottingAll_forall₂ createPockets (fun b _ => hrefl b) hpot
    (updateAll s.balls s.balls.length).1 s.score
  have h3' : List.Forall₂ R
      (pottingAll createPockets (updateAll s.balls s.balls.length).1 s.score).1 balls3 := by
    split_ifs at h3
    · exact handlePottedBalls_forall₂ (fun b _ => hrefl b) hresp _ _ h3
    · cases h3; exact forall₂_refl_of _ (fun b _ => hrefl b)
  have h4' := collideFrom_forall₂ sqrt hrefl htrans hcol _ _ _ h4
  exact forall₂_comp htrans (forall₂_comp htrans (forall₂_comp htrans h1 h2) h3') h4'

omit [LinearOrderedField K] in
theorem launch_forall₂ {R : Ball K → Ball K → Prop} (hrefl : ∀ b, R b b)
    (h : ∀ (b : Ball K) (V : Vec2d K), R b { b with v := V }) (V : Vec2d K) (s : State K) :
    List.Forall₂ R s.balls (launch V s).balls := by
  unfold launch
  cases hb : s.balls with
  | nil => simp only [hb]; exact List.Forall₂.nil
  | cons cue rest =>
    exact List.Forall₂.cons (h cue V) (forall₂_refl_of _ (fun b _ => hrefl b))

theorem steps_forall₂ {R : Ball K → Ball K → Prop} (sqrt : K → K)
    (hrefl : ∀ b, R b b) (htrans : ∀ a b c, R a b → R b c → R a c)
    (hupd : ∀ b, R b (updateBall b).1)
    (hpot : ∀ b score, b.potted = false → R b (handlePotting b createPockets score).1)
    (hresp : ∀ b c, b.potted = true → (b.name = "Cue Ball" ∨ b.points > 1) →
      createBall b.name = some c → R b c)
    (hcol : ∀ a b a1 b1, handleCollision sqrt a b = some (a1, b1) → R a a1 ∧ R b b1)
    (hlaunch : ∀ (b : Ball K) (V : Vec2d K), R b { b with v := V })
    (s s1 : State K) (hs : Steps sqrt s s1) :
    List.Forall₂ R s.balls s1.balls := by
  induction hs with
  | refl => exact forall₂_refl_of _ (fun b _ => hrefl b)
  | tick _ ht ih =>
    exact forall₂_comp htrans ih (tick_forall₂ sqrt hrefl htrans hupd hpot hresp hcol _ _ ht)
  | launch V _ ih =>
    exact forall₂_comp htrans ih (launch_forall₂ hrefl hlaunch V _)

/-! ### What each operation leaves alone -/

theorem updateBall_tags (b : Ball K) :
    (updateBall b).1.name = b.name ∧ (updateBall b).1.points = b.points ∧
      (updateBall b).1.potted = b.potted ∧ (updateBall b).1.color = b.color := by
  by_cases h : b.potted = true ∨ b.v.squaredLength < 0.0001
  · have hg := (updateBall_guard_iff b).2 h
    simp [updateBall, hg]
  · have hp : b.potted = false := by
      cases hb : b.potted
      · rfl
      · exact absurd (Or.inl hb) h
    rw [updateBall_moving b hp (fun hlt => h (Or.inr hlt))]
    exact ⟨rfl, rfl, rfl, rfl⟩

theorem handlePottingLoop_result (b : Ball K) (pockets : List (Pocket K)) (score : Int) :
    (handlePottingLoop b pockets score).1 = b ∨
      (handlePottingLoop b pockets score).1 = { b with potted := true } := by
  induction pockets with
  | nil => exact Or.inl rfl
  | cons pocket rest ih =>
    unfold handlePottingLoop
    split
    · right
      split
      · rfl
      · split <;> rfl
    · exact ih

theorem handlePotting_result (b : Ball K) (pockets : List (Pocket K)) (score : Int) :
    (handlePotting b pockets score).1 = b ∨
      (handlePotting b pockets score).1 = { b with potted := true } := by
  unfold handlePotting
  split
  · exact Or.inl rfl
  · exact handlePottingLoop_result b pockets score

theorem handleCollision_tags (sqrt : K → K) (a b a1 b1 : Ball K)
    (h : handleCollision sqrt a b = some (a1, b1)) :
    (a1.name = a.name ∧ a1.points = a.points ∧ a1.potted = a.potted ∧ a1.color = a.color) ∧
      (b1.name = b.name ∧ b1.points = b.points ∧ b1.potted = b.potted ∧ b1.color = b.color) := by
  unfold handleCollision at h
  split at h
  · cases h; exact ⟨⟨rfl, rfl, rfl, rfl⟩, ⟨rfl, rfl, rfl, rfl⟩⟩
  · split at h
    · cases h; exact ⟨⟨rfl, rfl, rfl, rfl⟩, ⟨rfl, rfl, rfl, rfl⟩⟩
    · simp only at h
      split at h
      · split at h
        · cases h
        · cases h; exact ⟨⟨rfl, rfl, rfl, rfl⟩, ⟨rfl, rfl, rfl, rfl⟩⟩
      · cases h; exact ⟨⟨rfl, rfl, rfl, rfl⟩, ⟨rfl, rfl, rfl, rfl⟩⟩

/-! ### Frames in which nothing moves -/

theorem updateBall_inert (b : Ball K) (h : Inert b) : updateBall b = (b, false) := by
  have hg : (b.potted || !isMoving b) = true := by
    rcases h with h | h <;> simp [h]
  simp [updateBall, hg]

theorem updateAll_inert (balls : List (Ball K)) (h : ∀ b ∈ balls, Inert b) (n : Nat) :
    updateAll balls n = (balls, n - balls.length) := by
  induction balls generalizing n with
  | nil => rfl
  | cons b rest ih =>
    have hb := updateBall_inert b (h b (List.mem_cons_self _ _))
    have hr := ih (fun c hc => h c (List.mem_cons_of_mem _ hc)) (n - 1)
    simp only [updateAll, hb, Bool.not_false, if_true, hr, List.length_cons, Prod.mk.injEq,
      true_and]
    omega

theorem handleCollision_inert (sqrt : K → K) (a b : Ball K) (ha : Inert a) (hb : Inert b) :
    handleCollision sqrt a b = some (a, b) := by
  unfold handleCollision
  by_cases hp : (a.potted || b.potted) = true
  · simp [hp]
  · have hpa : a.potted = false := by
      cases h : a.potted
      · rfl
      · simp [h] at hp
    have hpb : b.potted = false := by
      cases h : b.potted
      · rfl
      · simp [h] at hp
    have hma : isMoving a = false := by
      rcases ha with h | h
      · rw [hpa] at h; cases h
      · exact h
    have hmb : isMoving b = false := by
      rcases hb with h | h
      · rw [hpb] at h; cases h
      · exact h
    simp [hpa, hpb, hma, hmb]

theorem collideRow_inert (sqrt : K → K) (rest : List (Ball K)) (a : Ball K) (ha : Inert a)
    (h : ∀ b ∈ rest, Inert b) : collideRow sqrt a rest = some (a, rest) := by
  induction rest with
  | nil => rfl
  | cons b rest ih =>
    have hb := handleCollision_inert sqrt a b ha (h b (List.mem_cons_self _ _))
    have hr := ih (fun c hc => h c (List.mem_cons_of_mem _ hc))
    simp only [collideRow, hb, hr]

theorem collideFrom_inert (sqrt : K → K) (n : Nat) (balls : List (Ball K))
    (h : ∀ b ∈ balls, Inert b) : collideFrom sqrt n balls = some balls := by
  induction n generalizing balls with
  | zero => rfl
  | succ n ih =>
    cases balls with
    | nil => rfl
    | cons a rest =>
      have hr := collideRow_inert sqrt rest a (h a (List.mem_cons_self _ _))
        (fun c hc => h c (List.mem_cons_of_mem _ hc))
      have hf := ih rest (fun c hc => h c (List.mem_cons_of_mem _ hc))
      simp only [collideFrom, hr, hf]

theorem handlePottedBalls_total (balls : List (Ball K)) (h : ∀ b ∈ balls, WellNamed b) :
    ∃ balls1, handlePottedBalls balls = some balls1 := by
  induction balls with
  | nil => exact ⟨[], rfl⟩
  | cons b rest ih =>
    obtain ⟨r, hr⟩ := ih (fun c hc => h c (List.mem_cons_of_mem _ hc))
    have hw := h b (List.mem_cons_self _ _)
    unfold handlePottedBalls
    split_ifs with h1 h2 h3
    · exact ⟨b :: r, by simp [hr]⟩
    · obtain ⟨c, hc⟩ := hw (Or.inl h2)
      exact ⟨c :: r, by simp [hc, hr]⟩
    · obtain ⟨c, hc⟩ := hw (Or.inr h3)
      exact ⟨c :: r, by simp [hc, hr]⟩
    · exact ⟨b :: r, by simp [hr]⟩

theorem inert_of_created (n : String) (c : Ball K) (h : createBall n = some c) : Inert c := by
  obtain ⟨_, hv, _⟩ := createBall_some n c h
  right
  rw [isMoving_eq_false_iff, hv]
  norm_num [Vec2d.squaredLength, Vec2d.dot]

theorem wellNamed_of_created (n : String) (c : Ball K) (h : createBall n = some c) :
    WellNamed c := by
  obtain ⟨hn, _, _⟩ := createBall_some n c h
  intro _
  exact ⟨c, by rw [hn]; exact h⟩

/-- Every ball of a reachable state that the respawn would reset has a name of the table. -/
theorem reachable_wellNamed (sqrt : K → K) (s : State K) (hs : Reachable sqrt s) :
    ∀ b ∈ s.balls, WellNamed b := by
  have h := steps_forall₂ (R := fun b b1 => WellNamed b → WellNamed b1) sqrt
    (fun _ hb => hb) (fun _ _ _ h1 h2 hb => h2 (h1 hb))
    (fun b hb hc => by
      obtain ⟨hn, hp, _, _⟩ := updateBall_tags b
      rw [hn, hp] at hc
      obtain ⟨c, hcb⟩ := hb hc
      exact ⟨c, by rw [hn]; exact hcb⟩)
    (fun b score _ hb => by
      rcases handlePotting_result b createPockets score with h | h <;> rw [h] <;> exact hb)
    (fun b c _ _ hc _ => wellNamed_of_created _ c hc)
    (fun a b a1 b1 hab => by
      obtain ⟨⟨hn, hp, _, _⟩, ⟨hn', hp', _, _⟩⟩ := handleCollision_tags sqrt a b a1 b1 hab
      constructor
      · intro hb hc
        rw [hn, hp] at hc
        obtain ⟨c, hcb⟩ := hb hc
        exact ⟨c, by rw [hn]; exact hcb⟩
      · intro hb hc
        rw [hn', hp'] at hc
        obtain ⟨c, hcb⟩ := hb hc
        exact ⟨c, by rw [hn']; exact hcb⟩)
    (fun b V hb => hb) initialState s hs
  intro b hb
  obtain ⟨a, ha, hab⟩ := forall₂_mem_right h b hb
  exact hab (initialBalls_wellNamed a ha)

/-! ## Respawn -/

theorem inert_iff (b : Ball K) :
    Inert b ↔ (b.potted = true ∨ b.v.squaredLength < 0.0001) := by
  unfold Inert; rw [isMoving_eq_false_iff]

/-- A frame that starts with every ball potted or at rest: the integration
pass changes nothing and counts no moving ball, the respawn runs, and no
collision is resolved. -/
theorem tick_of_inert (sqrt : K → K) (s : State K) (hw : ∀ b ∈ s.balls, WellNamed b)
    (hi : ∀ b ∈ s.balls, Inert b) :
    ∃ balls3 : List (Ball K),
      handlePottedBalls (pottingAll createPockets s.balls s.score).1 = some balls3 ∧
      tick sqrt s = some ⟨balls3, (pottingAll createPockets s.balls s.score).2⟩ := by
  have hu : updateAll s.balls s.balls.length = (s.balls, 0) := by
    rw [updateAll_inert s.balls hi, Nat.sub_self]
  have h2 := pottingAll_forall₂ (R := fun b b1 => b1 = b ∨ b1 = { b with potted := true })
    createPockets (fun b _ => Or.inl rfl)
    (fun b score _ => handlePotting_result b createPockets score) s.balls s.score
  have hw2 : ∀ b ∈ (pottingAll createPockets s.balls s.score).1, WellNamed b := by
    intro b hb
    obtain ⟨a, ha, hab⟩ := forall₂_mem_right h2 b hb
    rcases hab with rfl | rfl
    · exact hw _ ha
    · exact hw a ha
  have hi2 : ∀ b ∈ (pottingAll createPockets s.balls s.score).1, Inert b := by
    intro b hb
    obtain ⟨a, ha, hab⟩ := forall₂_mem_right h2 b hb
    rcases hab with rfl | rfl
    · exact hi _ ha
    · exact Or.inl rfl
  obtain ⟨balls3, h3⟩ := handlePottedBalls_total _ hw2
  have h3' := handlePottedBalls_forall₂ (R := fun b b1 => Inert b → Inert b1)
    (fun b _ hb => hb) (fun b c _ _ hc _ => inert_of_created _ c hc) _ _ h3
  have hi3 : ∀ b ∈ balls3, Inert b := by
    intro b hb
    obtain ⟨a, ha, hab⟩ := forall₂_mem_right h3' b hb
    exact hab (hi2 a ha)
  have h4 : collideAll sqrt balls3 = some balls3 := collideFrom_inert sqrt _ balls3 hi3
  refine ⟨balls3, h3, ?_⟩
  unfold tick
  simp only [hu, if_true, h3, h4]

/-- Claim C4 (respawn exactness).  In a state reachable from the initial layout in
which every ball is potted or at rest (`v² < 0.0001`), the frame completes, and
every ball that was potted and is the cue ball or has `points > 1` finishes the
frame at the position of `createBall(name)`, with velocity `(0, 0)` and
`potted = false`. -/
theorem respawn_exact (sqrt : K → K) (s : State K) (hr : Reachable sqrt s)
    (hrest : ∀ b ∈ s.balls, b.potted = true ∨ b.v.squaredLength < 0.0001) :
    ∃ s1 : State K, tick sqrt s = some s1 ∧
      ∀ (i : Nat) (b : Ball K), s.balls[i]? = some b →
        (b.name = "Cue Ball" ∨ b.points > 1) → b.potted = true →
        ∃ c b1 : Ball K, createBall b.name = some c ∧ s1.balls[i]? = some b1 ∧
          b1.pos = c.pos ∧ b1.v = ⟨0, 0⟩ ∧ b1.potted = false := by
  have hw := reachable_wellNamed sqrt s hr
  have hi : ∀ b ∈ s.balls, Inert b := fun b hb => (inert_iff b).2 (hrest b hb)
  obtain ⟨balls3, h3, ht⟩ := tick_of_inert sqrt s hw hi
  refine ⟨_, ht, ?_⟩
  intro i b hb hcat hp
  have h2 := pottingAll_forall₂ (R := fun b b1 => b.potted = true → b1 = b)
    createPockets (fun b _ _ => rfl)
    (fun b score hf ht => by rw [hf] at ht; cases ht) s.balls s.score
  have h3' := handlePottedBalls_forall₂
    (R := fun b b1 => b.potted = true → (b.name = "Cue Ball" ∨ b.points > 1) →
      createBall b.name = some b1)
    (fun b hn hp hc => absurd ⟨hp, hc⟩ hn) (fun b c _ _ hc _ _ => hc) _ _ h3
  obtain ⟨b2, hb2, hR2⟩ := forall₂_getElem? h2 i b hb
  obtain ⟨b3, hb3, hR3⟩ := forall₂_getElem? h3' i b2 hb2
  have hb2eq : b2 = b := hR2 hp
  subst hb2eq
  have hc := hR3 hp hcat
  obtain ⟨_, hv, hpot⟩ := createBall_some _ b3 hc
  exact ⟨b3, b3, hc, hb3, rfl, hv, hpot⟩

/-! ## Boundary containment -/

theorem handlePottingLoop_none (b : Ball K) (pockets : List (Pocket K)) (score : Int)
    (h : ∀ p ∈ pockets, isBallInPocket b p = false) :
    handlePottingLoop b pockets score = (b, score) := by
  induction pockets with
  | nil => rfl
  | cons p rest ih =>
    have hp := h p (List.mem_cons_self _ _)
    simp only [handlePottingLoop, hp, Bool.false_eq_true, if_false]
    exact ih (fun q hq => h q (List.mem_cons_of_mem _ hq))

theorem pottingAll_none (pockets : List (Pocket K)) (balls : List (Ball K)) (score : Int)
    (h : ∀ b ∈ balls, b.potted = true ∨ ∀ p ∈ pockets, isBallInPocket b p = false) :
    pottingAll pockets balls score = (balls, score) := by
  induction balls with
  | nil => rfl
  | cons b rest ih =>
    have hr := ih (fun c hc => h c (List.mem_cons_of_mem _ hc))
    have hb : (if (!b.potted) = true then handlePotting b pockets score else (b, score))
        = (b, score) := by
      cases hp : b.potted
      · rcases h b (List.mem_cons_self _ _) with h1 | h1
        · rw [hp] at h1; cases h1
        · simp [handlePotting, hp, handlePottingLoop_none b pockets score h1]
      · simp
    simp only [pottingAll, hb, hr]

theorem handlePottedBalls_unpotted (balls : List (Ball K)) (h : ∀ b ∈ balls, b.potted = false) :
    handlePottedBalls balls = some balls := by
  induction balls with
  | nil => rfl
  | cons b rest ih =>
    have hb := h b (List.mem_cons_self _ _)
    have hr := ih (fun c hc => h c (List.mem_cons_of_mem _ hc))
    simp [handlePottedBalls, hb, hr]

theorem inert_of_fresh (b : Ball K) (h : b.potted = false ∧ b.v = ⟨0, 0⟩) : Inert b := by
  right
  rw [isMoving_eq_false_iff, h.2]
  norm_num [Vec2d.squaredLength, Vec2d.dot]

/-- A frame from the initial layout changes nothing. -/
theorem tick_initialState (sqrt : K → K) :
    tick sqrt (initialState (K := K)) = some initialState := by
  have hi : ∀ b ∈ (initialState (K := K)).balls, Inert b :=
    fun b hb => inert_of_fresh b (initialBalls_fresh b hb)
  obtain ⟨balls3, h3, ht⟩ := tick_of_inert sqrt initialState initialBalls_wellNamed hi
  have hp : pottingAll createPockets (initialState (K := K)).balls
      (initialState (K := K)).score = (initialBalls, 0) :=
    pottingAll_none _ _ _ (fun b hb =>
      Or.inr (not_in_pocket_of_y_range b (initialBalls_y_range b hb).1
        (initialBalls_y_range b hb).2))
  rw [hp] at h3 ht
  rw [handlePottedBalls_unpotted _ (fun b hb => (initialBalls_fresh b hb).1)] at h3
  cases h3
  exact ht

/-- Claim C3 (boundary containment, as amended).  Right after `updateBall` has
moved a ball (unpotted, squared speed at least `0.0001`), the ball's centre
satisfies `TABLE_MARGIN + BALL_RADIUS ≤ x ≤ SCREEN_WIDTH - TABLE_MARGIN - BALL_RADIUS`
and `TABLE_MARGIN + BALL_RADIUS ≤ y ≤ SCREEN_HEIGHT - TABLE_MARGIN - BALL_RADIUS`,
that is `70 ≤ x ≤ 730` and `70 ≤ y ≤ 330`. -/
theorem updateBall_within_bounds (ball : Ball K) (hp : ball.potted = false)
    (hm : ¬ ball.v.squaredLength < 0.0001) :
    ((TABLE_MARGIN + BALL_RADIUS : Int) : K) ≤ (updateBall ball).1.pos.x ∧
    (updateBall ball).1.pos.x ≤ ((SCREEN_WIDTH - TABLE_MARGIN - BALL_RADIUS : Int) : K) ∧
    ((TABLE_MARGIN + BALL_RADIUS : Int) : K) ≤ (updateBall ball).1.pos.y ∧
    (updateBall ball).1.pos.y ≤ ((SCREEN_HEIGHT - TABLE_MARGIN - BALL_RADIUS : Int) : K) := by
  have c5 : ((TABLE_MARGIN + BALL_RADIUS : Int) : K) = 70 := by
    norm_num [BALL_RADIUS, TABLE_MARGIN]
  have c6 : ((SCREEN_WIDTH - TABLE_MARGIN - BALL_RADIUS : Int) : K) = 730 := by
    norm_num [SCREEN_WIDTH, TABLE_MARGIN, BALL_RADIUS]
  have c7 : ((SCREEN_HEIGHT - TABLE_MARGIN - BALL_RADIUS : Int) : K) = 330 := by
    norm_num [SCREEN_HEIGHT, TABLE_MARGIN, BALL_RADIUS]
  rw [c5, c6, c7, updateBall_moving ball hp hm]
  simp only
  refine ⟨?_, ?_, ?_, ?_⟩
  · split
    · exact (clamp_mem _ _ _ (by norm_num)).1
    · rename_i h; push_neg at h; linarith [h.1]
  · split
    · exact (clamp_mem _ _ _ (by norm_num)).2
    · rename_i h; push_neg at h; linarith [h.2]
  · split
    · exact (clamp_mem _ _ _ (by norm_num)).1
    · rename_i h; push_neg at h; linarith [h.1]
  · split
    · exact (clamp_mem _ _ _ (by norm_num)).2
    · rename_i h; push_neg at h; linarith [h.2]

theorem updateBall_within_bounds_witness :
    ((TABLE_MARGIN + BALL_RADIUS : Int) : ℚ) ≤ (updateBall (cornerBall (K := ℚ))).1.pos.x ∧
    (updateBall (cornerBall (K := ℚ))).1.pos.x ≤
      ((SCREEN_WIDTH - TABLE_MARGIN - BALL_RADIUS : Int) : ℚ) ∧
    ((TABLE_MARGIN + BALL_RADIUS : Int) : ℚ) ≤ (updateBall (cornerBall (K := ℚ))).1.pos.y ∧
    (updateBall (cornerBall (K := ℚ))).1.pos.y ≤
      ((SCREEN_HEIGHT - TABLE_MARGIN - BALL_RADIUS : Int) : ℚ) :=
  updateBall_within_bounds cornerBall rfl
    (by norm_num [cornerBall, Vec2d.squaredLength, Vec2d.dot])

/-- The overlap separation of `handleCollision` is not clamped: a ball resting
against the right cushion at `x = 730` and hit from the left ends at `x = 732.5`. -/
theorem handleCollision_pushes_past_cushion :
    handleCollision Real.sqrt (cushionA (K := ℝ)) cushionB =
      some (⟨⟨712.5, 200⟩, ⟨0, 0⟩, ⟨255, 255, 255⟩, 0, false, "Cue Ball"⟩,
        ⟨⟨732.5, 200⟩, ⟨2, 0⟩, ⟨255, 0, 0⟩, 1, false, "Red Ball"⟩) := by
  have h : ((cushionB (K := ℝ)).pos.sub cushionA.pos).squaredLength = 15 * 15 := by
    norm_num [cushionA, cushionB, Vec2d.sub, Vec2d.squaredLength, Vec2d.dot]
  have hd : (15 : ℝ) = Real.sqrt ((cushionB (K := ℝ)).pos.sub cushionA.pos).squaredLength := by
    rw [h]; exact (isSqrt_unique Real.sqrt isSqrt_real 15 (by norm_num)).symm
  rw [handleCollision_eq_resolved Real.sqrt cushionA cushionB rfl rfl
    (Or.inl (by norm_num [isMoving, cushionA, Vec2d.squaredLength, Vec2d.dot]))
    15 hd (by norm_num) (by norm_num) ⟨1, 0⟩ (by norm_num [cushionA, cushionB])]
  norm_num [resolved, cushionA, cushionB, Vec2d.sub, Vec2d.add, Vec2d.mul, Vec2d.dot]

/-- Claim C3 fails as stated: the initial layout is reachable, a frame leaves it as
it is, and its Black Ball (index 21) stands at `x = 732`, beyond
`SCREEN_WIDTH - TABLE_MARGIN - BALL_RADIUS = 730`. -/
theorem black_ball_outside_bounds :
    Reachable Real.sqrt (initialState (K := ℝ)) ∧
    tick Real.sqrt (initialState (K := ℝ)) = some initialState ∧
    (initialState (K := ℝ)).balls[21]? =
      some ⟨⟨732, 200⟩, ⟨0, 0⟩, ⟨0, 0, 0⟩, 7, false, "Black Ball"⟩ ∧
    ¬ ((732 : ℝ) ≤ ((SCREEN_WIDTH - TABLE_MARGIN - BALL_RADIUS : Int) : ℝ)) :=
  ⟨Steps.refl _, tick_initialState Real.sqrt, initialBalls_black,
    by norm_num [SCREEN_WIDTH, TABLE_MARGIN, BALL_RADIUS]⟩

/-! ## Scenarios on the whole table -/

theorem initialBalls_split :
    initialBalls (K := K) =
      ⟨⟨200, 200⟩, ⟨0, 0⟩, ⟨255, 255, 255⟩, 0, false, "Cue Ball"⟩ :: initialBalls.tail := by
  conv_lhs => rw [initialBalls_eq]
  rw [initialBalls_eq]
  rfl

theorem initialBalls_tail_length : (initialBalls (K := K)).tail.length = 21 := by
  rw [initialBalls_eq, redBalls_eq]
  simp

theorem launch_foulShot :
    launch foulShot (initialState (K := K)) =
      ⟨⟨⟨200, 200⟩, foulShot, ⟨255, 255, 255⟩, 0, false, "Cue Ball"⟩ :: initialBalls.tail, 0⟩ := by
  have h := initialBalls_split (K := K)
  unfold launch initialState
  simp only
  generalize (initialBalls (K := K)).tail = t at h ⊢
  rw [h]

theorem tick_foulShot (sqrt : K → K) :
    tick sqrt (launch foulShot (initialState (K := K))) = some cuePottedState := by
  have htail : ∀ b ∈ (initialBalls (K := K)).tail, b ∈ initialBalls (K := K) :=
    fun b hb => List.mem_of_mem_tail hb
  have hlen := initialBalls_tail_length (K := K)
  have hl := launch_foulShot (K := K)
  have hu : updateBall (K := K) ⟨⟨200, 200⟩, foulShot, ⟨255, 255, 255⟩, 0, false, "Cue Ball"⟩ =
      (⟨⟨70, 70⟩, ⟨139.93, 139.93⟩, ⟨255, 255, 255⟩, 0, false, "Cue Ball"⟩, true) := by
    rw [updateBall_moving _ rfl (by norm_num [foulShot, Vec2d.squaredLength, Vec2d.dot])]
    norm_num [foulShot, clamp]
  have hrest : updateAll (initialBalls (K := K)).tail 22 = (initialBalls.tail, 1) := by
    rw [updateAll_inert _ (fun b hb => inert_of_fresh b (initialBalls_fresh b (htail b hb))), hlen]
  have hpc : handlePotting (K := K)
      ⟨⟨70, 70⟩, ⟨139.93, 139.93⟩, ⟨255, 255, 255⟩, 0, false, "Cue Ball"⟩ createPockets 0 =
      (⟨⟨70, 70⟩, ⟨139.93, 139.93⟩, ⟨255, 255, 255⟩, 0, true, "Cue Ball"⟩, 0) := by
    norm_num [handlePotting, createPockets, handlePottingLoop, isBallInPocket, Vec2d.sub,
      Vec2d.squaredLength, Vec2d.dot, TABLE_MARGIN, POCKET_RADIUS]
  have hpr : pottingAll createPockets (initialBalls (K := K)).tail 0 = (initialBalls.tail, 0) :=
    pottingAll_none _ _ _ (fun b hb =>
      Or.inr (not_in_pocket_of_y_range b (initialBalls_y_range b (htail b hb)).1
        (initialBalls_y_range b (htail b hb)).2))
  have hc : collideAll sqrt (cuePottedState (K := K)).balls = some cuePottedState.balls := by
    apply collideFrom_inert
    intro b hb
    rcases List.mem_cons.1 hb with rfl | hb
    · exact Or.inl rfl
    · exact inert_of_fresh b (initialBalls_fresh b (htail b hb))
  rw [hl]
  unfold cuePottedState at hc ⊢
  simp only at hc
  clear hl htail
  generalize (initialBalls (K := K)).tail = t at hlen hrest hpr hc ⊢
  unfold tick
  simp only [updateAll, hu, List.length_cons, hlen, Bool.not_true, Bool.false_eq_true, if_false,
    hrest, pottingAll, Bool.not_false, if_true, hpc, hpr, OfNat.one_ne_ofNat, one_ne_zero, hc]

theorem reachable_cuePottedState (sqrt : K → K) : Reachable sqrt (cuePottedState (K := K)) :=
  Steps.tick (Steps.launch foulShot (Steps.refl _)) (tick_foulShot sqrt)

theorem cuePottedState_rest :
    ∀ b ∈ (cuePottedState (K := K)).balls, b.potted = true ∨ b.v.squaredLength < 0.0001 := by
  intro b hb
  rcases List.mem_cons.1 hb with rfl | hb
  · exact Or.inl rfl
  · exact (inert_iff b).1
      (inert_of_fresh b (initialBalls_fresh b (List.mem_of_mem_tail hb)))

theorem respawn_exact_witness :
    Reachable Real.sqrt (cuePottedState (K := ℝ)) ∧
    (cuePottedState (K := ℝ)).balls[0]? =
      some ⟨⟨70, 70⟩, ⟨139.93, 139.93⟩, ⟨255, 255, 255⟩, 0, true, "Cue Ball"⟩ ∧
    ∃ s1 : State ℝ, tick Real.sqrt cuePottedState = some s1 ∧
      ∀ (i : Nat) (b : Ball ℝ), (cuePottedState (K := ℝ)).balls[i]? = some b →
        (b.name = "Cue Ball" ∨ b.points > 1) → b.potted = true →
        ∃ c b1 : Ball ℝ, createBall b.name = some c ∧ s1.balls[i]? = some b1 ∧
          b1.pos = c.pos ∧ b1.v = ⟨0, 0⟩ ∧ b1.potted = false :=
  ⟨reachable_cuePottedState Real.sqrt, rfl,
    respawn_exact Real.sqrt cuePottedState (reachable_cuePottedState Real.sqrt)
      cuePottedState_rest⟩

/-- Claim C5 (fungible permanence).  A red ball (`points == 1`, not the cue ball)
that is potted in a state is still a potted red ball, at the same index, in
every state reached from it by any sequence of frames and cue launches. -/
theorem red_potted_permanent (sqrt : K → K) (s s1 : State K) (hs : Steps sqrt s s1)
    (i : Nat) (b : Ball K) (hb : s.balls[i]? = some b)
    (hpoints : b.points = 1) (hname : b.name ≠ "Cue Ball") (hpotted : b.potted = true) :
    ∃ b1 : Ball K, s1.balls[i]? = some b1 ∧
      b1.points = 1 ∧ b1.name ≠ "Cue Ball" ∧ b1.potted = true := by
  have h := steps_forall₂ (R := fun b b1 => RedPotted b → RedPotted b1) sqrt
    (fun _ hb => hb) (fun _ _ _ h1 h2 hb => h2 (h1 hb))
    (fun b hb => by
      obtain ⟨hn, hp, hpot, _⟩ := updateBall_tags b
      exact ⟨hp.trans hb.1, by rw [hn]; exact hb.2.1, hpot.trans hb.2.2⟩)
    (fun b score _ hb => by
      rcases handlePotting_result b createPockets score with h | h <;> rw [h]
      · exact hb
      · exact ⟨hb.1, hb.2.1, rfl⟩)
    (fun b c _ hcat _ hb => by
      rcases hcat with h | h
      · exact absurd h hb.2.1
      · rw [hb.1] at h; exact absurd h (by decide))
    (fun a b a1 b1 hab => by
      obtain ⟨⟨hn, hp, hpot, _⟩, ⟨hn', hp', hpot', _⟩⟩ := handleCollision_tags sqrt a b a1 b1 hab
      exact ⟨fun hb => ⟨hp.trans hb.1, by rw [hn]; exact hb.2.1, hpot.trans hb.2.2⟩,
        fun hb => ⟨hp'.trans hb.1, by rw [hn']; exact hb.2.1, hpot'.trans hb.2.2⟩⟩)
    (fun b V hb => hb) s s1 hs
  obtain ⟨b1, hb1, hR⟩ := forall₂_getElem? h i b hb
  exact ⟨b1, hb1, hR ⟨hpoints, hname, hpotted⟩⟩

theorem collideAll_pair (sqrt : K → K) (a b a1 b1 : Ball K)
    (hc : handleCollision sqrt a b = some (a1, b1)) :
    collideAll sqrt [a, b] = some [a1, b1] := by
  simp only [collideAll, List.length_cons, List.length_nil, collideFrom]
  simp only [collideFrom, collideRow, hc]

theorem tick_oneRedPotted :
    tick Real.sqrt (launch ⟨4, 0⟩ (oneRedPottedState (K := ℝ))) = some oneRedPottedNext := by
  have hu : updateBall (K := ℝ) ⟨⟨200, 200⟩, ⟨4, 0⟩, ⟨255, 255, 255⟩, 0, false, "Cue Ball"⟩ =
      (⟨⟨204, 200⟩, ⟨3.998, 0⟩, ⟨255, 255, 255⟩, 0, false, "Cue Ball"⟩, true) := by
    rw [updateBall_moving _ rfl (by norm_num [Vec2d.squaredLength, Vec2d.dot])]
    norm_num
  have hu2 : updateBall (K := ℝ) ⟨⟨65, 65⟩, ⟨3, 3⟩, ⟨255, 0, 0⟩, 1, true, "Red Ball"⟩ =
      (⟨⟨65, 65⟩, ⟨3, 3⟩, ⟨255, 0, 0⟩, 1, true, "Red Ball"⟩, false) :=
    updateBall_inert _ (Or.inl rfl)
  have hp : handlePotting (K := ℝ)
      ⟨⟨204, 200⟩, ⟨3.998, 0⟩, ⟨255, 255, 255⟩, 0, false, "Cue Ball"⟩ createPockets 1 =
      (⟨⟨204, 200⟩, ⟨3.998, 0⟩, ⟨255, 255, 255⟩, 0, false, "Cue Ball"⟩, 1) := by
    have := handlePottingLoop_none (K := ℝ)
      ⟨⟨204, 200⟩, ⟨3.998, 0⟩, ⟨255, 255, 255⟩, 0, false, "Cue Ball"⟩ createPockets 1
      (not_in_pocket_of_y_range _ (by norm_num) (by norm_num))
    simpa [handlePotting] using this
  have hc : handleCollision Real.sqrt
      (⟨⟨204, 200⟩, ⟨3.998, 0⟩, ⟨255, 255, 255⟩, 0, false, "Cue Ball"⟩ : Ball ℝ)
      ⟨⟨65, 65⟩, ⟨3, 3⟩, ⟨255, 0, 0⟩, 1, true, "Red Ball"⟩ =
      some (⟨⟨204, 200⟩, ⟨3.998, 0⟩, ⟨255, 255, 255⟩, 0, false, "Cue Ball"⟩,
        ⟨⟨65, 65⟩, ⟨3, 3⟩, ⟨255, 0, 0⟩, 1, true, "Red Ball"⟩) := by
    simp [handleCollision]
  unfold tick launch oneRedPottedState oneRedPottedNext
  simp only [updateAll, hu, hu2, List.length_cons, List.length_nil, Bool.not_true,
    Bool.not_false, Bool.false_eq_true, if_false, if_true, pottingAll, hp,
    show ¬ (0 + 1 + 1 - 1 = 0) by decide, collideAll_pair _ _ _ _ _ hc]

theorem red_potted_permanent_witness :
    Steps Real.sqrt (oneRedPottedState (K := ℝ)) oneRedPottedNext ∧
    (oneRedPottedState (K := ℝ)).balls[1]? =
      some ⟨⟨65, 65⟩, ⟨3, 3⟩, ⟨255, 0, 0⟩, 1, true, "Red Ball"⟩ ∧
    ∃ b1 : Ball ℝ, (oneRedPottedNext (K := ℝ)).balls[1]? = some b1 ∧
      b1.points = 1 ∧ b1.name ≠ "Cue Ball" ∧ b1.potted = true :=
  ⟨Steps.tick (Steps.launch ⟨4, 0⟩ (Steps.refl _)) tick_oneRedPotted, rfl,
    red_potted_permanent Real.sqrt oneRedPottedState oneRedPottedNext
      (Steps.tick (Steps.launch ⟨4, 0⟩ (Steps.refl _)) tick_oneRedPotted) 1
      ⟨⟨65, 65⟩, ⟨3, 3⟩, ⟨255, 0, 0⟩, 1, true, "Red Ball"⟩ rfl rfl (by decide) rfl⟩

/-! ## Capture, scoring and the collision guards -/

theorem isBallInPocket_iff (ball : Ball K) (pocket : Pocket K) :
    isBallInPocket ball pocket = true ↔ (ball.pos.sub pocket.pos).squaredLength < 400 := by
  have c400 : ((POCKET_RADIUS * POCKET_RADIUS : Int) : K) = 400 := by
    norm_num [POCKET_RADIUS]
  simp only [isBallInPocket, c400, decide_eq_true_eq]

/-- What `handlePottingLoop` returns when some pocket of the list holds the ball. -/
theorem handlePottingLoop_some (ball : Ball K) (pockets : List (Pocket K)) (score : Int)
    (h : ∃ pocket ∈ pockets, isBallInPocket ball pocket = true) :
    handlePottingLoop ball pockets score =
      ({ ball with potted := true },
        if ball.name = "Cue Ball" then score
        else if ball.points > 1 then score else score + ball.points) := by
  induction pockets with
  | nil => obtain ⟨p, hp, _⟩ := h; simp at hp
  | cons pocket rest ih =>
    unfold handlePottingLoop
    by_cases hin : isBallInPocket ball pocket = true
    · simp only [hin, if_true]
      split
      · rfl
      · split <;> rfl
    · simp only [hin, Bool.false_eq_true, if_false]
      apply ih
      obtain ⟨p, hp, hpin⟩ := h
      rcases List.mem_cons.1 hp with rfl | hp
      · exact absurd hpin hin
      · exact ⟨p, hp, hpin⟩

theorem not_exists_pocket (ball : Ball K) (pockets : List (Pocket K))
    (h : ¬ ∃ pocket ∈ pockets, isBallInPocket ball pocket = true) :
    ∀ p ∈ pockets, isBallInPocket ball p = false := by
  intro p hp
  cases hb : isBallInPocket ball p
  · rfl
  · exact absurd ⟨p, hp, hb⟩ h

/-- Claim C11 (capture condition).  For an unpotted ball and any pocket list,
after `handlePotting` the ball is potted if and only if some pocket of the
list has squared centre distance `(ball.pos - pocket.pos)²` strictly below
`POCKET_RADIUS² = 400`; the ball's position and velocity are unchanged either
way. -/
theorem handlePotting_captures_iff (ball : Ball K) (pockets : List (Pocket K)) (score : Int)
    (hp : ball.potted = false) :
    ((handlePotting ball pockets score).1.potted = true ↔
        ∃ pocket ∈ pockets, (ball.pos.sub pocket.pos).squaredLength < 400) ∧
      (handlePotting ball pockets score).1.pos = ball.pos ∧
      (handlePotting ball pockets score).1.v = ball.v := by
  have hu : handlePotting ball pockets score = handlePottingLoop ball pockets score := by
    simp [handlePotting, hp]
  rw [hu]
  by_cases h : ∃ pocket ∈ pockets, isBallInPocket ball pocket = true
  · rw [handlePottingLoop_some ball pockets score h]
    obtain ⟨p, hpm, hpin⟩ := h
    exact ⟨⟨fun _ => ⟨p, hpm, (isBallInPocket_iff ball p).1 hpin⟩, fun _ => rfl⟩, rfl, rfl⟩
  · rw [handlePottingLoop_none ball pockets score (not_exists_pocket ball pockets h)]
    refine ⟨⟨fun hpot => ?_, fun hex => ?_⟩, rfl, rfl⟩
    · rw [hp] at hpot; cases hpot
    · obtain ⟨p, hpm, hlt⟩ := hex
      exact absurd ⟨p, hpm, (isBallInPocket_iff ball p).2 hlt⟩ h

/-- Claim C12 (scoring policy).  When `handlePotting` captures an unpotted ball
(some pocket of the list holds it, however many do), the score grows by
exactly the ball's points, which is 1, if the ball is red (`points == 1`, not
the cue ball), and is unchanged if the ball is the cue ball or has
`points > 1`; when no pocket holds the ball the score is unchanged. -/
theorem handlePotting_score (ball : Ball K) (pockets : List (Pocket K)) (score : Int)
    (hp : ball.potted = false) :
    ((∃ pocket ∈ pockets, isBallInPocket ball pocket = true) →
      (handlePotting ball pockets score).1.potted = true ∧
      (ball.points = 1 ∧ ball.name ≠ "Cue Ball" →
        (handlePotting ball pockets score).2 = score + ball.points ∧
        (handlePotting ball pockets score).2 = score + 1) ∧
      (ball.name = "Cue Ball" ∨ ball.points > 1 →
        (handlePotting ball pockets score).2 = score)) ∧
    ((∀ pocket ∈ pockets, isBallInPocket ball pocket = false) →
      (handlePotting ball pockets score).2 = score) := by
  have hu : handlePotting ball pockets score = handlePottingLoop ball pockets score := by
    simp [handlePotting, hp]
  rw [hu]
  constructor
  · intro h
    rw [handlePottingLoop_some ball pockets score h]
    refine ⟨rfl, ?_, ?_⟩
    · rintro ⟨hpts, hname⟩
      have h1 : ¬ ball.points > 1 := by rw [hpts]; decide
      simp only [hname, if_false, if_neg h1, true_and]
      rw [hpts]
    · rintro (hname | hpts)
      · simp only [hname, if_true]
      · by_cases hname : ball.name = "Cue Ball"
        · simp only [hname, if_true]
        · simp only [hname, hpts, if_false, if_true]
  · intro h
    rw [handlePottingLoop_none ball pockets score h]

/-- Claim C13 (collision no-op).  `handleCollision` returns both balls unchanged
whenever either ball is potted, or both balls are at rest (`v² < 0.0001`
each, overlapping or not), or their centre distance is at least 20. -/
theorem handleCollision_noop (sqrt : K → K) (a b : Ball K)
    (h : a.potted = true ∨ b.potted = true ∨
      (a.v.squaredLength < 0.0001 ∧ b.v.squaredLength < 0.0001) ∨
      20 ≤ sqrt (b.pos.sub a.pos).squaredLength) :
    handleCollision sqrt a b = some (a, b) := by
  unfold handleCollision
  by_cases hp : (a.potted || b.potted) = true
  · simp only [hp, if_true]
  · simp only [hp, Bool.false_eq_true, if_false]
    by_cases hr : (!isMoving a && !isMoving b) = true
    · simp only [hr, if_true]
    · simp only [hr, Bool.false_eq_true, if_false]
      have h20 : 20 ≤ sqrt (b.pos.sub a.pos).squaredLength := by
        rcases h with h | h | h | h
        · simp [h] at hp
        · simp [h] at hp
        · rw [← isMoving_eq_false_iff, ← isMoving_eq_false_iff] at h
          simp [h.1, h.2] at hr
        · exact h
      rw [ballDiameter_cast, if_neg (not_lt.2 h20)]

theorem handlePotting_captures_iff_witness :
    (∃ pocket ∈ createPockets (K := ℚ),
      ((redNearPocket (K := ℚ)).pos.sub pocket.pos).squaredLength < 400) ∧
    (handlePotting (redNearPocket (K := ℚ)) createPockets 0).1.potted = true ∧
    (handlePotting (redNearPocket (K := ℚ)) createPockets 0).1.pos = redNearPocket.pos ∧
    (handlePotting (redNearPocket (K := ℚ)) createPockets 0).1.v = redNearPocket.v := by
  have hex : ∃ pocket ∈ createPockets (K := ℚ),
      ((redNearPocket (K := ℚ)).pos.sub pocket.pos).squaredLength < 400 :=
    ⟨⟨⟨60, 60⟩⟩, by norm_num [createPockets, TABLE_MARGIN],
      by norm_num [redNearPocket, Vec2d.sub, Vec2d.squaredLength, Vec2d.dot]⟩
  have h := handlePotting_captures_iff (redNearPocket (K := ℚ)) createPockets 0 rfl
  exact ⟨hex, h.1.2 hex, h.2.1, h.2.2⟩

theorem handlePotting_score_witness :
    isBallInPocket (redNearPocket (K := ℚ)) ⟨⟨60, 60⟩⟩ = true ∧
    isBallInPocket (redNearPocket (K := ℚ)) ⟨⟨65, 65⟩⟩ = true ∧
    (handlePotting (redNearPocket (K := ℚ)) twoPockets 5).1.potted = true ∧
    (handlePotting (redNearPocket (K := ℚ)) twoPockets 5).2 = 5 + 1 := by
  have h1 : isBallInPocket (redNearPocket (K := ℚ)) ⟨⟨60, 60⟩⟩ = true := by
    rw [isBallInPocket_iff]
    norm_num [redNearPocket, Vec2d.sub, Vec2d.squaredLength, Vec2d.dot]
  have h2 : isBallInPocket (redNearPocket (K := ℚ)) ⟨⟨65, 65⟩⟩ = true := by
    rw [isBallInPocket_iff]
    norm_num [redNearPocket, Vec2d.sub, Vec2d.squaredLength, Vec2d.dot]
  have h := (handlePotting_score (redNearPocket (K := ℚ)) twoPockets 5 rfl).1
    ⟨⟨⟨60, 60⟩⟩, List.mem_cons_self _ _, h1⟩
  exact ⟨h1, h2, h.1, (h.2.1 ⟨rfl, by decide⟩).2⟩

theorem handleCollision_noop_witness :
    (20 : ℝ) ≤ Real.sqrt ((restingA (K := ℝ)).pos.sub launchedCue.pos).squaredLength ∧
    handleCollision Real.sqrt (launchedCue (K := ℝ)) restingA = some (launchedCue, restingA) := by
  have h : ((restingA (K := ℝ)).pos.sub launchedCue.pos).squaredLength = 100 * 100 := by
    norm_num [restingA, launchedCue, Vec2d.sub, Vec2d.squaredLength, Vec2d.dot]
  have hd : (20 : ℝ) ≤ Real.sqrt ((restingA (K := ℝ)).pos.sub launchedCue.pos).squaredLength := by
    rw [h, isSqrt_unique Real.sqrt isSqrt_real 100 (by norm_num)]; norm_num
  exact ⟨hd, handleCollision_noop Real.sqrt launchedCue restingA (Or.inr (Or.inr (Or.inr hd)))⟩

/-- With coinciding centres and one ball moving, `handleCollision` reaches
`ab.norm()` with `ab = (0, 0)` and divides by `sqrt 0 = 0`. -/
theorem handleCollision_coincident (sqrt : K → K) (hs : IsSqrt sqrt) (a b : Ball K)
    (ha : a.potted = false) (hb : b.potted = false)
    (hm : isMoving a = true ∨ isMoving b = true) (hpos : a.pos = b.pos) :
    handleCollision sqrt a b = none := by
  have h0 : (b.pos.sub a.pos).squaredLength = 0 :=
    (squaredLength_sub_eq_zero_iff a.pos b.pos).2 hpos
  have hd : sqrt (b.pos.sub a.pos).squaredLength = 0 := by
    rw [h0]
    have := isSqrt_unique sqrt hs 0 (le_refl 0)
    rwa [mul_zero] at this
  rw [handleCollision_unfold sqrt a b ha hb hm, hd, if_pos (by norm_num), if_pos rfl]

/-- Whenever `handleCollision` returns a pair, `a.v + b.v` is what it was. -/
theorem handleCollision_momentum (sqrt : K → K) (a b a1 b1 : Ball K)
    (h : handleCollision sqrt a b = some (a1, b1)) :
    a1.v.add b1.v = a.v.add b.v := by
  unfold handleCollision at h
  split at h
  · cases h; rfl
  · split at h
    · cases h; rfl
    · simp only at h
      split at h
      · split at h
        · cases h
        · cases h
          simp only [Vec2d.add, Vec2d.sub, Vec2d.mk.injEq]
          constructor <;> ring
      · cases h; rfl

/-- Claim C17 (fail-fast construction).  `createBall` fails for every name that
is not one of the seven names of its table, and for each of the seven it
returns a ball with that name, zero velocity, `potted = false` and points
0, 2, 3, 4, 5, 6, 7 for Cue, Yellow, Green, Brown, Blue, Pink, Black. -/
theorem createBall_table :
    (∀ name : String, name ∉ ["Cue Ball", "Yellow Ball", "Green Ball", "Brown Ball",
        "Blue Ball", "Pink Ball", "Black Ball"] → createBall (K := K) name = none) ∧
    (∀ np ∈ [("Cue Ball", (0 : Int)), ("Yellow Ball", 2), ("Green Ball", 3), ("Brown Ball", 4),
        ("Blue Ball", 5), ("Pink Ball", 6), ("Black Ball", 7)],
      ∃ c : Ball K, createBall np.1 = some c ∧ c.name = np.1 ∧ c.v = ⟨0, 0⟩ ∧
        c.potted = false ∧ c.points = np.2) := by
  constructor
  · intro name hn
    simp only [List.mem_cons, List.mem_singleton, List.not_mem_nil, or_false, not_or] at hn
    obtain ⟨h1, h2, h3, h4, h5, h6, h7⟩ := hn
    simp only [createBall, h1, h2, h3, h4, h5, h6, h7, if_false]
  · intro np hnp
    simp only [List.mem_cons, List.mem_singleton, List.not_mem_nil, or_false] at hnp
    rcases hnp with rfl | rfl | rfl | rfl | rfl | rfl | rfl <;> simp [createBall]

theorem createBall_table_witness :
    "Red Ball" ∉ ["Cue Ball", "Yellow Ball", "Green Ball", "Brown Ball",
        "Blue Ball", "Pink Ball", "Black Ball"] ∧
    createBall (K := ℚ) "Red Ball" = none ∧
    ∃ c : Ball ℚ, createBall "Black Ball" = some c ∧ c.name = "Black Ball" ∧ c.v = ⟨0, 0⟩ ∧
        c.potted = false ∧ c.points = 7 :=
  ⟨by decide, (createBall_table (K := ℚ)).1 "Red Ball" (by decide),
    (createBall_table (K := ℚ)).2 ("Black Ball", 7) (by simp)⟩

/-! ## The initial rack -/

theorem sqrt_lt_twenty_iff (sqrt : K → K) (hs : IsSqrt sqrt) (x : K) (hx : 0 ≤ x) :
    sqrt x < 20 ↔ x < 400 := by
  obtain ⟨h1, h2⟩ := hs x hx
  constructor
  · intro h; nlinarith
  · intro h
    by_contra hc
    push_neg at hc
    nlinarith

theorem initialBalls_length : (initialBalls (K := K)).length = 22 := by
  rw [initialBalls_eq, redBalls_eq]
  rfl

theorem initialBalls_pairwise_sq :
    List.Pairwise (fun a b : Ball K => ¬ (b.pos.sub a.pos).squaredLength < 400)
      (initialBalls (K := K)) := by
  rw [initialBalls_eq, redBalls_eq]
  simp only [List.cons_append, List.nil_append, List.pairwise_cons, List.mem_cons,
    List.mem_singleton, List.not_mem_nil, forall_eq_or_imp, forall_eq, Vec2d.sub,
    Vec2d.squaredLength, Vec2d.dot, List.Pairwise.nil, IsEmpty.forall_iff, implies_true,
    and_true]
  norm_num

/-- Claim C18 (the initial rack is overlap-free).  The start-up layout has 22
balls (the cue ball, 15 red balls, six coloured balls), all unpotted with zero
velocity; no two of them have centre distance below `2 * BALL_RADIUS = 20`,
and none lies in the capture zone of a pocket. -/
theorem initial_rack_overlap_free (sqrt : K → K) (hs : IsSqrt sqrt) :
    (initialBalls (K := K)).length = 22 ∧
    (initialBalls (K := K)).map (fun b => b.name) =
      "Cue Ball" :: (List.replicate 15 "Red Ball" ++
        ["Yellow Ball", "Green Ball", "Brown Ball", "Blue Ball", "Pink Ball", "Black Ball"]) ∧
    (∀ b ∈ initialBalls (K := K), b.potted = false ∧ b.v = ⟨0, 0⟩) ∧
    List.Pairwise (fun a b : Ball K => ¬ sqrt (b.pos.sub a.pos).squaredLength < 20)
      (initialBalls (K := K)) ∧
    (∀ b ∈ initialBalls (K := K), ∀ p ∈ createPockets (K := K),
      isBallInPocket b p = false) := by
  refine ⟨initialBalls_length, ?_, initialBalls_fresh, ?_, ?_⟩
  · rw [initialBalls_eq, redBalls_eq]
    rfl
  · refine List.Pairwise.imp ?_ initialBalls_pairwise_sq
    intro a b hab hlt
    exact hab ((sqrt_lt_twenty_iff sqrt hs _ (squaredLength_nonneg _)).1 hlt)
  · intro b hb
    exact not_in_pocket_of_y_range b (initialBalls_y_range b hb).1 (initialBalls_y_range b hb).2

theorem initial_rack_overlap_free_witness :
    (initialBalls (K := ℝ)).length = 22 ∧
    (initialBalls (K := ℝ)).map (fun b => b.name) =
      "Cue Ball" :: (List.replicate 15 "Red Ball" ++
        ["Yellow Ball", "Green Ball", "Brown Ball", "Blue Ball", "Pink Ball", "Black Ball"]) ∧
    (∀ b ∈ initialBalls (K := ℝ), b.potted = false ∧ b.v = ⟨0, 0⟩) ∧
    List.Pairwise (fun a b : Ball ℝ => ¬ Real.sqrt (b.pos.sub a.pos).squaredLength < 20)
      (initialBalls (K := ℝ)) ∧
    (∀ b ∈ initialBalls (K := ℝ), ∀ p ∈ createPockets (K := ℝ),
      isBallInPocket b p = false) :=
  initial_rack_overlap_free Real.sqrt isSqrt_real

/-! ## Frames at rest -/

theorem created_not_in_pocket (n : String) (c : Ball K) (h : createBall n = some c) :
    ∀ p ∈ createPockets (K := K), isBallInPocket c p = false := by
  have hy : 80 ≤ c.pos.y ∧ c.pos.y ≤ 320 := by
    unfold createBall at h
    split_ifs at h <;> cases h <;>
      norm_num [SCREEN_HEIGHT, TABLE_MARGIN, BALL_RADIUS, SPACING]
  exact not_in_pocket_of_y_range c hy.1 hy.2

/-- A list in which no ball awaits a respawn is left as it is by `handlePottedBalls`. -/
theorem handlePottedBalls_stable (balls : List (Ball K))
    (h : ∀ b ∈ balls, ¬ (b.potted = true ∧ (b.name = "Cue Ball" ∨ b.points > 1))) :
    handlePottedBalls balls = some balls := by
  induction balls with
  | nil => rfl
  | cons b rest ih =>
    have hb := h b (List.mem_cons_self _ _)
    have hr := ih (fun c hc => h c (List.mem_cons_of_mem _ hc))
    unfold handlePottedBalls
    split_ifs with h1 h2 h3
    · simp [hr]
    · exact absurd ⟨by simpa using h1, Or.inl h2⟩ hb
    · exact absurd ⟨by simpa using h1, Or.inr h3⟩ hb
    · simp [hr]

theorem handlePottedBalls_idempotent (balls balls1 : List (Ball K))
    (h : handlePottedBalls balls = some balls1) : handlePottedBalls balls1 = some balls1 := by
  have hf := handlePottedBalls_forall₂
    (R := fun _ b1 : Ball K => ¬ (b1.potted = true ∧ (b1.name = "Cue Ball" ∨ b1.points > 1)))
    (fun b hb => hb)
    (fun b c _ _ hc hcp => by
      rw [(createBall_some _ c hc).2.2] at hcp
      cases hcp.1) balls balls1 h
  apply handlePottedBalls_stable
  intro b1 hb1
  obtain ⟨b, _, hR⟩ := forall₂_mem_right hf b1 hb1
  exact hR

/-- After `handlePotting`, an unpotted ball is potted or lies in no pocket of the list. -/
theorem handlePotting_settled (b : Ball K) (pockets : List (Pocket K)) (score : Int)
    (hp : b.potted = false) :
    (handlePotting b pockets score).1.potted = true ∨
      ∀ p ∈ pockets, isBallInPocket (handlePotting b pockets score).1 p = false := by
  have hu : handlePotting b pockets score = handlePottingLoop b pockets score := by
    simp [handlePotting, hp]
  rw [hu]
  by_cases h : ∃ pocket ∈ pockets, isBallInPocket b pocket = true
  · left; rw [handlePottingLoop_some b pockets score h]
  · right
    rw [handlePottingLoop_none b pockets score (not_exists_pocket b pockets h)]
    exact not_exists_pocket b pockets h

/-- The balls and score a frame leaves when it starts with every ball potted
or at rest, with what is known of them. -/
theorem tick_of_inert_settled (sqrt : K → K) (s : State K) (hw : ∀ b ∈ s.balls, WellNamed b)
    (hi : ∀ b ∈ s.balls, Inert b) :
    ∃ s1 : State K, tick sqrt s = some s1 ∧
      (∀ b ∈ s1.balls, Inert b) ∧
      (∀ b ∈ s1.balls, b.potted = true ∨ ∀ p ∈ createPockets (K := K), isBallInPocket b p = false) ∧
      handlePottedBalls s1.balls = some s1.balls := by
  obtain ⟨balls3, h3, ht⟩ := tick_of_inert sqrt s hw hi
  refine ⟨_, ht, ?_, ?_, handlePottedBalls_idempotent _ _ h3⟩
  · have h2 := pottingAll_forall₂ (R := fun b b1 : Ball K => Inert b → Inert b1)
      createPockets (fun b _ hb => hb)
      (fun b score _ hb => by
        rcases handlePotting_result b createPockets score with h | h <;> rw [h]
        · exact hb
        · exact Or.inl rfl) s.balls s.score
    have h3f := handlePottedBalls_forall₂ (R := fun b b1 : Ball K => Inert b → Inert b1)
      (fun b _ hb => hb) (fun b c _ _ hc _ => inert_of_created _ c hc) _ _ h3
    intro b hb
    obtain ⟨b2, hb2, hR3⟩ := forall₂_mem_right h3f b hb
    obtain ⟨b1, hb1, hR2⟩ := forall₂_mem_right h2 b2 hb2
    exact hR3 (hR2 (hi b1 hb1))
  · have h2 := pottingAll_forall₂
      (R := fun _ b1 : Ball K =>
        b1.potted = true ∨ ∀ p ∈ createPockets (K := K), isBallInPocket b1 p = false)
      createPockets (fun b hb => Or.inl hb)
      (fun b score hp => handlePotting_settled b createPockets score hp) s.balls s.score
    have h3f := handlePottedBalls_forall₂
      (R := fun b b1 : Ball K =>
        (b.potted = true ∨ ∀ p ∈ createPockets (K := K), isBallInPocket b p = false) →
        (b1.potted = true ∨ ∀ p ∈ createPockets (K := K), isBallInPocket b1 p = false))
      (fun b _ hb => hb) (fun b c _ _ hc _ => Or.inr (created_not_in_pocket _ c hc)) _ _ h3
    intro b hb
    obtain ⟨b2, hb2, hR3⟩ := forall₂_mem_right h3f b hb
    obtain ⟨b1, _, hR2⟩ := forall₂_mem_right h2 b2 hb2
    exact hR3 hR2

/-- Claim C16 (rest is a fixed point after respawn).  From a reachable state in
which every ball is potted or at rest, the frame completes, and a second frame
returns exactly the state the first one left (same balls, same score);
`handlePottedBalls` applied to its own result changes nothing. -/
theorem rest_fixed_point (sqrt : K → K) (s : State K) (hr : Reachable sqrt s)
    (hrest : ∀ b ∈ s.balls, b.potted = true ∨ b.v.squaredLength < 0.0001) :
    (∃ s1 : State K, tick sqrt s = some s1 ∧ tick sqrt s1 = some s1) ∧
    (∀ balls balls1 : List (Ball K), handlePottedBalls balls = some balls1 →
      handlePottedBalls balls1 = some balls1) := by
  refine ⟨?_, handlePottedBalls_idempotent⟩
  have hw := reachable_wellNamed sqrt s hr
  have hi : ∀ b ∈ s.balls, Inert b := fun b hb => (inert_iff b).2 (hrest b hb)
  obtain ⟨s1, ht, hi1, hq1, hst1⟩ := tick_of_inert_settled sqrt s hw hi
  refine ⟨s1, ht, ?_⟩
  have hr1 : Reachable sqrt s1 := Steps.tick hr ht
  have hw1 := reachable_wellNamed sqrt s1 hr1
  obtain ⟨balls3, h3, ht1⟩ := tick_of_inert sqrt s1 hw1 hi1
  rw [pottingAll_none createPockets s1.balls s1.score hq1] at h3 ht1
  simp only at h3 ht1
  rw [hst1] at h3
  cases h3
  exact ht1

/-! ## Potted balls within a frame -/

theorem handleCollision_of_potted (sqrt : K → K) (a b : Ball K)
    (h : a.potted = true ∨ b.potted = true) : handleCollision sqrt a b = some (a, b) := by
  have hp : (a.potted || b.potted) = true := by
    rcases h with h | h <;> simp [h]
  simp only [handleCollision, hp, if_true]

theorem updateBall_flag_of_moving (b : Ball K) (hp : b.potted = false)
    (hm : ¬ b.v.squaredLength < 0.0001) : (updateBall b).2 = true := by
  rw [updateBall_moving b hp hm]

theorem updateAll_count_ge (balls : List (Ball K)) (n : Nat) :
    n - balls.length ≤ (updateAll balls n).2 := by
  induction balls generalizing n with
  | nil => simp [updateAll]
  | cons b rest ih =>
    simp only [updateAll, List.length_cons]
    have := ih (if (!(updateBall b).2) = true then n - 1 else n)
    split_ifs at this ⊢ <;> omega

/-- When some ball of the list moves, `movingBalls` does not reach zero. -/
theorem updateAll_count_pos (balls : List (Ball K)) (n : Nat) (hn : balls.length ≤ n)
    (h : ∃ c ∈ balls, (updateBall c).2 = true) :
    n - balls.length + 1 ≤ (updateAll balls n).2 := by
  induction balls generalizing n with
  | nil => obtain ⟨c, hc, _⟩ := h; simp at hc
  | cons b rest ih =>
    simp only [List.length_cons] at hn
    simp only [updateAll, List.length_cons]
    obtain ⟨c, hc, hflag⟩ := h
    rcases List.mem_cons.1 hc with rfl | hc
    · have := updateAll_count_ge rest n
      simp only [hflag, Bool.not_true, Bool.false_eq_true, if_false]
      omega
    · have := ih (if (!(updateBall b).2) = true then n - 1 else n)
        (by split_ifs <;> omega) ⟨c, hc, hflag⟩
      split_ifs at this ⊢ <;> omega

theorem pottingAll_eraseIdx (pockets : List (Pocket K)) (balls : List (Ball K)) (i : Nat)
    (b : Ball K) (score : Int) (hb : balls[i]? = some b) (hp : b.potted = true) :
    (pottingAll pockets (balls.eraseIdx i) score).2 = (pottingAll pockets balls score).2 := by
  induction balls generalizing i score with
  | nil => simp at hb
  | cons x rest ih =>
    cases i with
    | zero =>
      simp only [List.getElem?_cons_zero, Option.some.injEq] at hb
      subst hb
      simp only [List.eraseIdx_cons_zero, pottingAll, hp, Bool.not_true, Bool.false_eq_true,
        if_false]
    | succ j =>
      simp only [List.getElem?_cons_succ] at hb
      simp only [List.eraseIdx_cons_succ, pottingAll]
      exact ih j _ hb

/-- Claim C15 (captured bodies are inert).  Take a ball that is potted at the
start of a frame in which the respawn does not reset it: some unpotted ball
is moving at frame start, or the ball is red.  At the end of the frame the
ball is exactly as it was (position, velocity, potted flag and the rest); the
frame's score is the one the potting loop computes without this ball, and
`handlePotting` on it leaves any score as it is; and `handleCollision` of this
ball with any other ball, in either order, changes neither. -/
theorem potted_inert (sqrt : K → K) (s s1 : State K) (ht : tick sqrt s = some s1)
    (i : Nat) (b : Ball K) (hb : s.balls[i]? = some b) (hp : b.potted = true)
    (hkeep : (∃ c ∈ s.balls, c.potted = false ∧ ¬ c.v.squaredLength < 0.0001) ∨
      (b.points = 1 ∧ b.name ≠ "Cue Ball")) :
    s1.balls[i]? = some b ∧
    s1.score = (pottingAll createPockets
      ((updateAll s.balls s.balls.length).1.eraseIdx i) s.score).2 ∧
    (∀ (pockets : List (Pocket K)) (score : Int), handlePotting b pockets score = (b, score)) ∧
    (∀ c : Ball K, handleCollision sqrt b c = some (b, c) ∧
      handleCollision sqrt c b = some (c, b)) := by
  obtain ⟨balls3, balls4, h3, h4, rfl⟩ := tick_eq_some sqrt s s1 ht
  -- the relation every phase keeps for this ball
  have hrefl : ∀ x : Ball K, (fun x y : Ball K => x.potted = true → y = x) x x := fun _ _ => rfl
  have htrans : ∀ x y z : Ball K, (x.potted = true → y = x) → (y.potted = true → z = y) →
      (x.potted = true → z = x) := by
    intro x y z h1 h2 hx
    have hy := h1 hx
    subst hy
    exact h2 hx
  have h1 := updateAll_forall₂ (R := fun x y : Ball K => x.potted = true → y = x)
    (fun x hx => by rw [updateBall_inert x (Or.inl hx)]) s.balls s.balls.length
  have h2 := pottingAll_forall₂ (R := fun x y : Ball K => x.potted = true → y = x)
    createPockets (fun _ _ _ => rfl)
    (fun x score hf hx => by rw [hf] at hx; cases hx)
    (updateAll s.balls s.balls.length).1 s.score
  have h4f := collideFrom_forall₂ (R := fun x y : Ball K => x.potted = true → y = x) sqrt
    hrefl htrans
    (fun x y x1 y1 hxy => by
      constructor
      · intro hx
        rw [handleCollision_of_potted sqrt x y (Or.inl hx)] at hxy
        cases hxy; rfl
      · intro hy
        rw [handleCollision_of_potted sqrt x y (Or.inr hy)] at hxy
        cases hxy; rfl) _ _ _ h4
  obtain ⟨b1, hb1, hR1⟩ := forall₂_getElem? h1 i b hb
  have e1 : b1 = b := hR1 hp
  subst e1
  obtain ⟨b2, hb2, hR2⟩ := forall₂_getElem? h2 i b1 hb1
  have e2 : b2 = b1 := hR2 hp
  subst e2
  have h3b : balls3[i]? = some b2 := by
    rcases hkeep with ⟨c, hc, hcp, hcm⟩ | ⟨hpts, hname⟩
    · have hpos := updateAll_count_pos s.balls s.balls.length (le_refl _)
        ⟨c, hc, updateBall_flag_of_moving c hcp hcm⟩
      have hne : (updateAll s.balls s.balls.length).2 ≠ 0 := by omega
      rw [if_neg hne] at h3
      cases h3
      exact hb2
    · split_ifs at h3
      · have h3f := handlePottedBalls_forall₂
          (R := fun x y : Ball K => RedPotted x → y = x) (fun _ _ _ => rfl)
          (fun x c _ hcat _ hx => by
            rcases hcat with h | h
            · exact absurd h hx.2.1
            · rw [hx.1] at h; exact absurd h (by decide)) _ _ h3
        obtain ⟨b3, hb3, hR3⟩ := forall₂_getElem? h3f i b2 hb2
        rw [hR3 ⟨hpts, hname, hp⟩] at hb3
        exact hb3
      · cases h3
        exact hb2
  obtain ⟨b4, hb4, hR4⟩ := forall₂_getElem? h4f i b2 h3b
  refine ⟨by rw [hb4, hR4 hp], (pottingAll_eraseIdx createPockets _ i b2 s.score hb1 hp).symm,
    fun pockets score => handlePotting_of_potted b2 pockets score hp,
    fun c => ⟨handleCollision_of_potted sqrt b2 c (Or.inl hp),
      handleCollision_of_potted sqrt c b2 (Or.inr hp)⟩⟩

theorem potted_inert_witness :
    tick Real.sqrt (launch ⟨4, 0⟩ (oneRedPottedState (K := ℝ))) = some oneRedPottedNext ∧
    (launch ⟨4, 0⟩ (oneRedPottedState (K := ℝ))).balls[1]? =
      some ⟨⟨65, 65⟩, ⟨3, 3⟩, ⟨255, 0, 0⟩, 1, true, "Red Ball"⟩ ∧
    (oneRedPottedNext (K := ℝ)).balls[1]? =
      some ⟨⟨65, 65⟩, ⟨3, 3⟩, ⟨255, 0, 0⟩, 1, true, "Red Ball"⟩ :=
  ⟨tick_oneRedPotted, rfl,
    (potted_inert Real.sqrt (launch ⟨4, 0⟩ oneRedPottedState) oneRedPottedNext
      tick_oneRedPotted 1 ⟨⟨65, 65⟩, ⟨3, 3⟩, ⟨255, 0, 0⟩, 1, true, "Red Ball"⟩ rfl rfl
      (Or.inr ⟨rfl, by decide⟩)).1⟩

/-! ## Score accounting -/

omit [LinearOrderedField K] in
theorem isRedPotted_iff (b : Ball K) : isRedPotted b = true ↔ RedPotted b := by
  simp [isRedPotted, isRed, RedPotted, and_assoc]

omit [LinearOrderedField K] in
theorem isRed_congr (b b1 : Ball K) (hn : b1.name = b.name) (hp : b1.points = b.points) :
    isRed b1 = isRed b := by
  simp only [isRed, hn, hp]

omit [LinearOrderedField K] in
theorem isRedPotted_congr (b b1 : Ball K) (hn : b1.name = b.name) (hp : b1.points = b.points)
    (hpot : b1.potted = b.potted) : isRedPotted b1 = isRedPotted b := by
  simp only [isRedPotted, isRed, hn, hp, hpot]

omit [LinearOrderedField K] in
theorem isRed_of_respawned (b : Ball K) (h : b.name = "Cue Ball" ∨ b.points > 1) :
    isRed b = false := by
  rcases h with h | h
  · simp [isRed, h]
  · have : b.points ≠ 1 := by omega
    simp [isRed, this]

theorem created_tags (n : String) (c : Ball K) (h : createBall n = some c) :
    c.name = "Cue Ball" ∨ c.points > 1 := by
  unfold createBall at h
  split_ifs at h <;> cases h <;> simp

theorem countP_eq_of_forall₂ {α : Type} (f : α → Bool) :
    ∀ {l l1 : List α}, List.Forall₂ (fun a a1 => f a1 = f a) l l1 →
      l1.countP f = l.countP f := by
  intro l l1 h
  induction h with
  | nil => rfl
  | cons hab _ ih => simp only [List.countP_cons, hab, ih]

theorem countP_le_of_forall₂ {α : Type} (f : α → Bool) :
    ∀ {l l1 : List α}, List.Forall₂ (fun a a1 => f a = true → f a1 = true) l l1 →
      l.countP f ≤ l1.countP f := by
  intro l l1 h
  induction h with
  | nil => exact le_refl _
  | @cons a a1 l l1 hab _ ih =>
    simp only [List.countP_cons]
    cases ha : f a
    · simp only [Bool.false_eq_true, if_false, add_zero]
      exact le_trans ih (Nat.le_add_right _ _)
    · simp only [hab ha, if_true]
      omega

theorem steps_trans (sqrt : K → K) {s s1 s2 : State K} (h1 : Steps sqrt s s1)
    (h2 : Steps sqrt s1 s2) : Steps sqrt s s2 := by
  induction h2 with
  | refl => exact h1
  | tick _ ht ih => exact Steps.tick ih ht
  | launch V _ ih => exact Steps.launch V ih

/-- The score and the potted reds move together through the potting step of one ball. -/
theorem potting_step_score (pockets : List (Pocket K)) (b : Ball K) (score : Int)
    (hs : Sound b) :
    (if (!b.potted) = true then handlePotting b pockets score else (b, score)).2 +
        (if isRedPotted b = true then 1 else 0) =
      score + (if isRedPotted
        (if (!b.potted) = true then handlePotting b pockets score else (b, score)).1 = true
        then 1 else 0) := by
  cases hp : b.potted
  · have hu : handlePotting b pockets score = handlePottingLoop b pockets score := by
      simp [handlePotting, hp]
    have hnot : isRedPotted b = false := by simp [isRedPotted, hp]
    simp only [Bool.not_false, if_true, hu, hnot, Bool.false_eq_true, if_false, add_zero]
    by_cases h : ∃ pocket ∈ pockets, isBallInPocket b pocket = true
    · rw [handlePottingLoop_some b pockets score h]
      by_cases hname : b.name = "Cue Ball"
      · simp [isRedPotted, isRed, hname]
      · by_cases hpts : b.points > 1
        · have : b.points ≠ 1 := by omega
          simp [isRedPotted, isRed, hname, hpts, this]
        · have h1 := hs hname hpts
          simp [isRedPotted, isRed, hname, h1]
    · rw [handlePottingLoop_none b pockets score (not_exists_pocket b pockets h)]
      simp [hnot]
  · simp

theorem pottingAll_score (pockets : List (Pocket K)) (balls : List (Ball K)) (score : Int)
    (h : ∀ b ∈ balls, Sound b) :
    (pottingAll pockets balls score).2 + (balls.countP isRedPotted : Int) =
      score + ((pottingAll pockets balls score).1.countP isRedPotted : Int) := by
  induction balls generalizing score with
  | nil => simp [pottingAll]
  | cons b rest ih =>
    have hb := potting_step_score pockets b score (h b (List.mem_cons_self _ _))
    have hr := ih (if (!b.potted) = true then handlePotting b pockets score else (b, score)).2
      (fun c hc => h c (List.mem_cons_of_mem _ hc))
    simp only [pottingAll, List.countP_cons, Nat.cast_add, Nat.cast_ite, Nat.cast_one,
      Nat.cast_zero]
    linarith

omit [LinearOrderedField K] in
theorem sound_of_tags (b b1 : Ball K) (hn : b1.name = b.name) (hp : b1.points = b.points)
    (hs : Sound b) : Sound b1 := by
  intro h1 h2
  rw [hn] at h1
  rw [hp] at h2 ⊢
  exact hs h1 h2

theorem sound_of_created (n : String) (c : Ball K) (h : createBall n = some c) : Sound c := by
  intro h1 h2
  rcases created_tags n c h with h3 | h3
  · exact absurd h3 h1
  · exact absurd h3 h2

/-- The per-ball facts a frame keeps: soundness of the red branch and redness. -/
theorem tick_sound (sqrt : K → K) (s s1 : State K) (ht : tick sqrt s = some s1) :
    List.Forall₂ (fun b b1 : Ball K => (Sound b → Sound b1) ∧ isRed b1 = isRed b)
      s.balls s1.balls :=
  tick_forall₂ (R := fun b b1 : Ball K => (Sound b → Sound b1) ∧ isRed b1 = isRed b) sqrt
    (fun _ => ⟨fun h => h, rfl⟩)
    (fun _ _ _ h1 h2 => ⟨fun h => h2.1 (h1.1 h), h2.2.trans h1.2⟩)
    (fun b => by
      obtain ⟨hn, hp, _, _⟩ := updateBall_tags b
      exact ⟨sound_of_tags b _ hn hp, isRed_congr b _ hn hp⟩)
    (fun b score _ => by
      rcases handlePotting_result b createPockets score with h | h <;> rw [h]
      · exact ⟨fun h => h, rfl⟩
      · exact ⟨fun h => h, rfl⟩)
    (fun b c _ hcat hc =>
      ⟨fun _ => sound_of_created _ c hc,
        by rw [isRed_of_respawned b hcat, isRed_of_respawned c (created_tags _ c hc)]⟩)
    (fun a b a1 b1 hab => by
      obtain ⟨⟨hn, hp, _, _⟩, ⟨hn1, hp1, _, _⟩⟩ := handleCollision_tags sqrt a b a1 b1 hab
      exact ⟨⟨sound_of_tags a _ hn hp, isRed_congr a _ hn hp⟩,
        ⟨sound_of_tags b _ hn1 hp1, isRed_congr b _ hn1 hp1⟩⟩)
    s s1 ht

/-- One frame keeps `score = number of potted reds`. -/
theorem tick_accounting (sqrt : K → K) (s s1 : State K) (ht : tick sqrt s = some s1)
    (hsound : ∀ b ∈ s.balls, Sound b)
    (hacc : s.score = (s.balls.countP isRedPotted : Int)) :
    s1.score = (s1.balls.countP isRedPotted : Int) := by
  obtain ⟨balls3, balls4, h3, h4, rfl⟩ := tick_eq_some sqrt s s1 ht
  have h1 := updateAll_forall₂
    (R := fun b b1 : Ball K => (Sound b → Sound b1) ∧ isRedPotted b1 = isRedPotted b)
    (fun b => by
      obtain ⟨hn, hp, hpot, _⟩ := updateBall_tags b
      exact ⟨sound_of_tags b _ hn hp, isRedPotted_congr b _ hn hp hpot⟩)
    s.balls s.balls.length
  have hsoundU : ∀ b ∈ (updateAll s.balls s.balls.length).1, Sound b := by
    intro b hb
    obtain ⟨a, ha, hab⟩ := forall₂_mem_right h1 b hb
    exact hab.1 (hsound a ha)
  have hcountU : (updateAll s.balls s.balls.length).1.countP isRedPotted
      = s.balls.countP isRedPotted :=
    countP_eq_of_forall₂ isRedPotted (List.Forall₂.imp (fun _ _ h => h.2) h1)
  have h2 := pottingAll_score createPockets (updateAll s.balls s.balls.length).1 s.score hsoundU
  have hcount3 : balls3.countP isRedPotted =
      (pottingAll createPockets (updateAll s.balls s.balls.length).1 s.score).1.countP
        isRedPotted := by
    split_ifs at h3
    · exact countP_eq_of_forall₂ isRedPotted
        (handlePottedBalls_forall₂ (R := fun b b1 : Ball K => isRedPotted b1 = isRedPotted b)
          (fun _ _ => rfl)
          (fun b c _ hcat hc => by
            simp only [isRedPotted, isRed_of_respawned b hcat,
              isRed_of_respawned c (created_tags _ c hc), Bool.false_and]) _ _ h3)
    · cases h3; rfl
  have hcount4 : balls4.countP isRedPotted = balls3.countP isRedPotted :=
    countP_eq_of_forall₂ isRedPotted
      (collideFrom_forall₂ (R := fun b b1 : Ball K => isRedPotted b1 = isRedPotted b) sqrt
        (fun _ => rfl) (fun _ _ _ h1 h2 => h2.trans h1)
        (fun a b a1 b1 hab => by
          obtain ⟨⟨hn, hp, hpot, _⟩, ⟨hn1, hp1, hpot1, _⟩⟩ :=
            handleCollision_tags sqrt a b a1 b1 hab
          exact ⟨isRedPotted_congr a _ hn hp hpot, isRedPotted_congr b _ hn1 hp1 hpot1⟩)
        _ _ _ h4)
  simp only
  rw [hcount4, hcount3]
  rw [hcountU] at h2
  linarith

theorem steps_facts (sqrt : K → K) (s s1 : State K) (hs : Steps sqrt s s1) :
    List.Forall₂ (fun b b1 : Ball K => (Sound b → Sound b1) ∧ isRed b1 = isRed b)
      s.balls s1.balls := by
  induction hs with
  | refl => exact forall₂_refl_of _ (fun _ _ => ⟨fun h => h, rfl⟩)
  | tick _ ht ih =>
    exact forall₂_comp (fun _ _ _ h1 h2 => ⟨fun h => h2.1 (h1.1 h), h2.2.trans h1.2⟩) ih
      (tick_sound sqrt _ _ ht)
  | launch V _ ih =>
    exact forall₂_comp (fun _ _ _ h1 h2 => ⟨fun h => h2.1 (h1.1 h), h2.2.trans h1.2⟩) ih
      (launch_forall₂ (R := fun b b1 : Ball K => (Sound b → Sound b1) ∧ isRed b1 = isRed b)
        (fun _ => ⟨fun h => h, rfl⟩) (fun _ _ => ⟨fun h => h, rfl⟩) V _)

/-- Along any run, soundness and `score = number of potted reds` are kept. -/
theorem steps_accounting (sqrt : K → K) (s s1 : State K) (hs : Steps sqrt s s1)
    (hsound : ∀ b ∈ s.balls, Sound b)
    (hacc : s.score = (s.balls.countP isRedPotted : Int)) :
    s1.score = (s1.balls.countP isRedPotted : Int) := by
  induction hs with
  | refl => exact hacc
  | @tick s1 s2 hstep ht ih =>
    apply tick_accounting sqrt s1 s2 ht _ ih
    intro b hb
    obtain ⟨a, ha, hab⟩ := forall₂_mem_right (steps_facts sqrt s s1 hstep) b hb
    exact hab.1 (hsound a ha)
  | @launch s1 V hstep ih =>
    have hl := launch_forall₂ (R := fun b b1 : Ball K => isRedPotted b1 = isRedPotted b)
      (fun _ => rfl) (fun _ _ => rfl) V s1
    rw [countP_eq_of_forall₂ isRedPotted hl]
    have hsc : (launch V s1).score = s1.score := by
      unfold launch; split <;> rfl
    rw [hsc]; exact ih

theorem steps_redPotted (sqrt : K → K) (s s1 : State K) (hs : Steps sqrt s s1) :
    List.Forall₂ (fun b b1 : Ball K => isRedPotted b = true → isRedPotted b1 = true)
      s.balls s1.balls :=
  steps_forall₂
    (R := fun b b1 : Ball K => isRedPotted b = true → isRedPotted b1 = true) sqrt
    (fun _ hb => hb) (fun _ _ _ h1 h2 hb => h2 (h1 hb))
    (fun b hb => by
      obtain ⟨hn, hp, hpot, _⟩ := updateBall_tags b
      rw [isRedPotted_congr b _ hn hp hpot]; exact hb)
    (fun b score hf hb => by
      simp [isRedPotted, hf] at hb)
    (fun b c _ hcat _ hb => by
      simp [isRedPotted, isRed_of_respawned b hcat] at hb)
    (fun a b a1 b1 hab => by
      obtain ⟨⟨hn, hp, hpot, _⟩, ⟨hn1, hp1, hpot1, _⟩⟩ :=
        handleCollision_tags sqrt a b a1 b1 hab
      exact ⟨fun hb => by rw [isRedPotted_congr a _ hn hp hpot]; exact hb,
        fun hb => by rw [isRedPotted_congr b _ hn1 hp1 hpot1]; exact hb⟩)
    (fun b V hb => hb) s s1 hs

theorem initialBalls_sound : ∀ b ∈ initialBalls (K := K), Sound b := by
  rw [initialBalls_eq, redBalls_eq]
  simp [Sound]

theorem initialBalls_no_redPotted : (initialBalls (K := K)).countP isRedPotted = 0 := by
  rw [List.countP_eq_zero]
  intro b hb
  simp [isRedPotted, (initialBalls_fresh b hb).1]

theorem initialBalls_red_count : (initialBalls (K := K)).countP isRed = 15 := by
  rw [initialBalls_eq, redBalls_eq]
  simp [isRed, List.countP_cons]

/-- Claim C20 (score accounting).  In every state reachable from the initial
layout by frames and cue launches, the score equals the number of red balls
that are potted; it lies between 0 and 15, and no later state has a smaller
score. -/
theorem score_accounting (sqrt : K → K) (s : State K) (hr : Reachable sqrt s) :
    s.score = (s.balls.countP isRedPotted : Int) ∧ 0 ≤ s.score ∧ s.score ≤ 15 ∧
      ∀ s1 : State K, Steps sqrt s s1 → s.score ≤ s1.score := by
  have hinit : (initialState (K := K)).score =
      ((initialState (K := K)).balls.countP isRedPotted : Int) := by
    show (0 : Int) = (((initialBalls (K := K)).countP isRedPotted : Nat) : Int)
    rw [initialBalls_no_redPotted]; rfl
  have hacc := steps_accounting sqrt initialState s hr initialBalls_sound hinit
  have hred : s.balls.countP isRed = 15 := by
    rw [countP_eq_of_forall₂ isRed
      (List.Forall₂.imp (fun _ _ h => h.2) (steps_facts sqrt initialState s hr))]
    exact initialBalls_red_count
  have hle : s.balls.countP isRedPotted ≤ s.balls.countP isRed := by
    apply List.countP_mono_left
    intro b _ hb
    simp only [isRedPotted, Bool.and_eq_true] at hb
    exact hb.1
  refine ⟨hacc, by rw [hacc]; exact Int.natCast_nonneg _, by rw [hacc]; omega, ?_⟩
  intro s1 hs1
  have hacc1 := steps_accounting sqrt initialState s1 (steps_trans sqrt hr hs1)
    initialBalls_sound hinit
  rw [hacc, hacc1]
  exact Int.ofNat_le.2 (countP_le_of_forall₂ isRedPotted (steps_redPotted sqrt s s1 hs1))

/-! ### Running a frame on a concrete table -/

theorem handleCollision_far (sqrt : K → K) (a b : Ball K)
    (h : 20 ≤ sqrt (b.pos.sub a.pos).squaredLength) :
    handleCollision sqrt a b = some (a, b) := by
  unfold handleCollision
  split
  · rfl
  · split
    · rfl
    · simp only [ballDiameter_cast, if_neg (not_lt.2 h)]

theorem handleCollision_apart (sqrt : K → K) (hs : IsSqrt sqrt) (a b : Ball K)
    (h : 400 ≤ (b.pos.sub a.pos).squaredLength) :
    handleCollision sqrt a b = some (a, b) := by
  apply handleCollision_far
  by_contra hlt
  push_neg at hlt
  have := (sqrt_lt_twenty_iff sqrt hs _ (squaredLength_nonneg _)).1 hlt
  exact absurd h (not_le.2 this)

theorem collideRow_noHit (sqrt : K → K) (rest : List (Ball K)) (a : Ball K)
    (h : ∀ b ∈ rest, handleCollision sqrt a b = some (a, b)) :
    collideRow sqrt a rest = some (a, rest) := by
  induction rest with
  | nil => rfl
  | cons b rest ih =>
    have hb := h b (List.mem_cons_self _ _)
    have hr := ih (fun c hc => h c (List.mem_cons_of_mem _ hc))
    simp only [collideRow, hb, hr]

/-- The inner loop for `a` when the first ball it touches is `b` and the call divides by zero. -/
theorem collideRow_hit_none (sqrt : K → K) (l1 : List (Ball K)) (a b : Ball K)
    (l2 : List (Ball K)) (h : ∀ c ∈ l1, handleCollision sqrt a c = some (a, c))
    (hab : handleCollision sqrt a b = none) :
    collideRow sqrt a (l1 ++ b :: l2) = none := by
  induction l1 with
  | nil => simp only [List.nil_append, collideRow, hab]
  | cons c l1 ih =>
    have hc := h c (List.mem_cons_self _ _)
    have hr := ih (fun d hd => h d (List.mem_cons_of_mem _ hd))
    rw [List.cons_append]
    simp only [collideRow, hc, hr]

/-- The inner loop for `a` when the first ball it touches is `b`. -/
theorem collideRow_hit_some (sqrt : K → K) (l1 : List (Ball K)) (a b a1 b1 a2 : Ball K)
    (l2 rest : List (Ball K)) (h : ∀ c ∈ l1, handleCollision sqrt a c = some (a, c))
    (hab : handleCollision sqrt a b = some (a1, b1))
    (hrow : collideRow sqrt a1 l2 = some (a2, rest)) :
    collideRow sqrt a (l1 ++ b :: l2) = some (a2, l1 ++ b1 :: rest) := by
  induction l1 with
  | nil => simp only [List.nil_append, collideRow, hab, hrow]
  | cons c l1 ih =>
    have hc := h c (List.mem_cons_self _ _)
    have hr := ih (fun d hd => h d (List.mem_cons_of_mem _ hd))
    rw [List.cons_append]
    simp only [collideRow, hc, hr, List.cons_append]

theorem collideFrom_noHit (sqrt : K → K) (n : Nat) (l : List (Ball K))
    (h : l.Pairwise (fun a b => handleCollision sqrt a b = some (a, b))) :
    collideFrom sqrt n l = some l := by
  induction n generalizing l with
  | zero => rfl
  | succ n ih =>
    cases l with
    | nil => rfl
    | cons a rest =>
      rw [List.pairwise_cons] at h
      have hr := collideRow_noHit sqrt rest a h.1
      have hf := ih rest h.2
      simp only [collideFrom, hr, hf]

/-- A list with a single moving ball `m`, apart from all the others, has no hit. -/
theorem pairwise_noHit_one_mover (sqrt : K → K) (hs : IsSqrt sqrt) (l1 l2 : List (Ball K))
    (m : Ball K) (hi1 : ∀ b ∈ l1, Inert b) (hi2 : ∀ b ∈ l2, Inert b)
    (h1 : ∀ b ∈ l1, 400 ≤ (m.pos.sub b.pos).squaredLength)
    (h2 : ∀ b ∈ l2, 400 ≤ (b.pos.sub m.pos).squaredLength) :
    (l1 ++ m :: l2).Pairwise (fun a b => handleCollision sqrt a b = some (a, b)) := by
  have hin : ∀ l : List (Ball K), (∀ b ∈ l, Inert b) →
      l.Pairwise (fun a b => handleCollision sqrt a b = some (a, b)) := by
    intro l hl
    induction l with
    | nil => exact List.Pairwise.nil
    | cons a rest ih =>
      exact List.Pairwise.cons
        (fun b hb => handleCollision_inert sqrt a b (hl a (List.mem_cons_self _ _))
          (hl b (List.mem_cons_of_mem _ hb)))
        (ih (fun b hb => hl b (List.mem_cons_of_mem _ hb)))
  rw [List.pairwise_append]
  refine ⟨hin l1 hi1, List.Pairwise.cons (fun b hb => handleCollision_apart sqrt hs m b (h2 b hb))
    (hin l2 hi2), ?_⟩
  intro a ha b hb
  rcases List.mem_cons.1 hb with rfl | hb
  · exact handleCollision_apart sqrt hs a b (h1 a ha)
  · exact handleCollision_inert sqrt a b (hi1 a ha) (hi2 b hb)

theorem updateAll_append (l1 l2 : List (Ball K)) (n : Nat) :
    updateAll (l1 ++ l2) n =
      ((updateAll l1 n).1 ++ (updateAll l2 (updateAll l1 n).2).1,
        (updateAll l2 (updateAll l1 n).2).2) := by
  induction l1 generalizing n with
  | nil => rfl
  | cons b l1 ih =>
    rw [List.cons_append]
    simp only [updateAll, ih, List.cons_append]

theorem pottingAll_append (pockets : List (Pocket K)) (l1 l2 : List (Ball K)) (score : Int) :
    pottingAll pockets (l1 ++ l2) score =
      ((pottingAll pockets l1 score).1 ++
          (pottingAll pockets l2 (pottingAll pockets l1 score).2).1,
        (pottingAll pockets l2 (pottingAll pockets l1 score).2).2) := by
  induction l1 generalizing score with
  | nil => rfl
  | cons b l1 ih =>
    rw [List.cons_append]
    simp only [pottingAll, ih, List.cons_append]

theorem collideAll_cons_none (sqrt : K → K) (a : Ball K) (rest : List (Ball K))
    (h : collideRow sqrt a rest = none) : collideAll sqrt (a :: rest) = none := by
  simp only [collideAll, List.length_cons, collideFrom, h]

theorem collideAll_cons_some (sqrt : K → K) (a a1 : Ball K) (rest rest1 rest2 : List (Ball K))
    (h : collideRow sqrt a rest = some (a1, rest1))
    (h2 : collideFrom sqrt rest.length rest1 = some rest2) :
    collideAll sqrt (a :: rest) = some (a1 :: rest2) := by
  simp only [collideAll, List.length_cons, collideFrom, h, h2]

/-- A frame on a table where a single ball `m` moves: the balls before and
after it are potted or at rest and are not captured this frame. -/
theorem tick_one_mover (sqrt : K → K) (l1 l2 : List (Ball K)) (m m1 m2 : Ball K)
    (score score2 : Int) (r : Option (List (Ball K)))
    (hi1 : ∀ b ∈ l1, Inert b) (hi2 : ∀ b ∈ l2, Inert b)
    (hq1 : ∀ b ∈ l1, b.potted = true ∨ ∀ p ∈ createPockets (K := K), isBallInPocket b p = false)
    (hq2 : ∀ b ∈ l2, b.potted = true ∨ ∀ p ∈ createPockets (K := K), isBallInPocket b p = false)
    (hu : updateBall m = (m1, true))
    (hp : (if (!m1.potted) = true then handlePotting m1 createPockets score else (m1, score))
      = (m2, score2))
    (hc : collideAll sqrt (l1 ++ m2 :: l2) = r) :
    tick sqrt ⟨l1 ++ m :: l2, score⟩ = r.map (fun balls4 => ⟨balls4, score2⟩) := by
  have hu1 : updateAll (l1 ++ m :: l2) (l1 ++ m :: l2).length = (l1 ++ m1 :: l2, 1) := by
    rw [updateAll_append, updateAll_inert l1 hi1]
    simp only [updateAll, hu, Bool.not_true, Bool.false_eq_true, if_false,
      updateAll_inert l2 hi2, List.length_append, List.length_cons, Prod.mk.injEq, true_and]
    omega
  have hp1 : pottingAll createPockets (l1 ++ m1 :: l2) score = (l1 ++ m2 :: l2, score2) := by
    rw [pottingAll_append, pottingAll_none createPockets l1 score hq1]
    simp only [pottingAll, hp, pottingAll_none createPockets l2 score2 hq2]
  unfold tick
  simp only [hu1, hp1, one_ne_zero, if_false, hc]
  cases r <;> rfl

/-! ## Frames from the initial layout -/

theorem launch_initialState (V : Vec2d K) :
    launch V (initialState (K := K)) =
      ⟨[] ++ ⟨⟨200, 200⟩, V, ⟨255, 255, 255⟩, 0, false, "Cue Ball"⟩ :: initialBalls.tail, 0⟩ := by
  have h := initialBalls_split (K := K)
  unfold launch initialState
  simp only
  generalize (initialBalls (K := K)).tail = t at h ⊢
  rw [h]
  rfl

theorem initialBalls_tail_inert : ∀ b ∈ (initialBalls (K := K)).tail, Inert b :=
  fun b hb => inert_of_fresh b (initialBalls_fresh b (List.mem_of_mem_tail hb))

theorem initialBalls_tail_not_in_pocket :
    ∀ b ∈ (initialBalls (K := K)).tail,
      b.potted = true ∨ ∀ p ∈ createPockets (K := K), isBallInPocket b p = false :=
  fun b hb => Or.inr (not_in_pocket_of_y_range b
    (initialBalls_y_range b (List.mem_of_mem_tail hb)).1
    (initialBalls_y_range b (List.mem_of_mem_tail hb)).2)

theorem initialBalls_tail_blue :
    (initialBalls (K := K)).tail =
      (redBalls ++
        [ ⟨⟨334, 200⟩, ⟨0, 0⟩, ⟨255, 255, 0⟩, 2, false, "Yellow Ball"⟩,
          ⟨⟨378, 104⟩, ⟨0, 0⟩, ⟨0, 255, 0⟩, 3, false, "Green Ball"⟩,
          ⟨⟨378, 296⟩, ⟨0, 0⟩, ⟨139, 69, 19⟩, 4, false, "Brown Ball"⟩ ]) ++
      blueBall ::
        [ ⟨⟨534, 200⟩, ⟨0, 0⟩, ⟨255, 105, 180⟩, 6, false, "Pink Ball"⟩,
          ⟨⟨732, 200⟩, ⟨0, 0⟩, ⟨0, 0, 0⟩, 7, false, "Black Ball"⟩ ] := by
  rw [initialBalls_eq]
  simp [blueBall]

theorem cueOnBlue_moving : isMoving (cueOnBlue (K := K)) = true := by
  norm_num [isMoving, cueOnBlue, Vec2d.squaredLength, Vec2d.dot]

/-- One frame after `blueShot` from the initial layout the cue ball's centre is
the Blue Ball's centre, and the collision pass divides by zero. -/
theorem tick_blueShot (sqrt : K → K) (hs : IsSqrt sqrt) :
    tick sqrt (launch blueShot (initialState (K := K))) = none := by
  have hu : updateBall (K := K) ⟨⟨200, 200⟩, blueShot, ⟨255, 255, 255⟩, 0, false, "Cue Ball"⟩ =
      (cueOnBlue, true) := by
    rw [updateBall_moving _ rfl (by norm_num [blueShot, Vec2d.squaredLength, Vec2d.dot])]
    norm_num [blueShot, cueOnBlue]
  have hp : (if (!(cueOnBlue (K := K)).potted) = true
      then handlePotting cueOnBlue createPockets 0 else (cueOnBlue, 0)) =
      ((cueOnBlue (K := K)), (0 : Int)) := by
    have := handlePottingLoop_none (K := K) cueOnBlue createPockets 0
      (not_in_pocket_of_y_range _ (by norm_num [cueOnBlue]) (by norm_num [cueOnBlue]))
    simpa [handlePotting, cueOnBlue] using this
  have hrow : collideRow sqrt (cueOnBlue (K := K)) (initialBalls (K := K)).tail = none := by
    rw [initialBalls_tail_blue]
    apply collideRow_hit_none
    · intro c hc
      apply handleCollision_apart sqrt hs
      rw [redBalls_eq] at hc
      simp only [List.cons_append, List.nil_append, List.mem_cons, List.mem_singleton,
        List.not_mem_nil, or_false] at hc
      rcases hc with rfl | rfl | rfl | rfl | rfl | rfl | rfl | rfl | rfl | rfl | rfl | rfl |
        rfl | rfl | rfl | rfl | rfl | rfl <;>
        norm_num [cueOnBlue, Vec2d.sub, Vec2d.squaredLength, Vec2d.dot]
    · exact handleCollision_coincident sqrt hs cueOnBlue blueBall rfl rfl
        (Or.inl cueOnBlue_moving) rfl
  have hc : collideAll sqrt ([] ++ cueOnBlue (K := K) :: (initialBalls (K := K)).tail) = none :=
    collideAll_cons_none sqrt _ _ hrow
  rw [launch_initialState]
  exact tick_one_mover sqrt [] (initialBalls (K := K)).tail _ cueOnBlue cueOnBlue 0 0 none
    (fun _ h => absurd h (List.not_mem_nil _)) initialBalls_tail_inert
    (fun _ h => absurd h (List.not_mem_nil _)) initialBalls_tail_not_in_pocket hu hp hc

/-! ## A break that pots a red ball -/

theorem frontReds_eq :
    frontReds (K := K) =
    [ ⟨⟨600, 200⟩, ⟨0, 0⟩, ⟨255, 0, 0⟩, 1, false, "Red Ball"⟩,
      ⟨⟨622, 189⟩, ⟨0, 0⟩, ⟨255, 0, 0⟩, 1, false, "Red Ball"⟩,
      ⟨⟨622, 211⟩, ⟨0, 0⟩, ⟨255, 0, 0⟩, 1, false, "Red Ball"⟩,
      ⟨⟨644, 178⟩, ⟨0, 0⟩, ⟨255, 0, 0⟩, 1, false, "Red Ball"⟩,
      ⟨⟨644, 200⟩, ⟨0, 0⟩, ⟨255, 0, 0⟩, 1, false, "Red Ball"⟩,
      ⟨⟨644, 222⟩, ⟨0, 0⟩, ⟨255, 0, 0⟩, 1, false, "Red Ball"⟩,
      ⟨⟨666, 167⟩, ⟨0, 0⟩, ⟨255, 0, 0⟩, 1, false, "Red Ball"⟩,
      ⟨⟨666, 189⟩, ⟨0, 0⟩, ⟨255, 0, 0⟩, 1, false, "Red Ball"⟩,
      ⟨⟨666, 211⟩, ⟨0, 0⟩, ⟨255, 0, 0⟩, 1, false, "Red Ball"⟩,
      ⟨⟨666, 233⟩, ⟨0, 0⟩, ⟨255, 0, 0⟩, 1, false, "Red Ball"⟩,
      ⟨⟨688, 156⟩, ⟨0, 0⟩, ⟨255, 0, 0⟩, 1, false, "Red Ball"⟩,
      ⟨⟨688, 178⟩, ⟨0, 0⟩, ⟨255, 0, 0⟩, 1, false, "Red Ball"⟩,
      ⟨⟨688, 200⟩, ⟨0, 0⟩, ⟨255, 0, 0⟩, 1, false, "Red Ball"⟩,
      ⟨⟨688, 222⟩, ⟨0, 0⟩, ⟨255, 0, 0⟩, 1, false, "Red Ball"⟩ ] := by
  unfold frontReds
  rw [redBalls_eq]
  rfl

theorem colouredBalls_eq :
    colouredBalls (K := K) =
    [ ⟨⟨334, 200⟩, ⟨0, 0⟩, ⟨255, 255, 0⟩, 2, false, "Yellow Ball"⟩,
      ⟨⟨378, 104⟩, ⟨0, 0⟩, ⟨0, 255, 0⟩, 3, false, "Green Ball"⟩,
      ⟨⟨378, 296⟩, ⟨0, 0⟩, ⟨139, 69, 19⟩, 4, false, "Brown Ball"⟩,
      ⟨⟨400, 200⟩, ⟨0, 0⟩, ⟨0, 0, 255⟩, 5, false, "Blue Ball"⟩,
      ⟨⟨534, 200⟩, ⟨0, 0⟩, ⟨255, 105, 180⟩, 6, false, "Pink Ball"⟩,
      ⟨⟨732, 200⟩, ⟨0, 0⟩, ⟨0, 0, 0⟩, 7, false, "Black Ball"⟩ ] := by
  unfold colouredBalls
  rw [initialBalls_eq, redBalls_eq]
  rfl

theorem initialBalls_tail_corner :
    (initialBalls (K := K)).tail = frontReds ++ cornerRed :: colouredBalls := by
  rw [frontReds_eq, colouredBalls_eq, initialBalls_eq, redBalls_eq]
  rfl

theorem frontReds_fresh : ∀ b ∈ frontReds (K := K), b.potted = false ∧ b.v = ⟨0, 0⟩ := by
  rw [frontReds_eq]; simp

theorem colouredBalls_fresh : ∀ b ∈ colouredBalls (K := K), b.potted = false ∧ b.v = ⟨0, 0⟩ := by
  rw [colouredBalls_eq]; simp

theorem frontReds_y_range : ∀ b ∈ frontReds (K := K), 80 ≤ b.pos.y ∧ b.pos.y ≤ 320 := by
  rw [frontReds_eq]; simp; norm_num

theorem colouredBalls_y_range :
    ∀ b ∈ colouredBalls (K := K), 80 ≤ b.pos.y ∧ b.pos.y ≤ 320 := by
  rw [colouredBalls_eq]; simp; norm_num

theorem frontReds_apart_cue :
    ∀ b ∈ frontReds (K := K), 400 ≤ (b.pos.sub (cueBreak1 (K := K)).pos).squaredLength := by
  rw [frontReds_eq]
  simp [cueBreak1, Vec2d.sub, Vec2d.squaredLength, Vec2d.dot]
  norm_num

theorem colouredBalls_apart_cue :
    ∀ b ∈ colouredBalls (K := K), 400 ≤ (b.pos.sub (cueBreak2 (K := K)).pos).squaredLength := by
  rw [colouredBalls_eq]
  simp [cueBreak2, Vec2d.sub, Vec2d.squaredLength, Vec2d.dot]
  norm_num

theorem frontReds_apart_red :
    ∀ b ∈ frontReds (K := K), 400 ≤ ((cornerRed2 (K := K)).pos.sub b.pos).squaredLength := by
  rw [frontReds_eq]
  simp [cornerRed2, Vec2d.sub, Vec2d.squaredLength, Vec2d.dot]
  norm_num

theorem colouredBalls_apart_red :
    ∀ b ∈ colouredBalls (K := K), 400 ≤ (b.pos.sub (cornerRed2 (K := K)).pos).squaredLength := by
  rw [colouredBalls_eq]
  simp [cornerRed2, Vec2d.sub, Vec2d.squaredLength, Vec2d.dot]
  norm_num

theorem cue_hits_cornerRed (sqrt : K → K) (hs : IsSqrt sqrt) :
    handleCollision sqrt (cueBreak1 (K := K)) cornerRed = some (cueBreak2, cornerRed2) := by
  have h : ((cornerRed (K := K)).pos.sub cueBreak1.pos).squaredLength = 19.5 * 19.5 := by
    norm_num [cornerRed, cueBreak1, Vec2d.sub, Vec2d.squaredLength, Vec2d.dot]
  have hd : (19.5 : K) = sqrt ((cornerRed (K := K)).pos.sub cueBreak1.pos).squaredLength := by
    rw [h]; exact (isSqrt_unique sqrt hs 19.5 (by norm_num)).symm
  rw [handleCollision_eq_resolved sqrt cueBreak1 cornerRed rfl rfl
    (Or.inl (by norm_num [isMoving, cueBreak1, Vec2d.squaredLength, Vec2d.dot]))
    19.5 hd (by norm_num) (by norm_num) ⟨-0.6, -0.8⟩ (by norm_num [cueBreak1, cornerRed])]
  norm_num [resolved, cueBreak1, cornerRed, cueBreak2, cornerRed2, Vec2d.sub, Vec2d.add,
    Vec2d.mul, Vec2d.dot]

/-- The frame after `breakShot` from the initial layout: the cue ball lands
next to the last red of the rack and hits it, nothing else is touched. -/
theorem tick_breakShot (sqrt : K → K) (hs : IsSqrt sqrt) :
    tick sqrt (launch breakShot (initialState (K := K))) = some breakState := by
  have hu : updateBall (K := K) ⟨⟨200, 200⟩, breakShot, ⟨255, 255, 255⟩, 0, false, "Cue Ball"⟩ =
      (cueBreak1, true) := by
    rw [updateBall_moving _ rfl (by norm_num [breakShot, Vec2d.squaredLength, Vec2d.dot])]
    norm_num [breakShot, cueBreak1]
  have hp : (if (!(cueBreak1 (K := K)).potted) = true
      then handlePotting cueBreak1 createPockets 0 else (cueBreak1, 0)) =
      ((cueBreak1 (K := K)), (0 : Int)) := by
    have := handlePottingLoop_none (K := K) cueBreak1 createPockets 0
      (not_in_pocket_of_y_range _ (by norm_num [cueBreak1]) (by norm_num [cueBreak1]))
    simpa [handlePotting, cueBreak1] using this
  have hrow : collideRow sqrt (cueBreak1 (K := K)) (initialBalls (K := K)).tail =
      some (cueBreak2, frontReds ++ cornerRed2 :: colouredBalls) := by
    rw [initialBalls_tail_corner]
    exact collideRow_hit_some sqrt frontReds cueBreak1 cornerRed cueBreak2 cornerRed2 cueBreak2
      colouredBalls colouredBalls
      (fun c hc => handleCollision_apart sqrt hs _ _ (frontReds_apart_cue c hc))
      (cue_hits_cornerRed sqrt hs)
      (collideRow_noHit sqrt _ _
        (fun c hc => handleCollision_apart sqrt hs _ _ (colouredBalls_apart_cue c hc)))
  have hrest : collideFrom sqrt (initialBalls (K := K)).tail.length
      (frontReds ++ cornerRed2 (K := K) :: colouredBalls) =
      some (frontReds ++ cornerRed2 :: colouredBalls) :=
    collideFrom_noHit sqrt _ _
      (pairwise_noHit_one_mover sqrt hs frontReds colouredBalls cornerRed2
        (fun b hb => inert_of_fresh b (frontReds_fresh b hb))
        (fun b hb => inert_of_fresh b (colouredBalls_fresh b hb))
        frontReds_apart_red colouredBalls_apart_red)
  have hc : collideAll sqrt ([] ++ cueBreak1 (K := K) :: (initialBalls (K := K)).tail) =
      some (cueBreak2 :: (frontReds ++ cornerRed2 :: colouredBalls)) :=
    collideAll_cons_some sqrt _ _ _ _ _ hrow hrest
  rw [launch_initialState]
  exact tick_one_mover sqrt [] (initialBalls (K := K)).tail _ cueBreak1 cueBreak1 0 0 _
    (fun _ h => absurd h (List.not_mem_nil _)) initialBalls_tail_inert
    (fun _ h => absurd h (List.not_mem_nil _)) initialBalls_tail_not_in_pocket hu hp hc

theorem launch_breakState :
    launch ⟨0, 0⟩ (breakState (K := K)) =
      ⟨(cueStopped :: frontReds) ++ cornerRed2 :: colouredBalls, 0⟩ := rfl

/-- The next frame: the red ball flies into the bottom-right corner, is
clamped to `(730, 330)` and potted there; the score becomes 1. -/
theorem tick_redPotted (sqrt : K → K) :
    tick sqrt (launch ⟨0, 0⟩ (breakState (K := K))) = some redPottedState := by
  have hu : updateBall (cornerRed2 (K := K)) = (cornerRed3, true) := by
    rw [updateBall_moving _ rfl (by norm_num [cornerRed2, Vec2d.squaredLength, Vec2d.dot])]
    norm_num [cornerRed2, cornerRed3, clamp]
  have hp : (if (!(cornerRed3 (K := K)).potted) = true
      then handlePotting cornerRed3 createPockets 0 else (cornerRed3, 0)) =
      ((cornerRedPotted (K := K)), (1 : Int)) := by
    have hin : ∃ pocket ∈ createPockets (K := K), isBallInPocket cornerRed3 pocket = true :=
      ⟨⟨⟨740, 340⟩⟩, by norm_num [createPockets, SCREEN_WIDTH, SCREEN_HEIGHT, TABLE_MARGIN],
        by rw [isBallInPocket_iff]
           norm_num [cornerRed3, Vec2d.sub, Vec2d.squaredLength, Vec2d.dot]⟩
    have := handlePottingLoop_some (K := K) cornerRed3 createPockets 0 hin
    simp only [cornerRed3, handlePotting, Bool.not_false, if_true, Bool.false_eq_true,
      if_false] at this ⊢
    rw [this]
    simp [cornerRedPotted]
  have hi1 : ∀ b ∈ cueStopped (K := K) :: frontReds, Inert b := by
    intro b hb
    rcases List.mem_cons.1 hb with rfl | hb
    · exact inert_of_fresh _ ⟨rfl, rfl⟩
    · exact inert_of_fresh b (frontReds_fresh b hb)
  have hi2 : ∀ b ∈ colouredBalls (K := K), Inert b :=
    fun b hb => inert_of_fresh b (colouredBalls_fresh b hb)
  have hq1 : ∀ b ∈ cueStopped (K := K) :: frontReds,
      b.potted = true ∨ ∀ p ∈ createPockets (K := K), isBallInPocket b p = false := by
    intro b hb
    rcases List.mem_cons.1 hb with rfl | hb
    · exact Or.inr (not_in_pocket_of_y_range _ (by norm_num [cueStopped])
        (by norm_num [cueStopped]))
    · exact Or.inr (not_in_pocket_of_y_range b (frontReds_y_range b hb).1
        (frontReds_y_range b hb).2)
  have hq2 : ∀ b ∈ colouredBalls (K := K),
      b.potted = true ∨ ∀ p ∈ createPockets (K := K), isBallInPocket b p = false :=
    fun b hb => Or.inr (not_in_pocket_of_y_range b (colouredBalls_y_range b hb).1
      (colouredBalls_y_range b hb).2)
  have hc : collideAll sqrt ((cueStopped (K := K) :: frontReds) ++
      cornerRedPotted :: colouredBalls) =
      some ((cueStopped :: frontReds) ++ cornerRedPotted :: colouredBalls) := by
    apply collideFrom_inert
    intro b hb
    rcases List.mem_append.1 hb with hb | hb
    · exact hi1 b hb
    · rcases List.mem_cons.1 hb with rfl | hb
      · exact Or.inl rfl
      · exact hi2 b hb
  rw [launch_breakState]
  exact tick_one_mover sqrt (cueStopped :: frontReds) colouredBalls cornerRed2 cornerRed3
    cornerRedPotted 0 1 _ hi1 hi2 hq1 hq2 hu hp hc

theorem reachable_redPottedState (sqrt : K → K) (hs : IsSqrt sqrt) :
    Reachable sqrt (redPottedState (K := K)) :=
  Steps.tick (Steps.launch ⟨0, 0⟩ (Steps.tick (Steps.launch breakShot (Steps.refl _))
    (tick_breakShot sqrt hs))) (tick_redPotted sqrt)

/-- The frame after the foul: everything is at rest, the cue ball is respawned
and the table is the initial layout again. -/
theorem tick_cuePottedState (sqrt : K → K) :
    tick sqrt (cuePottedState (K := K)) = some initialState := by
  have hw : ∀ b ∈ (cuePottedState (K := K)).balls, WellNamed b :=
    reachable_wellNamed sqrt _ (reachable_cuePottedState sqrt)
  have hi : ∀ b ∈ (cuePottedState (K := K)).balls, Inert b :=
    fun b hb => (inert_iff b).2 (cuePottedState_rest b hb)
  obtain ⟨balls3, h3, ht⟩ := tick_of_inert sqrt cuePottedState hw hi
  have hq : ∀ b ∈ (cuePottedState (K := K)).balls,
      b.potted = true ∨ ∀ p ∈ createPockets (K := K), isBallInPocket b p = false := by
    intro b hb
    rcases List.mem_cons.1 hb with rfl | hb
    · exact Or.inl rfl
    · exact initialBalls_tail_not_in_pocket b hb
  rw [pottingAll_none createPockets _ _ hq] at h3 ht
  have hresp : handlePottedBalls (cuePottedState (K := K)).balls = some initialBalls := by
    have htl := handlePottedBalls_unpotted (initialBalls (K := K)).tail
      (fun b hb => (initialBalls_fresh b (List.mem_of_mem_tail hb)).1)
    have hsplit := initialBalls_split (K := K)
    unfold cuePottedState
    simp only
    generalize (initialBalls (K := K)).tail = t at htl hsplit ⊢
    rw [hsplit]
    have hcue : createBall (K := K) "Cue Ball" =
        some ⟨⟨200, 200⟩, ⟨0, 0⟩, ⟨255, 255, 255⟩, 0, false, "Cue Ball"⟩ := by
      simp [createBall, SCREEN_WIDTH, SCREEN_HEIGHT]
      norm_num
    simp only [handlePottedBalls, Bool.not_true, Bool.false_eq_true, if_false, if_true, htl,
      hcue, Option.map_some', Option.some_bind]
  simp only at h3 ht
  rw [hresp] at h3
  cases h3
  exact ht

theorem redPottedState_count :
    (redPottedState (K := K)).balls.countP isRedPotted = 1 := by
  unfold redPottedState
  simp only [List.countP_append, List.countP_cons]
  have h1 : (frontReds (K := K)).countP isRedPotted = 0 := by
    rw [List.countP_eq_zero]
    intro b hb
    simp [isRedPotted, (frontReds_fresh b hb).1]
  have h2 : (colouredBalls (K := K)).countP isRedPotted = 0 := by
    rw [List.countP_eq_zero]
    intro b hb
    simp [isRedPotted, (colouredBalls_fresh b hb).1]
  rw [h1, h2]
  simp [isRedPotted, isRed, cueStopped, cornerRedPotted]

/-! ## Whole games -/

/-- Claim C14 fails on the code: `handleCollision` has no guard for
coinciding centres.  The cue ball launched with velocity `(200, 0)` from the
initial layout stands after one integration step on the Blue Ball's spot
`(400, 200)`; both balls are unpotted and the cue ball moves, the distance is
`sqrt 0 = 0 < 20`, `ab.norm()` divides by that zero, no pair of balls with
numbers for positions and velocities comes back, and the frame has no
result. -/
theorem handleCollision_divides_by_zero :
    (cueOnBlue (K := ℝ)).potted = false ∧ (blueBall (K := ℝ)).potted = false ∧
    isMoving (cueOnBlue (K := ℝ)) = true ∧
    (cueOnBlue (K := ℝ)).pos = blueBall.pos ∧
    Real.sqrt ((blueBall (K := ℝ)).pos.sub cueOnBlue.pos).squaredLength = 0 ∧
    Vec2d.norm Real.sqrt ((blueBall (K := ℝ)).pos.sub cueOnBlue.pos) = none ∧
    handleCollision Real.sqrt (cueOnBlue (K := ℝ)) blueBall = none ∧
    updateBall (K := ℝ) ⟨⟨200, 200⟩, blueShot, ⟨255, 255, 255⟩, 0, false, "Cue Ball"⟩ =
      (cueOnBlue, true) ∧
    (initialBalls (K := ℝ))[19]? = some blueBall ∧
    tick Real.sqrt (launch blueShot (initialState (K := ℝ))) = none := by
  have h0 : ((blueBall (K := ℝ)).pos.sub cueOnBlue.pos).squaredLength = 0 := by
    norm_num [cueOnBlue, blueBall, Vec2d.sub, Vec2d.squaredLength, Vec2d.dot]
  have hd : Real.sqrt ((blueBall (K := ℝ)).pos.sub cueOnBlue.pos).squaredLength = 0 := by
    rw [h0, Real.sqrt_zero]
  refine ⟨rfl, rfl, cueOnBlue_moving, rfl, hd, ?_,
    handleCollision_coincident Real.sqrt isSqrt_real cueOnBlue blueBall rfl rfl
      (Or.inl cueOnBlue_moving) rfl, ?_, ?_, tick_blueShot Real.sqrt isSqrt_real⟩
  · simp only [Vec2d.norm, Vec2d.div, hd, if_true]
  · rw [updateBall_moving _ rfl (by norm_num [blueShot, Vec2d.squaredLength, Vec2d.dot])]
    norm_num [blueShot, cueOnBlue]
  · rw [initialBalls_eq, redBalls_eq]
    rfl

/-- Claim C19 fails on the code at coinciding centres: for the cue ball moved
onto the Blue Ball's spot `(400, 200)` with velocity `(199.9, 0)` and the Blue
Ball resting there, the call returns no pair of balls whose velocities add up
to `a.v + b.v` (it returns no numbers at all). -/
theorem handleCollision_momentum_lost :
    ¬ ∃ a1 b1 : Ball ℝ,
      handleCollision Real.sqrt (cueOnBlue (K := ℝ)) blueBall = some (a1, b1) ∧
        a1.v.add b1.v = (cueOnBlue (K := ℝ)).v.add blueBall.v := by
  rintro ⟨a1, b1, h, _⟩
  rw [handleCollision_coincident Real.sqrt isSqrt_real cueOnBlue blueBall rfl rfl
    (Or.inl cueOnBlue_moving) rfl] at h
  cases h

theorem rest_fixed_point_witness :
    Reachable Real.sqrt (cuePottedState (K := ℝ)) ∧
    tick Real.sqrt (cuePottedState (K := ℝ)) = some initialState ∧
    tick Real.sqrt (initialState (K := ℝ)) = some initialState ∧
    (∃ s1 : State ℝ, tick Real.sqrt (cuePottedState (K := ℝ)) = some s1 ∧
      tick Real.sqrt s1 = some s1) ∧
    (∀ balls balls1 : List (Ball ℝ), handlePottedBalls balls = some balls1 →
      handlePottedBalls balls1 = some balls1) :=
  ⟨reachable_cuePottedState Real.sqrt, tick_cuePottedState Real.sqrt,
    tick_initialState Real.sqrt,
    rest_fixed_point Real.sqrt cuePottedState (reachable_cuePottedState Real.sqrt)
      cuePottedState_rest⟩

theorem score_accounting_witness :
    Reachable Real.sqrt (redPottedState (K := ℝ)) ∧
    (redPottedState (K := ℝ)).score = 1 ∧
    (redPottedState (K := ℝ)).balls.countP isRedPotted = 1 ∧
    (redPottedState (K := ℝ)).score =
      ((redPottedState (K := ℝ)).balls.countP isRedPotted : Int) ∧
    0 ≤ (redPottedState (K := ℝ)).score ∧ (redPottedState (K := ℝ)).score ≤ 15 ∧
      ∀ s1 : State ℝ, Steps Real.sqrt redPottedState s1 →
        (redPottedState (K := ℝ)).score ≤ s1.score :=
  ⟨reachable_redPottedState Real.sqrt isSqrt_real, rfl, redPottedState_count,
    score_accounting Real.sqrt redPottedState (reachable_redPottedState Real.sqrt isSqrt_real)⟩

/-! ## Collisions in double precision -/

/-- The two branches of `handleCollision` behind its guards, in double precision. -/
theorem handleCollision_rounded (a b : Ball Double)
    (ha : a.potted = false) (hb : b.potted = false)
    (hm : Fp.isMoving a = true ∨ Fp.isMoving b = true) :
    Fp.handleCollision a b =
      if Double.lt (Fp.distance a b) (Double.ofInt (BALL_RADIUS * 2)) = true then
        ({ a with
            pos := Fp.sub a.pos (Fp.mul (Fp.mul (Fp.div (Fp.sub b.pos a.pos) (Fp.distance a b))
              (Double.ofInt (BALL_RADIUS * 2) - Fp.distance a b)) (Double.round 0.5))
            v := Fp.sub a.v (Fp.mul (Fp.div (Fp.sub b.pos a.pos) (Fp.distance a b))
              (Fp.dot (Fp.sub a.v b.v) (Fp.div (Fp.sub b.pos a.pos) (Fp.distance a b)))) },
         { b with
            pos := Fp.add b.pos (Fp.mul (Fp.mul (Fp.div (Fp.sub b.pos a.pos) (Fp.distance a b))
              (Double.ofInt (BALL_RADIUS * 2) - Fp.distance a b)) (Double.round 0.5))
            v := Fp.add b.v (Fp.mul (Fp.div (Fp.sub b.pos a.pos) (Fp.distance a b))
              (Fp.dot (Fp.sub a.v b.v) (Fp.div (Fp.sub b.pos a.pos) (Fp.distance a b)))) })
      else (a, b) := by
  have hm' : (!Fp.isMoving a && !Fp.isMoving b) = false := by
    rcases hm with h | h <;> simp [h]
  unfold Fp.handleCollision
  simp only [ha, hb, hm', Bool.or_self, Bool.false_eq_true, if_false, Fp.norm, Fp.distance]

/-- Claim C1 fails as stated: in double precision two unpotted moving balls at
`(100, 100)` and `(109, 112)`, 15 apart, with velocities `(3, 1)` and `(-1, 2)`
have the sum of squared speeds 15 before `handleCollision` and
`15 + 2 ^ (-49)` (15.000000000000002) after it; the exact sum of the squares
of the four new components is above 15 as well. -/
theorem energy_rises_by_rounding :
    Fp.glancingA.potted = false ∧ Fp.glancingB.potted = false ∧
    Fp.isMoving Fp.glancingA = true ∧ Fp.isMoving Fp.glancingB = true ∧
    Fp.energy Fp.glancingA Fp.glancingB = Double.fin 15 ∧
    (Fp.handleCollision Fp.glancingA Fp.glancingB).1.v =
      ⟨Double.fin (2296835809958953 / 1125899906842624),
        Double.fin (-1261007895663739 / 4503599627370496)⟩ ∧
    (Fp.handleCollision Fp.glancingA Fp.glancingB).2.v =
      ⟨Double.fin (-360287970189641 / 9007199254740992),
        Double.fin (3692951694443807 / 1125899906842624)⟩ ∧
    Fp.energy (Fp.handleCollision Fp.glancingA Fp.glancingB).1
      (Fp.handleCollision Fp.glancingA Fp.glancingB).2 =
      Double.fin (8444249301319681 / 562949953421312) ∧
    Double.lt (Fp.energy Fp.glancingA Fp.glancingB)
      (Fp.energy (Fp.handleCollision Fp.glancingA Fp.glancingB).1
        (Fp.handleCollision Fp.glancingA Fp.glancingB).2) = true ∧
    (15 : ℚ) < (2296835809958953 / 1125899906842624) ^ 2 +
      (-1261007895663739 / 4503599627370496) ^ 2 +
      ((-360287970189641 / 9007199254740992) ^ 2 +
        (3692951694443807 / 1125899906842624) ^ 2) := by
  refine ⟨rfl, rfl, ?_, ?_, ?_, ?_, ?_, ?_, ?_, ?_⟩
  · decide!
  · decide!
  · decide!
  · decide!
  · decide!
  · decide!
  · decide!
  · norm_num

/-- The sum of squared speeds after `handleCollision` in double precision, for
two unpotted balls, not both at rest, whose computed centre distance `d` is
above 0: when `d` is not below 20 it is the sum before the call; when `d` is
below 20 it is `|a.v - v|² + |b.v + v|²` for the one vector
`v = n * ((a.v - b.v) · n)`, `n = (b.pos - a.pos) / d`, every operation rounded
to double. -/
theorem energy_after_collision (a b : Ball Double)
    (ha : a.potted = false) (hb : b.potted = false)
    (hm : Fp.isMoving a = true ∨ Fp.isMoving b = true)
    (d : Double) (hd : d = Double.sqrt (Fp.squaredLength (Fp.sub b.pos a.pos)))
    (_h0 : Double.lt (Double.ofInt 0) d = true)
    (n : Vec2d Double) (hn : n = Fp.div (Fp.sub b.pos a.pos) d)
    (v : Vec2d Double) (hv : v = Fp.mul n (Fp.dot (Fp.sub a.v b.v) n)) :
    Fp.energy (Fp.handleCollision a b).1 (Fp.handleCollision a b).2 =
      if Double.lt d (Double.ofInt (BALL_RADIUS * 2)) = true then
        Fp.squaredLength (Fp.sub a.v v) + Fp.squaredLength (Fp.add b.v v)
      else Fp.energy a b := by
  rw [handleCollision_rounded a b ha hb hm, hv, hn, hd]
  unfold Fp.distance
  split <;> rfl

/-- In double precision the separation of `handleCollision` can end below 20:
a ball at `(300, 200)` with velocity `(4, 0)` and a resting ball at
`(307, 203)` end 19.999999999999986 apart, and the exact distance of the two
new centres is below 20 as well. -/
theorem overlap_left_by_rounding :
    Fp.obliqueA.potted = false ∧ Fp.obliqueB.potted = false ∧
    Fp.isMoving Fp.obliqueA = true ∧
    Double.lt (Fp.distance Fp.obliqueA Fp.obliqueB) (Double.ofInt (BALL_RADIUS * 2)) = true ∧
    (Fp.handleCollision Fp.obliqueA Fp.obliqueB).1.pos =
      ⟨Double.fin (1294382690195369 / 4398046511104),
        Double.fin (6951052944157837 / 35184372088832)⟩ ∧
    (Fp.handleCollision Fp.obliqueA Fp.obliqueB).2.pos =
      ⟨Double.fin (1375231542044759 / 4398046511104),
        Double.fin (7228249007641459 / 35184372088832)⟩ ∧
    Fp.distance (Fp.handleCollision Fp.obliqueA Fp.obliqueB).1
      (Fp.handleCollision Fp.obliqueA Fp.obliqueB).2 =
      Double.fin (1407374883553279 / 70368744177664) ∧
    Double.lt (Fp.distance (Fp.handleCollision Fp.obliqueA Fp.obliqueB).1
      (Fp.handleCollision Fp.obliqueA Fp.obliqueB).2) (Double.ofInt (BALL_RADIUS * 2)) = true ∧
    ((1375231542044759 / 4398046511104 - 1294382690195369 / 4398046511104) ^ 2 +
      (7228249007641459 / 35184372088832 - 6951052944157837 / 35184372088832) ^ 2 : ℚ) <
      20 ^ 2 := by
  refine ⟨rfl, rfl, ?_, ?_, ?_, ?_, ?_, ?_, ?_⟩
  · decide!
  · decide!
  · decide!
  · decide!
  · decide!
  · decide!
  · norm_num

/-- The new centres after `handleCollision` in double precision, for two
unpotted balls, not both at rest, whose computed centre distance `d` satisfies
`0 < d < 20`, with `n = (b.pos - a.pos) / d`: `a` is moved to
`a.pos - n * (20 - d) * 0.5` and `b` to `b.pos + n * (20 - d) * 0.5`, every
operation rounded to double. -/
theorem collision_displacement (a b : Ball Double)
    (ha : a.potted = false) (hb : b.potted = false)
    (hm : Fp.isMoving a = true ∨ Fp.isMoving b = true)
    (d : Double) (hd : d = Double.sqrt (Fp.squaredLength (Fp.sub b.pos a.pos)))
    (_h0 : Double.lt (Double.ofInt 0) d = true)
    (h20 : Double.lt d (Double.ofInt (BALL_RADIUS * 2)) = true)
    (n : Vec2d Double) (hn : n = Fp.div (Fp.sub b.pos a.pos) d) :
    (Fp.handleCollision a b).1.pos =
      Fp.sub a.pos (Fp.mul (Fp.mul n (Double.ofInt (BALL_RADIUS * 2) - d)) (Double.round 0.5)) ∧
    (Fp.handleCollision a b).2.pos =
      Fp.add b.pos (Fp.mul (Fp.mul n (Double.ofInt (BALL_RADIUS * 2) - d)) (Double.round 0.5)) := by
  have h20' : Double.lt (Fp.distance a b) (Double.ofInt (BALL_RADIUS * 2)) = true := by
    rw [hd] at h20; exact h20
  rw [handleCollision_rounded a b ha hb hm, if_pos h20', hn, hd]
  exact ⟨rfl, rfl⟩

/-- Claim C7 fails as stated: in double precision, for two unpotted moving balls
at `(100, 100)` and `(109, 112)` with velocities `(3, 1)` and `(-1, 2)`, the
computed normal is `n = (0.6, 0.8)` and after `handleCollision` the component
of `b.v` along `n` is 2.6000000000000005 while that of the old `a.v` was
2.5999999999999996; the two differ in exact arithmetic on the stored values as well. -/
theorem normal_components_not_exchanged :
    Fp.glancingA.potted = false ∧ Fp.glancingB.potted = false ∧
    Fp.isMoving Fp.glancingA = true ∧
    Fp.distance Fp.glancingA Fp.glancingB = Double.fin 15 ∧
    Fp.norm (Fp.sub Fp.glancingB.pos Fp.glancingA.pos) =
      ⟨Double.fin (5404319552844595 / 9007199254740992),
        Double.fin (3602879701896397 / 4503599627370496)⟩ ∧
    Fp.dot Fp.glancingA.v (Fp.norm (Fp.sub Fp.glancingB.pos Fp.glancingA.pos)) =
      Double.fin (1463669878895411 / 562949953421312) ∧
    Fp.dot (Fp.handleCollision Fp.glancingA Fp.glancingB).2.v
      (Fp.norm (Fp.sub Fp.glancingB.pos Fp.glancingA.pos)) =
      Double.fin (2927339757790823 / 1125899906842624) ∧
    Fp.dot (Fp.handleCollision Fp.glancingA Fp.glancingB).2.v
        (Fp.norm (Fp.sub Fp.glancingB.pos Fp.glancingA.pos)) ≠
      Fp.dot Fp.glancingA.v (Fp.norm (Fp.sub Fp.glancingB.pos Fp.glancingA.pos)) ∧
    ((-360287970189641 / 9007199254740992) * (5404319552844595 / 9007199254740992) +
      (3692951694443807 / 1125899906842624) * (3602879701896397 / 4503599627370496) : ℚ) ≠
      3 * (5404319552844595 / 9007199254740992) + 1 * (3602879701896397 / 4503599627370496) := by
  refine ⟨rfl, rfl, ?_, ?_, ?_, ?_, ?_, ?_, ?_⟩
  · decide!
  · decide!
  · decide!
  · decide!
  · decide!
  · decide!
  · norm_num

/-- The new velocities after `handleCollision` in double precision, for two
unpotted balls, not both at rest, whose computed centre distance `d` satisfies
`0 < d < 20`, with `n = (b.pos - a.pos) / d`: `a.v' = a.v - n * ((a.v - b.v) · n)`
and `b.v' = b.v + n * ((a.v - b.v) · n)`, every operation rounded to double. -/
theorem collision_velocities (a b : Ball Double)
    (ha : a.potted = false) (hb : b.potted = false)
    (hm : Fp.isMoving a = true ∨ Fp.isMoving b = true)
    (d : Double) (hd : d = Double.sqrt (Fp.squaredLength (Fp.sub b.pos a.pos)))
    (_h0 : Double.lt (Double.ofInt 0) d = true)
    (h20 : Double.lt d (Double.ofInt (BALL_RADIUS * 2)) = true)
    (n : Vec2d Double) (hn : n = Fp.div (Fp.sub b.pos a.pos) d) :
    (Fp.handleCollision a b).1.v = Fp.sub a.v (Fp.mul n (Fp.dot (Fp.sub a.v b.v) n)) ∧
    (Fp.handleCollision a b).2.v = Fp.add b.v (Fp.mul n (Fp.dot (Fp.sub a.v b.v) n)) := by
  have h20' : Double.lt (Fp.distance a b) (Double.ofInt (BALL_RADIUS * 2)) = true := by
    rw [hd] at h20; exact h20
  rw [handleCollision_rounded a b ha hb hm, if_pos h20', hn, hd]
  exact ⟨rfl, rfl⟩

/-- In double precision the vector sum `a.v + b.v` is kept by `handleCollision`
up to rounding only: balls at `(100, 100)` and `(103, 104)` with velocities
`(-3, 0)` and `(-1, -1)` have the sum `(-4, -1)` before the call and
`(-4, -0.9999999999999999)` after it. -/
theorem momentum_kept_up_to_rounding :
    Fp.add Fp.skewA.v Fp.skewB.v = ⟨Double.fin (-4), Double.fin (-1)⟩ ∧
    Fp.add (Fp.handleCollision Fp.skewA Fp.skewB).1.v (Fp.handleCollision Fp.skewA Fp.skewB).2.v =
      ⟨Double.fin (-4), Double.fin (-9007199254740991 / 9007199254740992)⟩ := by
  decide!

/-- In double precision two unpotted balls with the same centre, one of them
moving, leave `handleCollision` with NaN in every coordinate and velocity
component: the case the exact reading marks with `none`. -/
theorem coinciding_centres_give_nan :
    Fp.distance Fp.stackedA Fp.stackedB = Double.fin 0 ∧
    (Fp.handleCollision Fp.stackedA Fp.stackedB).1.pos = ⟨Double.nan, Double.nan⟩ ∧
    (Fp.handleCollision Fp.stackedA Fp.stackedB).1.v = ⟨Double.nan, Double.nan⟩ ∧
    (Fp.handleCollision Fp.stackedA Fp.stackedB).2.pos = ⟨Double.nan, Double.nan⟩ ∧
    (Fp.handleCollision Fp.stackedA Fp.stackedB).2.v = ⟨Double.nan, Double.nan⟩ := by
  decide!

/-! ## Rounding errors of the double operations -/

theorem pow2_eq_zpow (E : Int) : pow2 E = (2:ℚ) ^ E := by
  unfold pow2
  split
  · rename_i h
    obtain ⟨k, rfl⟩ := Int.eq_ofNat_of_zero_le h
    simp
  · rename_i h
    push_neg at h
    obtain ⟨k, hk⟩ := Int.eq_ofNat_of_zero_le (show 0 ≤ -E by omega)
    have hE : E = -(k : Int) := by omega
    subst hE
    simp

theorem pow2_pos (E : Int) : 0 < pow2 E := by
  rw [pow2_eq_zpow]; positivity

theorem scale_spec (n d : Nat) (hd : 0 < d) (E : Int) :
    0 < (scale n d E).2 ∧ ((scale n d E).1 : ℚ) / (scale n d E).2 = (n : ℚ) / d / (2:ℚ) ^ E := by
  have hd' : (d : ℚ) ≠ 0 := by positivity
  unfold scale
  split
  · rename_i h
    obtain ⟨k, rfl⟩ := Int.eq_ofNat_of_zero_le h
    refine ⟨by positivity, ?_⟩
    simp only [Int.toNat_ofNat, Nat.cast_mul, Nat.cast_pow, Nat.cast_ofNat, zpow_natCast]
    field_simp
  · rename_i h
    obtain ⟨k, hk⟩ := Int.eq_ofNat_of_zero_le (show 0 ≤ -E by omega)
    have hE : E = -(k : Int) := by omega
    subst hE
    refine ⟨hd, ?_⟩
    simp only [neg_neg, Int.toNat_ofNat, Nat.cast_mul, Nat.cast_pow, Nat.cast_ofNat, zpow_neg,
      zpow_natCast]
    field_simp

theorem log2Aux_eq (k : Nat) : ∀ n : Nat, n ≤ k → log2Aux k n = Nat.log 2 n := by
  induction k with
  | zero =>
    intro n h
    have : n = 0 := by omega
    subst this
    simp [log2Aux]
  | succ k ih =>
    intro n h
    unfold log2Aux
    split
    · rename_i h2
      rw [Nat.log_of_lt h2]
    · rename_i h2
      push_neg at h2
      rw [ih (n / 2) (by omega), Nat.log_of_one_lt_of_le (by norm_num) h2]

/-- The leading binary digit: `2 ^ log2 n ≤ n < 2 ^ (log2 n + 1)`. -/
theorem log2_spec (n : Nat) (hn : 0 < n) : 2 ^ log2 n ≤ n ∧ n < 2 ^ (log2 n + 1) := by
  unfold log2
  rw [log2Aux_eq n n le_rfl]
  exact ⟨Nat.pow_log_le_self 2 (by omega), Nat.lt_pow_succ_log_self (by norm_num) n⟩

/-- The nearest integer is within one half of the quotient. -/
theorem roundNearestEven_spec (N D : Nat) (hD : 0 < D) :
    |((roundNearestEven N D : Nat) : ℚ) - (N : ℚ) / D| ≤ 1 / 2 := by
  have hD' : (0:ℚ) < D := by exact_mod_cast hD
  have hdiv : (N : ℚ) = D * (N / D : Nat) + (N % D : Nat) := by
    exact_mod_cast (Nat.div_add_mod N D).symm
  have hmod : ((N % D : Nat) : ℚ) < D := by exact_mod_cast Nat.mod_lt N hD
  have hmod0 : (0:ℚ) ≤ ((N % D : Nat) : ℚ) := by positivity
  have key : (N : ℚ) / D = (N / D : Nat) + ((N % D : Nat) : ℚ) / D := by
    field_simp; linarith
  unfold roundNearestEven
  simp only
  rw [key, abs_le]
  split
  · rename_i h
    have h' : 2 * ((N % D : Nat) : ℚ) < D := by exact_mod_cast h
    have : ((N % D : Nat) : ℚ) / D ≤ 1 / 2 := by
      rw [div_le_iff₀ hD']; linarith
    have : 0 ≤ ((N % D : Nat) : ℚ) / D := by positivity
    constructor <;> linarith
  · rename_i h
    split
    · rename_i h2
      have h' : (D : ℚ) < 2 * ((N % D : Nat) : ℚ) := by exact_mod_cast h2
      have h1 : 1 / 2 ≤ ((N % D : Nat) : ℚ) / D := by
        rw [le_div_iff₀ hD']; linarith
      have h3 : ((N % D : Nat) : ℚ) / D ≤ 1 := by
        rw [div_le_iff₀ hD']; linarith
      push_cast
      constructor <;> linarith
    · rename_i h2
      have h' : (D : ℚ) = 2 * ((N % D : Nat) : ℚ) := by
        have : D = 2 * (N % D) := by omega
        exact_mod_cast this
      have h1 : ((N % D : Nat) : ℚ) / D = 1 / 2 := by
        rw [div_eq_iff (ne_of_gt hD')]; linarith
      split
      · constructor <;> linarith
      · push_cast
        constructor <;> linarith

/-- The binary exponent of a positive quotient. -/
theorem ilog2_spec (n d : Nat) (hn : 0 < n) (hd : 0 < d) :
    (2:ℚ) ^ (ilog2 n d) ≤ (n : ℚ) / d ∧ (n : ℚ) / d < (2:ℚ) ^ (ilog2 n d + 1) := by
  have hd' : (0:ℚ) < d := by exact_mod_cast hd
  obtain ⟨hn1, hn2⟩ := log2_spec n hn
  obtain ⟨hd1, hd2⟩ := log2_spec d hd
  have hn1' : (2:ℚ) ^ (log2 n : Int) ≤ n := by rw [zpow_natCast]; exact_mod_cast hn1
  have hn2' : (n:ℚ) < (2:ℚ) ^ ((log2 n : Int) + 1) := by
    have : (n:ℚ) < (2:ℚ) ^ (log2 n + 1) := by exact_mod_cast hn2
    rwa [← zpow_natCast, Nat.cast_add, Nat.cast_one] at this
  have hd1' : (2:ℚ) ^ (log2 d : Int) ≤ d := by rw [zpow_natCast]; exact_mod_cast hd1
  have hd2' : (d:ℚ) < (2:ℚ) ^ ((log2 d : Int) + 1) := by
    have : (d:ℚ) < (2:ℚ) ^ (log2 d + 1) := by exact_mod_cast hd2
    rwa [← zpow_natCast, Nat.cast_add, Nat.cast_one] at this
  have two : (2:ℚ) ≠ 0 := by norm_num
  -- bounds on the quotient
  have hlow : (2:ℚ) ^ ((log2 n : Int) - (log2 d : Int) - 1) ≤ (n : ℚ) / d := by
    rw [le_div_iff₀ hd']
    have e : (2:ℚ) ^ ((log2 n : Int) - (log2 d : Int) - 1) * (2:ℚ) ^ ((log2 d : Int) + 1)
        = (2:ℚ) ^ (log2 n : Int) := by
      rw [← zpow_add₀ two]; congr 1; ring
    have hp : (0:ℚ) < (2:ℚ) ^ ((log2 n : Int) - (log2 d : Int) - 1) := by positivity
    calc (2:ℚ) ^ ((log2 n : Int) - (log2 d : Int) - 1) * d
        ≤ (2:ℚ) ^ ((log2 n : Int) - (log2 d : Int) - 1) * (2:ℚ) ^ ((log2 d : Int) + 1) :=
          mul_le_mul_of_nonneg_left (le_of_lt hd2') (le_of_lt hp)
      _ = (2:ℚ) ^ (log2 n : Int) := e
      _ ≤ n := hn1'
  have hhigh : (n : ℚ) / d < (2:ℚ) ^ ((log2 n : Int) - (log2 d : Int) + 1) := by
    rw [div_lt_iff₀ hd']
    have e : (2:ℚ) ^ ((log2 n : Int) - (log2 d : Int) + 1) * (2:ℚ) ^ (log2 d : Int)
        = (2:ℚ) ^ ((log2 n : Int) + 1) := by
      rw [← zpow_add₀ two]; congr 1; ring
    have hp : (0:ℚ) < (2:ℚ) ^ ((log2 n : Int) - (log2 d : Int) + 1) := by positivity
    calc (n:ℚ) < (2:ℚ) ^ ((log2 n : Int) + 1) := hn2'
      _ = (2:ℚ) ^ ((log2 n : Int) - (log2 d : Int) + 1) * (2:ℚ) ^ (log2 d : Int) := e.symm
      _ ≤ (2:ℚ) ^ ((log2 n : Int) - (log2 d : Int) + 1) * d :=
          mul_le_mul_of_nonneg_left hd1' (le_of_lt hp)
  obtain ⟨hs0, hs⟩ := scale_spec n d hd ((log2 n : Int) - (log2 d : Int))
  have hs0' : (0:ℚ) < ((scale n d ((log2 n : Int) - (log2 d : Int))).2 : ℚ) := by
    exact_mod_cast hs0
  have hpe : (0:ℚ) < (2:ℚ) ^ ((log2 n : Int) - (log2 d : Int)) := by positivity
  unfold ilog2
  simp only
  split
  · rename_i h
    have h' : ((scale n d ((log2 n : Int) - (log2 d : Int))).2 : ℚ) ≤
        ((scale n d ((log2 n : Int) - (log2 d : Int))).1 : ℚ) := by exact_mod_cast h
    have h1 : (1:ℚ) ≤ (n : ℚ) / d / (2:ℚ) ^ ((log2 n : Int) - (log2 d : Int)) := by
      rw [← hs, le_div_iff₀ hs0']; linarith
    rw [le_div_iff₀ hpe] at h1
    exact ⟨by linarith, hhigh⟩
  · rename_i h
    push_neg at h
    have h' : ((scale n d ((log2 n : Int) - (log2 d : Int))).1 : ℚ) <
        ((scale n d ((log2 n : Int) - (log2 d : Int))).2 : ℚ) := by exact_mod_cast h
    have h1 : (n : ℚ) / d / (2:ℚ) ^ ((log2 n : Int) - (log2 d : Int)) < 1 := by
      rw [← hs, div_lt_iff₀ hs0']; linarith
    rw [div_lt_iff₀ hpe] at h1
    refine ⟨hlow, ?_⟩
    have : (log2 n : Int) - (log2 d : Int) - 1 + 1 = (log2 n : Int) - (log2 d : Int) := by ring
    rw [this]; linarith

theorem abs_eq_natAbs_div (q : ℚ) : |q| = (q.num.natAbs : ℚ) / q.den := by
  have h : (q.num.natAbs : ℚ) = |(q.num : ℚ)| := by
    rw [Nat.cast_natAbs, Int.cast_abs]
  rw [h]
  conv_lhs => rw [← Rat.num_div_den q]
  rw [abs_div, Nat.abs_cast]

theorem tiny_pos : (0:ℚ) < tiny := by unfold tiny; positivity

theorem tiny_le : tiny ≤ 1 / 2 ^ 1000 := by
  unfold tiny
  apply one_div_le_one_div_of_le (by positivity)
  exact pow_le_pow_right₀ (by norm_num) (by norm_num)

theorem tiny_le_one : tiny ≤ 1 := by
  refine le_trans tiny_le ?_
  rw [div_le_iff₀ (by positivity)]
  have : (1:ℚ) ≤ 2 ^ 1000 := one_le_pow₀ (by norm_num)
  linarith

theorem unitRoundoff_pos : (0:ℚ) < unitRoundoff := by unfold unitRoundoff; positivity

/-- The rounding `Double.round` of a rational below `2 ^ 1000` in absolute value
is finite, within half a unit in the last place of the exact value (within
`2 ^ (-1075)` for a subnormal result), and of the same sign. -/
theorem round_spec (q : ℚ) (hq : |q| ≤ 2 ^ 1000) :
    ∃ r : ℚ, Double.round q = Double.fin r ∧ |r - q| ≤ (|q| + tiny) * unitRoundoff ∧
      (0 ≤ q → 0 ≤ r) ∧ (q ≤ 0 → r ≤ 0) := by
  by_cases hq0 : q = 0
  · subst hq0
    refine ⟨0, by simp [Double.round], ?_, fun _ => le_rfl, fun _ => le_rfl⟩
    have := tiny_pos
    have := unitRoundoff_pos
    simp only [sub_self, abs_zero, zero_add]
    exact le_of_lt (mul_pos tiny_pos unitRoundoff_pos)
  have hn : 0 < q.num.natAbs := Int.natAbs_pos.mpr (Rat.num_ne_zero.mpr hq0)
  have hd : 0 < q.den := q.den_pos
  have habs : |q| = (q.num.natAbs : ℚ) / q.den := abs_eq_natAbs_div q
  obtain ⟨he1, -⟩ := ilog2_spec q.num.natAbs q.den hn hd
  rw [← habs] at he1
  obtain ⟨e, he⟩ : ∃ e, e = ilog2 q.num.natAbs q.den := ⟨_, rfl⟩
  rw [← he] at he1
  obtain ⟨hs0, hs⟩ := scale_spec q.num.natAbs q.den hd (max e (-1022) - 52)
  rw [← habs] at hs
  have hm := roundNearestEven_spec (scale q.num.natAbs q.den (max e (-1022) - 52)).1
    (scale q.num.natAbs q.den (max e (-1022) - 52)).2 hs0
  rw [hs] at hm
  obtain ⟨m, hmm⟩ : ∃ m, m = roundNearestEven (scale q.num.natAbs q.den (max e (-1022) - 52)).1
    (scale q.num.natAbs q.den (max e (-1022) - 52)).2 := ⟨_, rfl⟩
  rw [← hmm] at hm
  have two : (2:ℚ) ≠ 0 := by norm_num
  have hA := abs_nonneg q
  have hE : (2:ℚ) ^ (max e (-1022) - 52) ≤ (|q| + tiny) / 2 ^ 52 := by
    have h1 : (2:ℚ) ^ (max e (-1022) - 52) = (2:ℚ) ^ (max e (-1022)) / 2 ^ 52 := by
      rw [zpow_sub₀ two]; norm_num
    rw [h1]
    apply div_le_div_of_nonneg_right _ (by positivity)
    rcases le_total e (-1022) with h | h
    · rw [max_eq_right h]
      have : (2:ℚ) ^ (-1022 : Int) = tiny := by
        unfold tiny
        rw [zpow_neg, zpow_ofNat, one_div]
      rw [this]
      linarith
    · rw [max_eq_left h]
      have := tiny_pos
      linarith
  have hEpos : (0:ℚ) < (2:ℚ) ^ (max e (-1022) - 52) := by positivity
  -- the magnitude
  have hr0 : |(m : ℚ) * (2:ℚ) ^ (max e (-1022) - 52) - (|q|)| ≤ (|q| + tiny) * unitRoundoff := by
    have e1 : (m : ℚ) * (2:ℚ) ^ (max e (-1022) - 52) - |q| =
        ((m : ℚ) - |q| / (2:ℚ) ^ (max e (-1022) - 52)) * (2:ℚ) ^ (max e (-1022) - 52) := by
      field_simp
    rw [e1, abs_mul, abs_of_pos hEpos]
    calc |(m : ℚ) - |q| / (2:ℚ) ^ (max e (-1022) - 52)| * (2:ℚ) ^ (max e (-1022) - 52)
        ≤ 1 / 2 * (2:ℚ) ^ (max e (-1022) - 52) :=
          mul_le_mul_of_nonneg_right hm (le_of_lt hEpos)
      _ ≤ 1 / 2 * ((|q| + tiny) / 2 ^ 52) :=
          mul_le_mul_of_nonneg_left hE (by norm_num)
      _ = (|q| + tiny) * unitRoundoff := by
          have : unitRoundoff = 1 / 2 * (1 / 2 ^ 52) := by unfold unitRoundoff; norm_num
          rw [this]; ring
  have hr0nn : (0:ℚ) ≤ (m : ℚ) * (2:ℚ) ^ (max e (-1022) - 52) :=
    mul_nonneg (Nat.cast_nonneg m) (le_of_lt hEpos)
  have hno : ¬ (pow2 1024 ≤ (m : ℚ) * (2:ℚ) ^ (max e (-1022) - 52)) := by
    rw [pow2_eq_zpow]
    have h1 := (abs_le.mp hr0).2
    have h2 : (2:ℚ) ^ (1024 : Int) = 2 ^ 1000 * 2 ^ 24 := by
      have h24 : (1024 : Int) = 1000 + 24 := by norm_num
      rw [h24, zpow_add₀ two, zpow_ofNat, zpow_ofNat]
    rw [h2]
    have h3 : (|q| + tiny) * unitRoundoff ≤ |q| + 1 := by
      have h4 : (|q| + tiny) * unitRoundoff ≤ (|q| + tiny) * 1 := by
        apply mul_le_mul_of_nonneg_left _ (by linarith [tiny_pos])
        unfold unitRoundoff
        rw [div_le_iff₀ (by positivity)]; norm_num
      linarith [tiny_le_one]
    have hX : (1:ℚ) ≤ 2 ^ 1000 := one_le_pow₀ (by norm_num)
    generalize (2:ℚ) ^ 1000 = X at hq hX
    intro hc
    norm_num at hc
    linarith
  refine ⟨if q < 0 then -((m : ℚ) * (2:ℚ) ^ (max e (-1022) - 52))
      else (m : ℚ) * (2:ℚ) ^ (max e (-1022) - 52), ?_, ?_, ?_, ?_⟩
  · unfold Double.round
    simp only [if_neg hq0]
    rw [← he, ← hmm, pow2_eq_zpow (max e (-1022) - 52), if_neg hno]
  · split
    · rename_i hneg
      rw [abs_of_neg hneg] at hr0 ⊢
      rw [abs_le] at hr0 ⊢
      constructor <;> linarith [hr0.1, hr0.2]
    · rename_i hpos
      push_neg at hpos
      rw [abs_of_nonneg hpos] at hr0 ⊢
      exact hr0
  · intro h
    rw [if_neg (not_lt.mpr h)]
    exact hr0nn
  · intro h
    have : q < 0 := lt_of_le_of_ne h hq0
    rw [if_pos this]
    linarith

theorem isqrtAux_spec (n : Nat) : ∀ k r : Nat, r * r ≤ n → n < (r + 2 ^ k) * (r + 2 ^ k) →
    isqrtAux n k r * isqrtAux n k r ≤ n ∧
      n < (isqrtAux n k r + 1) * (isqrtAux n k r + 1) := by
  intro k
  induction k with
  | zero =>
    intro r h1 h2
    simpa [isqrtAux] using ⟨h1, h2⟩
  | succ k ih =>
    intro r h1 h2
    unfold isqrtAux
    split
    · rename_i hc
      apply ih (r + 2 ^ k) hc
      have : r + 2 ^ k + 2 ^ k = r + 2 ^ (k + 1) := by rw [pow_succ]; ring
      rw [this]; exact h2
    · rename_i hc
      push_neg at hc
      exact ih r h1 hc

/-- The integer square root: `isqrt n` is the largest `r` with `r * r ≤ n`. -/
theorem isqrt_spec (n : Nat) :
    isqrt n * isqrt n ≤ n ∧ n < (isqrt n + 1) * (isqrt n + 1) := by
  unfold isqrt
  apply isqrtAux_spec n _ 0 (Nat.zero_le _)
  rw [Nat.zero_add, ← pow_add]
  rcases Nat.eq_zero_or_pos n with h | h
  · subst h; positivity
  · have h2 := (log2_spec n h).2
    refine lt_of_lt_of_le h2 (Nat.pow_le_pow_right (by norm_num) ?_)
    omega

theorem sqrtDigit_spec (N D f : Nat) (hD : 0 < D) (hf1 : f * f ≤ N / D)
    (hf2 : N / D < (f + 1) * (f + 1)) (m : Nat)
    (hm : m = (if 4 * N < (2 * f + 1) ^ 2 * D then f
        else if (2 * f + 1) ^ 2 * D < 4 * N then f + 1
        else if f % 2 = 0 then f else f + 1)) :
    (f : ℚ) ≤ m ∧ |(m : ℚ) * m - (N : ℚ) / D| ≤ m + 1 / 4 := by
  have hD' : (0:ℚ) < D := by exact_mod_cast hD
  have hF1 : D * (N / D) ≤ N := Nat.mul_div_le N D
  have hF2 : N < D * (N / D + 1) := Nat.lt_mul_div_succ N hD
  have hF1' : ((N / D : Nat) : ℚ) ≤ (N : ℚ) / D := by
    rw [le_div_iff₀ hD']
    have : ((D * (N / D) : Nat) : ℚ) ≤ N := by exact_mod_cast hF1
    push_cast at this; linarith
  have hF2' : (N : ℚ) / D < ((N / D : Nat) : ℚ) + 1 := by
    rw [div_lt_iff₀ hD']
    have : (N : ℚ) < ((D * (N / D + 1) : Nat) : ℚ) := by exact_mod_cast hF2
    push_cast at this; linarith
  have hf1' : (f : ℚ) * f ≤ ((N / D : Nat) : ℚ) := by exact_mod_cast hf1
  have hf2' : ((N / D : Nat) : ℚ) + 1 ≤ ((f : ℚ) + 1) * (f + 1) := by
    have : N / D + 1 ≤ (f + 1) * (f + 1) := hf2
    exact_mod_cast this
  have h0 : (0:ℚ) ≤ f := Nat.cast_nonneg f
  have ex : ((f : ℚ) + 1) * (f + 1) = f * f + 2 * f + 1 := by ring
  have eq4 : ((f : ℚ) * f + f + 1 / 4) * D = (2 * f + 1) ^ 2 * D / 4 := by ring
  by_cases h1 : 4 * N < (2 * f + 1) ^ 2 * D
  · rw [if_pos h1] at hm
    rw [hm]
    have h1' : 4 * (N : ℚ) < (2 * f + 1) ^ 2 * D := by exact_mod_cast h1
    have h2 : (N : ℚ) / D < (f : ℚ) * f + f + 1 / 4 := by
      rw [div_lt_iff₀ hD', eq4]; linarith
    refine ⟨le_rfl, ?_⟩
    rw [abs_le]; constructor <;> linarith
  · rw [if_neg h1] at hm
    by_cases h2 : (2 * f + 1) ^ 2 * D < 4 * N
    · rw [if_pos h2] at hm
      rw [hm]
      have h2' : (2 * (f : ℚ) + 1) ^ 2 * D < 4 * N := by exact_mod_cast h2
      have h3 : (f : ℚ) * f + f + 1 / 4 < (N : ℚ) / D := by
        rw [lt_div_iff₀ hD', eq4]; linarith
      rw [Nat.cast_add, Nat.cast_one]
      refine ⟨by linarith, ?_⟩
      rw [abs_le]; constructor <;> linarith
    · rw [if_neg h2] at hm
      have h3 : 4 * N = (2 * f + 1) ^ 2 * D := le_antisymm (not_lt.mp h2) (not_lt.mp h1)
      have h3' : 4 * (N : ℚ) = (2 * f + 1) ^ 2 * D := by exact_mod_cast h3
      have h4 : (N : ℚ) / D = (f : ℚ) * f + f + 1 / 4 := by
        rw [div_eq_iff (ne_of_gt hD'), eq4]; linarith
      by_cases h5 : f % 2 = 0
      · rw [if_pos h5] at hm
        rw [hm]
        refine ⟨le_rfl, ?_⟩
        rw [abs_le]; constructor <;> linarith
      · rw [if_neg h5] at hm
        rw [hm]
        rw [Nat.cast_add, Nat.cast_one]
        refine ⟨by linarith, ?_⟩
        rw [abs_le]; constructor <;> linarith

/-- The rounded square root of a positive rational is positive and its square
is within `2 ^ (-51)` of the argument, relative to that square. -/
theorem roundSqrt_spec (q : ℚ) (hq : 0 < q) :
    0 < roundSqrt q ∧
      |roundSqrt q * roundSqrt q - q| ≤ roundSqrt q * roundSqrt q / 2 ^ 51 := by
  have hq0 : q ≠ 0 := ne_of_gt hq
  have hn : 0 < q.num.natAbs := Int.natAbs_pos.mpr (Rat.num_ne_zero.mpr hq0)
  have hd : 0 < q.den := q.den_pos
  have habs : q = (q.num.natAbs : ℚ) / q.den := by
    rw [← abs_eq_natAbs_div q, abs_of_pos hq]
  obtain ⟨he1, -⟩ := ilog2_spec q.num.natAbs q.den hn hd
  rw [← habs] at he1
  obtain ⟨e, he⟩ : ∃ e, e = ilog2 q.num.natAbs q.den := ⟨_, rfl⟩
  rw [← he] at he1
  have hh : 2 * (e / 2) ≤ e := by omega
  obtain ⟨hs0, hs⟩ := scale_spec q.num.natAbs q.den hd (2 * (e / 2 - 52))
  rw [← habs] at hs
  obtain ⟨N, hN⟩ : ∃ N, N = (scale q.num.natAbs q.den (2 * (e / 2 - 52))).1 := ⟨_, rfl⟩
  obtain ⟨D, hD⟩ : ∃ D, D = (scale q.num.natAbs q.den (2 * (e / 2 - 52))).2 := ⟨_, rfl⟩
  rw [← hN, ← hD] at hs
  rw [← hD] at hs0
  have hD' : (0:ℚ) < D := by exact_mod_cast hs0
  have two : (2:ℚ) ≠ 0 := by norm_num
  have hP : (0:ℚ) < (2:ℚ) ^ (2 * (e / 2 - 52)) := by positivity
  obtain ⟨f, hf⟩ : ∃ f, f = isqrt (N / D) := ⟨_, rfl⟩
  obtain ⟨hf1, hf2⟩ := isqrt_spec (N / D)
  rw [← hf] at hf1 hf2
  obtain ⟨m, hm⟩ : ∃ m : Nat, m =
      (if 4 * N < (2 * f + 1) ^ 2 * D then f
        else if (2 * f + 1) ^ 2 * D < 4 * N then f + 1
        else if f % 2 = 0 then f else f + 1) := ⟨_, rfl⟩
  have hr : roundSqrt q = (m : ℚ) * (2:ℚ) ^ (e / 2 - 52) := by
    unfold roundSqrt
    simp only
    rw [← he, ← hN, ← hD, ← hf, ← hm, pow2_eq_zpow]
  obtain ⟨hfm, hkey⟩ := sqrtDigit_spec N D f hs0 hf1 hf2 m hm
  clear hm hN hD he habs
  -- the scaled argument is at least 2 ^ 104
  have hbig : (2:ℚ) ^ 104 ≤ (N : ℚ) / D := by
    rw [hs, le_div_iff₀ hP]
    have h1 : (2:ℚ) ^ 104 * (2:ℚ) ^ (2 * (e / 2 - 52)) = (2:ℚ) ^ (2 * (e / 2)) := by
      rw [← zpow_natCast, ← zpow_add₀ two]; congr 1; push_cast; ring
    rw [h1]
    exact le_trans (zpow_le_zpow_right₀ (by norm_num) hh) he1
  -- the root has 53 digits
  have hfbig : (2:ℚ) ^ 52 ≤ f := by
    by_contra hc
    push_neg at hc
    have h0 : (0:ℚ) ≤ f := Nat.cast_nonneg f
    have h1 : (f : ℚ) + 1 ≤ 2 ^ 52 := by
      have : f < 2 ^ 52 := by exact_mod_cast hc
      have : f + 1 ≤ 2 ^ 52 := this
      exact_mod_cast this
    have h2 : ((f : ℚ) + 1) * (f + 1) ≤ 2 ^ 52 * 2 ^ 52 :=
      mul_le_mul h1 h1 (by linarith) (by positivity)
    have h3 : (2:ℚ) ^ 52 * 2 ^ 52 = 2 ^ 104 := by rw [← pow_add]
    have hF2 : N < D * (N / D + 1) := Nat.lt_mul_div_succ N hs0
    have hF2' : (N : ℚ) / D < ((N / D : Nat) : ℚ) + 1 := by
      rw [div_lt_iff₀ hD']
      have : (N : ℚ) < ((D * (N / D + 1) : Nat) : ℚ) := by exact_mod_cast hF2
      push_cast at this; linarith
    have hf2' : ((N / D : Nat) : ℚ) + 1 ≤ ((f : ℚ) + 1) * (f + 1) := by
      have : N / D + 1 ≤ (f + 1) * (f + 1) := hf2
      exact_mod_cast this
    linarith
  have hS : (N : ℚ) / D * (2:ℚ) ^ (2 * (e / 2 - 52)) = q := by
    rw [hs]; field_simp
  have hsq : (2:ℚ) ^ (e / 2 - 52) * (2:ℚ) ^ (e / 2 - 52) = (2:ℚ) ^ (2 * (e / 2 - 52)) := by
    rw [← zpow_add₀ two]; congr 1; ring
  have hmbig : (2:ℚ) ^ 52 ≤ m := le_trans hfbig hfm
  have hmpos : (0:ℚ) < m := lt_of_lt_of_le (by positivity) hmbig
  have hP2 : (0:ℚ) < (2:ℚ) ^ (e / 2 - 52) := by positivity
  rw [hr]
  refine ⟨mul_pos hmpos hP2, ?_⟩
  have e1 : (m : ℚ) * (2:ℚ) ^ (e / 2 - 52) * ((m : ℚ) * (2:ℚ) ^ (e / 2 - 52)) - q =
      ((m : ℚ) * m - (N : ℚ) / D) * (2:ℚ) ^ (2 * (e / 2 - 52)) := by
    rw [← hS, ← hsq]; ring
  have e2 : (m : ℚ) * (2:ℚ) ^ (e / 2 - 52) * ((m : ℚ) * (2:ℚ) ^ (e / 2 - 52)) / 2 ^ 51 =
      ((m : ℚ) * m / 2 ^ 51) * (2:ℚ) ^ (2 * (e / 2 - 52)) := by
    rw [← hsq]; ring
  rw [e1, e2, abs_mul, abs_of_pos hP]
  apply mul_le_mul_of_nonneg_right _ (le_of_lt hP)
  refine le_trans hkey ?_
  rw [le_div_iff₀ (by positivity)]
  have h52 : (2:ℚ) ^ 52 = 2 * 2 ^ 51 := by norm_num
  have h1 : (1:ℚ) ≤ m := le_trans (one_le_pow₀ (by norm_num)) hmbig
  have h51 : (0:ℚ) < 2 ^ 51 := by positivity
  rw [h52] at hmbig
  nlinarith

theorem rounds_err {q r B : ℚ} (h : Rounds q r) (hq : |q| ≤ B) :
    |r - q| ≤ (B + tiny) * unitRoundoff := by
  refine le_trans h ?_
  exact mul_le_mul_of_nonneg_right (by linarith) (le_of_lt unitRoundoff_pos)

theorem abs_le_of_near {a b e B : ℚ} (h : |a - b| ≤ e) (hb : |b| ≤ B) : |a| ≤ B + e := by
  have := abs_sub_abs_le_abs_sub a b
  linarith

theorem abs_mul_le_mul {x y A B : ℚ} (hx : |x| ≤ A) (hy : |y| ≤ B) : |x * y| ≤ A * B := by
  rw [abs_mul]
  exact mul_le_mul hx hy (abs_nonneg y) (le_trans (abs_nonneg x) hx)

theorem rounds_div {q r B : ℚ} (h : Rounds q r) (hq : |q| ≤ B) :
    |r - q| ≤ (B + tiny) / 2 ^ 53 := by
  have := rounds_err h hq
  unfold unitRoundoff at this
  rw [mul_one_div] at this
  exact this

theorem fin_add (x y : ℚ) : Double.fin x + Double.fin y = Double.round (x + y) := rfl

theorem fin_sub (x y : ℚ) : Double.fin x - Double.fin y = Double.round (x - y) := by
  show Double.round (x + -y) = _
  rw [sub_eq_add_neg]

theorem fin_mul (x y : ℚ) : Double.fin x * Double.fin y = Double.round (x * y) := rfl

theorem fin_div (x y : ℚ) (hy : y ≠ 0) : Double.fin x / Double.fin y = Double.round (x / y) := by
  show Double.div (Double.fin x) (Double.fin y) = _
  simp only [Double.div, if_neg hy]

theorem lt_fin (x y : ℚ) : Double.lt (Double.fin x) (Double.fin y) = decide (x < y) := rfl

theorem ofInt_diameter : Double.ofInt (BALL_RADIUS * 2) = Double.fin 20 := by decide!

theorem round_half : Double.round 0.5 = Double.fin (1 / 2) := by decide!

theorem round_threshold :
    Double.round 0.0001 = Double.fin (7378697629483821 / 73786976294838206464) := by decide!

/-- A rounding whose exact value is below `2 ^ 100` in absolute value yields a finite double. -/
theorem round_fin (q : ℚ) (hq : |q| ≤ 2 ^ 100) :
    ∃ r : ℚ, Double.round q = Double.fin r ∧ Rounds q r ∧ (0 ≤ q → 0 ≤ r) := by
  have h : |q| ≤ 2 ^ 1000 :=
    le_trans hq (pow_le_pow_right₀ (by norm_num) (by norm_num))
  obtain ⟨r, h1, h2, h3, -⟩ := round_spec q h
  exact ⟨r, h1, h2, h3⟩

theorem rounds_mag {q r B : ℚ} (h : Rounds q r) (hq : |q| ≤ B) : |r| ≤ 2 * B + 1 := by
  have e := rounds_div h hq
  have := abs_le_of_near e hq
  have := tiny_le_one
  have h0 := abs_nonneg q
  linarith

theorem sqrt_fin (x d : ℚ) (h : Double.sqrt (Double.fin x) = Double.fin d) (hd : 0 < d) :
    0 < x ∧ |d * d - x| ≤ d * d / 2 ^ 51 := by
  unfold Double.sqrt at h
  simp only at h
  split at h
  · cases h
  · split at h
    · cases h; exact absurd hd (lt_irrefl _)
    · rename_i h1 h2
      have hx : 0 < x := lt_of_le_of_ne (not_lt.mp h1) (Ne.symm h2)
      cases h
      exact ⟨hx, (roundSqrt_spec x hx).2⟩

theorem round_fin_of_le {q B : ℚ} (hq : |q| ≤ B) (hB : B ≤ 2 ^ 100) :
    ∃ r : ℚ, Double.round q = Double.fin r ∧ Rounds q r ∧ |r| ≤ 2 * B + 1 ∧ (0 ≤ q → 0 ≤ r) := by
  obtain ⟨r, h1, h2, h3⟩ := round_fin q (le_trans hq hB)
  exact ⟨r, h1, h2, rounds_mag h2 hq, h3⟩

/-! ## Error analysis of the overlap branch -/

theorem tiny_le_pow40 : tiny ≤ 1 / 2 ^ 40 := by
  refine le_trans tiny_le ?_
  apply one_div_le_one_div_of_le (by positivity)
  exact pow_le_pow_right₀ (by norm_num) (by norm_num)

theorem tiny_le_sq (d : ℚ) (hlow : 1 / 2 ^ 400 ≤ d) : tiny ≤ d * d / 2 ^ 20 := by
  have h0 : (0:ℚ) < 1 / 2 ^ 400 := by positivity
  have h1 : (1 / 2 ^ 400 : ℚ) * (1 / 2 ^ 400) ≤ d * d :=
    mul_le_mul hlow hlow (le_of_lt h0) (le_trans (le_of_lt h0) hlow)
  have h2 : (1 / 2 ^ 400 : ℚ) * (1 / 2 ^ 400) / 2 ^ 20 = 1 / 2 ^ 820 := by
    rw [div_mul_div_comm, one_mul, div_div, ← pow_add, ← pow_add]
  have h3 : tiny ≤ 1 / 2 ^ 820 := by
    unfold tiny
    apply one_div_le_one_div_of_le (by positivity)
    exact pow_le_pow_right₀ (by norm_num) (by norm_num)
  have h4 : (1 / 2 ^ 400 : ℚ) * (1 / 2 ^ 400) / 2 ^ 20 ≤ d * d / 2 ^ 20 :=
    div_le_div_of_nonneg_right h1 (by positivity)
  linarith

set_option maxHeartbeats 1000000 in
/-- The quotient of `ab` by the computed distance, before it is rounded: each
component is at most `1 + 5 u` in absolute value and the sum of the two
squares is within `9 u` of 1. -/
theorem normal_exact (X Y sx sy s d : ℚ)
    (hsx : Rounds (X * X) sx) (hsy : Rounds (Y * Y) sy) (hs : Rounds (sx + sy) s)
    (hd0 : 0 < d) (hd : |d * d - s| ≤ d * d / 2 ^ 51) (hlow : 1 / 2 ^ 400 ≤ d) :
    |X / d| ≤ 1 + 5 / 2 ^ 53 ∧ |Y / d| ≤ 1 + 5 / 2 ^ 53 ∧
      X / d * (X / d) + Y / d * (Y / d) ≤ 1 + 9 / 2 ^ 53 ∧
      1 - 8 / 2 ^ 53 ≤ X / d * (X / d) + Y / d * (Y / d) := by
  have hT0 := tiny_pos
  have hT := tiny_le_sq d hlow
  have hX2 : 0 ≤ X * X := mul_self_nonneg X
  have hY2 : 0 ≤ Y * Y := mul_self_nonneg Y
  have hDD : 0 < d * d := mul_pos hd0 hd0
  -- the sum of squares
  have e1 := rounds_div hsx (le_of_eq (abs_of_nonneg hX2))
  have e2 := rounds_div hsy (le_of_eq (abs_of_nonneg hY2))
  have m12 : |sx + sy| ≤ X * X + Y * Y + (X * X + Y * Y + 2 * tiny) / 2 ^ 53 := by
    rw [abs_le] at e1 e2 ⊢
    constructor <;> linarith [e1.1, e1.2, e2.1, e2.2]
  have e3 := rounds_div hs m12
  have es : |s - (X * X + Y * Y)| ≤ 3 * (X * X + Y * Y) / 2 ^ 53 + 4 * tiny / 2 ^ 53 := by
    rw [abs_le] at e1 e2 e3 ⊢
    constructor <;> linarith [e1.1, e1.2, e2.1, e2.2, e3.1, e3.2]
  -- against the square of the computed distance
  have hσ1 : X * X + Y * Y ≤ (1 + 9 / 2 ^ 53) * (d * d) := by
    rw [abs_le] at es hd
    linarith [es.1, es.2, hd.1, hd.2]
  have hσ2 : (1 - 8 / 2 ^ 53) * (d * d) ≤ X * X + Y * Y := by
    rw [abs_le] at es hd
    linarith [es.1, es.2, hd.1, hd.2]
  obtain ⟨a, ha⟩ : ∃ a, a = X / d := ⟨_, rfl⟩
  obtain ⟨b, hb⟩ : ∃ b, b = Y / d := ⟨_, rfl⟩
  have hXa : X = a * d := by rw [ha]; field_simp
  have hYb : Y = b * d := by rw [hb]; field_simp
  rw [← ha, ← hb]
  have hq1 : a * a + b * b ≤ 1 + 9 / 2 ^ 53 := by
    have : (a * a + b * b) * (d * d) ≤ (1 + 9 / 2 ^ 53) * (d * d) := by
      have : (a * a + b * b) * (d * d) = X * X + Y * Y := by rw [hXa, hYb]; ring
      linarith
    exact le_of_mul_le_mul_right this hDD
  have hq2 : 1 - 8 / 2 ^ 53 ≤ a * a + b * b := by
    have : (1 - 8 / 2 ^ 53) * (d * d) ≤ (a * a + b * b) * (d * d) := by
      have : (a * a + b * b) * (d * d) = X * X + Y * Y := by rw [hXa, hYb]; ring
      linarith
    exact le_of_mul_le_mul_right this hDD
  refine ⟨?_, ?_, hq1, hq2⟩
  · apply abs_le.mpr
    apply abs_le_of_sq_le_sq' _ (by norm_num)
    nlinarith [mul_self_nonneg b]
  · apply abs_le.mpr
    apply abs_le_of_sq_le_sq' _ (by norm_num)
    nlinarith [mul_self_nonneg a]

set_option maxHeartbeats 1000000 in
/-- The computed normal of the overlap branch, one rounding after the other:
its squared length is within `20 u` of 1, and `ab` is within `2 u d` of `n d`. -/
theorem normal_chain (X Y sx sy s d nx ny : ℚ)
    (hsx : Rounds (X * X) sx) (hsy : Rounds (Y * Y) sy) (hs : Rounds (sx + sy) s)
    (hd0 : 0 < d) (hd : |d * d - s| ≤ d * d / 2 ^ 51) (hlow : 1 / 2 ^ 400 ≤ d)
    (hnx : Rounds (X / d) nx) (hny : Rounds (Y / d) ny) :
    |nx * nx + ny * ny - 1| ≤ 20 / 2 ^ 53 ∧ |nx| ≤ 1 + 7 / 2 ^ 53 ∧ |ny| ≤ 1 + 7 / 2 ^ 53 ∧
      |X - nx * d| ≤ 2 * d / 2 ^ 53 ∧ |Y - ny * d| ≤ 2 * d / 2 ^ 53 := by
  obtain ⟨ma, mb, hq1, hq2⟩ := normal_exact X Y sx sy s d hsx hsy hs hd0 hd hlow
  have hT0 := tiny_pos
  have hT := tiny_le_pow40
  obtain ⟨a, ha⟩ : ∃ a, a = X / d := ⟨_, rfl⟩
  obtain ⟨b, hb⟩ : ∃ b, b = Y / d := ⟨_, rfl⟩
  have hXa : X = a * d := by rw [ha]; field_simp
  have hYb : Y = b * d := by rw [hb]; field_simp
  rw [← ha] at hnx ma hq1 hq2
  rw [← hb] at hny mb hq1 hq2
  have ea := rounds_div hnx ma
  have eb := rounds_div hny mb
  have ea' : |nx - a| ≤ (9 / 8) / 2 ^ 53 := by linarith
  have eb' : |ny - b| ≤ (9 / 8) / 2 ^ 53 := by linarith
  have pa := abs_le.mp (abs_mul_le_mul ma ea')
  have pb := abs_le.mp (abs_mul_le_mul mb eb')
  have sa := abs_le.mp (abs_mul_le_mul ea' ea')
  have sb := abs_le.mp (abs_mul_le_mul eb' eb')
  have hid : nx * nx + ny * ny - 1 =
      (a * a + b * b - 1) + 2 * (a * (nx - a)) + 2 * (b * (ny - b)) +
        (nx - a) * (nx - a) + (ny - b) * (ny - b) := by ring
  refine ⟨?_, ?_, ?_, ?_, ?_⟩
  · rw [hid, abs_le]
    constructor <;> linarith [pa.1, pa.2, pb.1, pb.2, sa.1, sa.2, sb.1, sb.2]
  · have := abs_le_of_near ea' ma
    linarith
  · have := abs_le_of_near eb' mb
    linarith
  · have : X - nx * d = -((nx - a) * d) := by rw [hXa]; ring
    rw [this, abs_neg]
    have := abs_mul_le_mul ea' (le_of_eq (abs_of_pos hd0))
    linarith
  · have : Y - ny * d = -((ny - b) * d) := by rw [hYb]; ring
    rw [this, abs_neg]
    have := abs_mul_le_mul eb' (le_of_eq (abs_of_pos hd0))
    linarith

/-- The velocity update of the overlap branch, one rounding after the other:
each new component is within `17 u S` of the exact update with the computed
normal, `S` the sum of the absolute old components. -/
theorem velocity_chain (avx avy bvx bvy nx ny rx ry p1 p2 p vx vy a1x a1y b1x b1y S : ℚ)
    (hS : S = |avx| + |avy| + |bvx| + |bvy|) (hT : tiny ≤ S / 2 ^ 20)
    (hnx : |nx| ≤ 9 / 8) (hny : |ny| ≤ 9 / 8)
    (hrx : Rounds (avx - bvx) rx) (hry : Rounds (avy - bvy) ry)
    (hp1 : Rounds (rx * nx) p1) (hp2 : Rounds (ry * ny) p2) (hp : Rounds (p1 + p2) p)
    (hvx : Rounds (nx * p) vx) (hvy : Rounds (ny * p) vy)
    (ha1x : Rounds (avx - vx) a1x) (ha1y : Rounds (avy - vy) a1y)
    (hb1x : Rounds (bvx + vx) b1x) (hb1y : Rounds (bvy + vy) b1y) :
    |a1x - (avx - nx * ((avx - bvx) * nx + (avy - bvy) * ny))| ≤ (17 * S / 2 ^ 53) ∧
    |a1y - (avy - ny * ((avx - bvx) * nx + (avy - bvy) * ny))| ≤ (17 * S / 2 ^ 53) ∧
    |b1x - (bvx + nx * ((avx - bvx) * nx + (avy - bvy) * ny))| ≤ (17 * S / 2 ^ 53) ∧
    |b1y - (bvy + ny * ((avx - bvx) * nx + (avy - bvy) * ny))| ≤ (17 * S / 2 ^ 53) := by
  have hS0 : 0 ≤ S := by rw [hS]; positivity
  have h1 := abs_nonneg avx
  have h2 := abs_nonneg avy
  have h3 := abs_nonneg bvx
  have h4 := abs_nonneg bvy
  have hT0 := tiny_pos
  -- the relative velocity
  have qrx : |avx - bvx| ≤ S := by
    have := abs_sub avx bvx; linarith
  have qry : |avy - bvy| ≤ S := by
    have := abs_sub avy bvy; linarith
  have erx : |rx - (avx - bvx)| ≤ (2 * S / 2 ^ 53) := by
    have := rounds_div hrx qrx
    linarith
  have ery : |ry - (avy - bvy)| ≤ (2 * S / 2 ^ 53) := by
    have := rounds_div hry qry
    linarith
  have mrx : |rx| ≤ 17 / 16 * S := by
    have := abs_le_of_near erx qrx
    linarith
  have mry : |ry| ≤ 17 / 16 * S := by
    have := abs_le_of_near ery qry
    linarith
  -- the two products
  have qp1 : |rx * nx| ≤ 5 / 4 * S := by
    have := abs_mul_le_mul mrx hnx; linarith
  have qp2 : |ry * ny| ≤ 5 / 4 * S := by
    have := abs_mul_le_mul mry hny; linarith
  have ep1 : |p1 - (avx - bvx) * nx| ≤ (17 / 4 * S / 2 ^ 53) := by
    have e1 := rounds_div hp1 qp1
    have e2 : |rx * nx - (avx - bvx) * nx| ≤ (2 * S / 2 ^ 53) * (9 / 8) := by
      rw [← sub_mul]; exact abs_mul_le_mul erx hnx
    have := abs_sub_le p1 (rx * nx) ((avx - bvx) * nx)
    linarith
  have ep2 : |p2 - (avy - bvy) * ny| ≤ (17 / 4 * S / 2 ^ 53) := by
    have e1 := rounds_div hp2 qp2
    have e2 : |ry * ny - (avy - bvy) * ny| ≤ (2 * S / 2 ^ 53) * (9 / 8) := by
      rw [← sub_mul]; exact abs_mul_le_mul ery hny
    have := abs_sub_le p2 (ry * ny) ((avy - bvy) * ny)
    linarith
  -- the projection
  have mP : |(avx - bvx) * nx + (avy - bvy) * ny| ≤ 9 / 8 * S := by
    have a1 := abs_mul_le_mul (le_refl |avx - bvx|) hnx
    have a2 := abs_mul_le_mul (le_refl |avy - bvy|) hny
    have := abs_add ((avx - bvx) * nx) ((avy - bvy) * ny)
    have := abs_sub avx bvx
    have := abs_sub avy bvy
    linarith
  have eps : |p1 + p2 - ((avx - bvx) * nx + (avy - bvy) * ny)| ≤ (17 / 2 * S / 2 ^ 53) := by
    have e : p1 + p2 - ((avx - bvx) * nx + (avy - bvy) * ny) =
        (p1 - (avx - bvx) * nx) + (p2 - (avy - bvy) * ny) := by ring
    rw [e]
    have := abs_add (p1 - (avx - bvx) * nx) (p2 - (avy - bvy) * ny)
    linarith
  have qp : |p1 + p2| ≤ 5 / 4 * S := by
    have := abs_le_of_near eps mP
    linarith
  have ep : |p - ((avx - bvx) * nx + (avy - bvy) * ny)| ≤ (21 / 2 * S / 2 ^ 53) := by
    have e1 := rounds_div hp qp
    have := abs_sub_le p (p1 + p2) ((avx - bvx) * nx + (avy - bvy) * ny)
    linarith
  have mp : |p| ≤ 5 / 4 * S := by
    have := abs_le_of_near ep mP
    linarith
  -- the exchanged vector
  have evx : |vx - nx * ((avx - bvx) * nx + (avy - bvy) * ny)| ≤ (14 * S / 2 ^ 53) := by
    have q : |nx * p| ≤ 9 / 8 * (5 / 4 * S) := abs_mul_le_mul hnx mp
    have e1 := rounds_div hvx q
    have e2 : |nx * p - nx * ((avx - bvx) * nx + (avy - bvy) * ny)| ≤
        9 / 8 * (21 / 2 * S / 2 ^ 53) := by
      rw [← mul_sub]; exact abs_mul_le_mul hnx ep
    have := abs_sub_le vx (nx * p) (nx * ((avx - bvx) * nx + (avy - bvy) * ny))
    linarith
  have evy : |vy - ny * ((avx - bvx) * nx + (avy - bvy) * ny)| ≤ (14 * S / 2 ^ 53) := by
    have q : |ny * p| ≤ 9 / 8 * (5 / 4 * S) := abs_mul_le_mul hny mp
    have e1 := rounds_div hvy q
    have e2 : |ny * p - ny * ((avx - bvx) * nx + (avy - bvy) * ny)| ≤
        9 / 8 * (21 / 2 * S / 2 ^ 53) := by
      rw [← mul_sub]; exact abs_mul_le_mul hny ep
    have := abs_sub_le vy (ny * p) (ny * ((avx - bvx) * nx + (avy - bvy) * ny))
    linarith
  have mVx : |nx * ((avx - bvx) * nx + (avy - bvy) * ny)| ≤ 9 / 8 * (9 / 8 * S) :=
    abs_mul_le_mul hnx mP
  have mVy : |ny * ((avx - bvx) * nx + (avy - bvy) * ny)| ≤ 9 / 8 * (9 / 8 * S) :=
    abs_mul_le_mul hny mP
  have mvx : |vx| ≤ 3 / 2 * S := by
    have := abs_le_of_near evx mVx
    linarith
  have mvy : |vy| ≤ 3 / 2 * S := by
    have := abs_le_of_near evy mVy
    linarith
  -- the four new components
  refine ⟨?_, ?_, ?_, ?_⟩
  · have q : |avx - vx| ≤ 5 / 2 * S := by
      have := abs_sub avx vx; linarith
    have e1 := rounds_div ha1x q
    have e2 : |avx - vx - (avx - nx * ((avx - bvx) * nx + (avy - bvy) * ny))| ≤
        (14 * S / 2 ^ 53) := by
      have e : avx - vx - (avx - nx * ((avx - bvx) * nx + (avy - bvy) * ny)) =
          -(vx - nx * ((avx - bvx) * nx + (avy - bvy) * ny)) := by ring
      rw [e, abs_neg]; exact evx
    have := abs_sub_le a1x (avx - vx) (avx - nx * ((avx - bvx) * nx + (avy - bvy) * ny))
    linarith
  · have q : |avy - vy| ≤ 5 / 2 * S := by
      have := abs_sub avy vy; linarith
    have e1 := rounds_div ha1y q
    have e2 : |avy - vy - (avy - ny * ((avx - bvx) * nx + (avy - bvy) * ny))| ≤
        (14 * S / 2 ^ 53) := by
      have e : avy - vy - (avy - ny * ((avx - bvx) * nx + (avy - bvy) * ny)) =
          -(vy - ny * ((avx - bvx) * nx + (avy - bvy) * ny)) := by ring
      rw [e, abs_neg]; exact evy
    have := abs_sub_le a1y (avy - vy) (avy - ny * ((avx - bvx) * nx + (avy - bvy) * ny))
    linarith
  · have q : |bvx + vx| ≤ 5 / 2 * S := by
      have := abs_add bvx vx; linarith
    have e1 := rounds_div hb1x q
    have e2 : |bvx + vx - (bvx + nx * ((avx - bvx) * nx + (avy - bvy) * ny))| ≤
        (14 * S / 2 ^ 53) := by
      have e : bvx + vx - (bvx + nx * ((avx - bvx) * nx + (avy - bvy) * ny)) =
          vx - nx * ((avx - bvx) * nx + (avy - bvy) * ny) := by ring
      rw [e]; exact evx
    have := abs_sub_le b1x (bvx + vx) (bvx + nx * ((avx - bvx) * nx + (avy - bvy) * ny))
    linarith
  · have q : |bvy + vy| ≤ 5 / 2 * S := by
      have := abs_add bvy vy; linarith
    have e1 := rounds_div hb1y q
    have e2 : |bvy + vy - (bvy + ny * ((avx - bvx) * nx + (avy - bvy) * ny))| ≤
        (14 * S / 2 ^ 53) := by
      have e : bvy + vy - (bvy + ny * ((avx - bvx) * nx + (avy - bvy) * ny)) =
          vy - ny * ((avx - bvx) * nx + (avy - bvy) * ny) := by ring
      rw [e]; exact evy
    have := abs_sub_le b1y (bvy + vy) (bvy + ny * ((avx - bvx) * nx + (avy - bvy) * ny))
    linarith

theorem sq_component_le {x y e B : ℚ} (h : |x - y| ≤ e) (hy : |y| ≤ B) :
    x * x ≤ y * y + 2 * (B * e) + e * e := by
  have p1 := abs_le.mp (abs_mul_le_mul hy h)
  have p2 := abs_le.mp (abs_mul_le_mul h h)
  have : x * x = y * y + 2 * (y * (x - y)) + (x - y) * (x - y) := by ring
  linarith [p1.1, p1.2, p2.1, p2.2]

theorem abs_sum_sq_le (a b c d : ℚ) :
    (|a| + |b| + |c| + |d|) * (|a| + |b| + |c| + |d|) ≤
      4 * (a * a + b * b + c * c + d * d) := by
  have ha := abs_mul_abs_self a
  have hb := abs_mul_abs_self b
  have hc := abs_mul_abs_self c
  have hd := abs_mul_abs_self d
  nlinarith [mul_self_nonneg (|a| - |b|), mul_self_nonneg (|a| - |c|),
    mul_self_nonneg (|a| - |d|), mul_self_nonneg (|b| - |c|), mul_self_nonneg (|b| - |d|),
    mul_self_nonneg (|c| - |d|)]

set_option maxHeartbeats 1000000 in
/-- The sum of squared speeds after the rounded velocity update, against the sum before. -/
theorem energy_chain (avx avy bvx bvy nx ny a1x a1y b1x b1y S : ℚ)
    (hS : S = |avx| + |avy| + |bvx| + |bvy|)
    (hnn : |nx * nx + ny * ny - 1| ≤ 20 / 2 ^ 53) (hnx : |nx| ≤ 9 / 8) (hny : |ny| ≤ 9 / 8)
    (h1 : |a1x - (avx - nx * ((avx - bvx) * nx + (avy - bvy) * ny))| ≤ 17 * S / 2 ^ 53)
    (h2 : |a1y - (avy - ny * ((avx - bvx) * nx + (avy - bvy) * ny))| ≤ 17 * S / 2 ^ 53)
    (h3 : |b1x - (bvx + nx * ((avx - bvx) * nx + (avy - bvy) * ny))| ≤ 17 * S / 2 ^ 53)
    (h4 : |b1y - (bvy + ny * ((avx - bvx) * nx + (avy - bvy) * ny))| ≤ 17 * S / 2 ^ 53) :
    a1x * a1x + a1y * a1y + b1x * b1x + b1y * b1y ≤
      (1 + 1 / 2 ^ 42) * (avx * avx + avy * avy + bvx * bvx + bvy * bvy) := by
  have hS0 : 0 ≤ S := by rw [hS]; positivity
  have g1 := abs_nonneg avx
  have g2 := abs_nonneg avy
  have g3 := abs_nonneg bvx
  have g4 := abs_nonneg bvy
  have hSS : S * S ≤ 4 * (avx * avx + avy * avy + bvx * bvx + bvy * bvy) := by
    rw [hS]; exact abs_sum_sq_le avx avy bvx bvy
  obtain ⟨P, hP⟩ : ∃ P, P = (avx - bvx) * nx + (avy - bvy) * ny := ⟨_, rfl⟩
  rw [← hP] at h1 h2 h3 h4
  have mP : |P| ≤ 9 / 8 * S := by
    rw [hP]
    have a1 := abs_mul_le_mul (le_refl |avx - bvx|) hnx
    have a2 := abs_mul_le_mul (le_refl |avy - bvy|) hny
    have := abs_add ((avx - bvx) * nx) ((avy - bvy) * ny)
    have := abs_sub avx bvx
    have := abs_sub avy bvy
    linarith
  have mPP := abs_le.mp (abs_mul_le_mul mP mP)
  have hPP0 : 0 ≤ P * P := mul_self_nonneg P
  have mVx : |nx * P| ≤ 9 / 8 * (9 / 8 * S) := abs_mul_le_mul hnx mP
  have mVy : |ny * P| ≤ 9 / 8 * (9 / 8 * S) := abs_mul_le_mul hny mP
  have m1 : |avx - nx * P| ≤ 5 / 2 * S := by
    have := abs_sub avx (nx * P); linarith
  have m2 : |avy - ny * P| ≤ 5 / 2 * S := by
    have := abs_sub avy (ny * P); linarith
  have m3 : |bvx + nx * P| ≤ 5 / 2 * S := by
    have := abs_add bvx (nx * P); linarith
  have m4 : |bvy + ny * P| ≤ 5 / 2 * S := by
    have := abs_add bvy (ny * P); linarith
  have s1 := sq_component_le h1 m1
  have s2 := sq_component_le h2 m2
  have s3 := sq_component_le h3 m3
  have s4 := sq_component_le h4 m4
  -- the exact update changes the sum by 2 P² (n·n - 1)
  have hid : (avx - nx * P) * (avx - nx * P) + (avy - ny * P) * (avy - ny * P) +
      (bvx + nx * P) * (bvx + nx * P) + (bvy + ny * P) * (bvy + ny * P) =
      avx * avx + avy * avy + bvx * bvx + bvy * bvy +
        2 * ((P * P) * (nx * nx + ny * ny - 1)) := by
    rw [hP]; ring
  have hθ := abs_le.mp (abs_mul_le_mul (abs_le.mpr ⟨by linarith [mPP.1], mPP.2⟩) hnn)
  linarith [hθ.1, hθ.2]

set_option maxHeartbeats 1000000 in
/-- The components of the new velocities along the computed normal, and along a
direction orthogonal to it, against those of the old velocities. -/
theorem exchange_chain (avx avy bvx bvy nx ny a1x a1y b1x b1y S : ℚ)
    (hS : S = |avx| + |avy| + |bvx| + |bvy|)
    (hnn : |nx * nx + ny * ny - 1| ≤ 20 / 2 ^ 53) (hnx : |nx| ≤ 9 / 8) (hny : |ny| ≤ 9 / 8)
    (h1 : |a1x - (avx - nx * ((avx - bvx) * nx + (avy - bvy) * ny))| ≤ 17 * S / 2 ^ 53)
    (h2 : |a1y - (avy - ny * ((avx - bvx) * nx + (avy - bvy) * ny))| ≤ 17 * S / 2 ^ 53)
    (h3 : |b1x - (bvx + nx * ((avx - bvx) * nx + (avy - bvy) * ny))| ≤ 17 * S / 2 ^ 53)
    (h4 : |b1y - (bvy + ny * ((avx - bvx) * nx + (avy - bvy) * ny))| ≤ 17 * S / 2 ^ 53) :
    |a1x * nx + a1y * ny - (bvx * nx + bvy * ny)| ≤ S / 2 ^ 47 ∧
    |b1x * nx + b1y * ny - (avx * nx + avy * ny)| ≤ S / 2 ^ 47 ∧
    ∀ tx ty : ℚ, tx * nx + ty * ny = 0 →
      |a1x * tx + a1y * ty - (avx * tx + avy * ty)| ≤ S / 2 ^ 48 * (|tx| + |ty|) ∧
      |b1x * tx + b1y * ty - (bvx * tx + bvy * ty)| ≤ S / 2 ^ 48 * (|tx| + |ty|) := by
  have hS0 : 0 ≤ S := by rw [hS]; positivity
  obtain ⟨P, hP⟩ : ∃ P, P = (avx - bvx) * nx + (avy - bvy) * ny := ⟨_, rfl⟩
  rw [← hP] at h1 h2 h3 h4
  have mP : |P| ≤ 9 / 8 * S := by
    rw [hP]
    have a1 := abs_mul_le_mul (le_refl |avx - bvx|) hnx
    have a2 := abs_mul_le_mul (le_refl |avy - bvy|) hny
    have := abs_add ((avx - bvx) * nx) ((avy - bvy) * ny)
    have := abs_sub avx bvx
    have := abs_sub avy bvy
    have g1 := abs_nonneg avx
    have g2 := abs_nonneg avy
    have g3 := abs_nonneg bvx
    have g4 := abs_nonneg bvy
    linarith
  have hθ := abs_le.mp (abs_mul_le_mul mP hnn)
  have k1 := abs_le.mp (abs_mul_le_mul h1 hnx)
  have k2 := abs_le.mp (abs_mul_le_mul h2 hny)
  have k3 := abs_le.mp (abs_mul_le_mul h3 hnx)
  have k4 := abs_le.mp (abs_mul_le_mul h4 hny)
  refine ⟨?_, ?_, ?_⟩
  · have hid : a1x * nx + a1y * ny - (bvx * nx + bvy * ny) =
        (a1x - (avx - nx * P)) * nx + (a1y - (avy - ny * P)) * ny
          - P * (nx * nx + ny * ny - 1) := by
      rw [hP]; ring
    rw [hid, abs_le]
    constructor <;> linarith [hθ.1, hθ.2, k1.1, k1.2, k2.1, k2.2]
  · have hid : b1x * nx + b1y * ny - (avx * nx + avy * ny) =
        (b1x - (bvx + nx * P)) * nx + (b1y - (bvy + ny * P)) * ny
          + P * (nx * nx + ny * ny - 1) := by
      rw [hP]; ring
    rw [hid, abs_le]
    constructor <;> linarith [hθ.1, hθ.2, k3.1, k3.2, k4.1, k4.2]
  · intro tx ty ht
    have gx := abs_nonneg tx
    have gy := abs_nonneg ty
    have j1 := abs_le.mp (abs_mul_le_mul h1 (le_refl |tx|))
    have j2 := abs_le.mp (abs_mul_le_mul h2 (le_refl |ty|))
    have j3 := abs_le.mp (abs_mul_le_mul h3 (le_refl |tx|))
    have j4 := abs_le.mp (abs_mul_le_mul h4 (le_refl |ty|))
    have hSx : 0 ≤ S * |tx| := mul_nonneg hS0 gx
    have hSy : 0 ≤ S * |ty| := mul_nonneg hS0 gy
    constructor
    · have hid : a1x * tx + a1y * ty - (avx * tx + avy * ty) =
          (a1x - (avx - nx * P)) * tx + (a1y - (avy - ny * P)) * ty
            - P * (tx * nx + ty * ny) := by ring
      rw [hid, ht, abs_le]
      constructor <;> linarith [j1.1, j1.2, j2.1, j2.2]
    · have hid : b1x * tx + b1y * ty - (bvx * tx + bvy * ty) =
          (b1x - (bvx + nx * P)) * tx + (b1y - (bvy + ny * P)) * ty
            + P * (tx * nx + ty * ny) := by ring
      rw [hid, ht, abs_le]
      constructor <;> linarith [j3.1, j3.2, j4.1, j4.2]

set_option maxHeartbeats 2000000 in
/-- One coordinate of the separation of the overlap branch, one rounding after
the other: the new difference of the two centres is within `4300 u` of
`20 n`. -/
theorem position_chain (ap bp X d n o m h a1 b1 : ℚ)
    (h1 : |ap| ≤ 1024) (h2 : |bp| ≤ 1024)
    (hX : Rounds (bp - ap) X) (hd0 : 0 < d) (hd20 : d < 20)
    (hn : |n| ≤ 9 / 8) (hXn : |X - n * d| ≤ 2 * d / 2 ^ 53)
    (ho : Rounds (20 - d) o) (hm : Rounds (n * o) m) (hh : Rounds (m * (1 / 2)) h)
    (ha1 : Rounds (ap - h) a1) (hb1 : Rounds (bp + h) b1) :
    |b1 - a1 - 20 * n| ≤ 4300 / 2 ^ 53 := by
  have hT := tiny_le_pow40
  have hT0 := tiny_pos
  have eX := rounds_div hX (B := 2048) (by have := abs_sub bp ap; linarith)
  have qo : |20 - d| ≤ 20 := by
    rw [abs_le]; constructor <;> linarith
  have eo := rounds_div ho qo
  have mo : |o| ≤ 21 := by
    have := abs_le_of_near eo qo; linarith
  have qm : |n * o| ≤ 9 / 8 * 21 := abs_mul_le_mul hn mo
  have em := rounds_div hm qm
  have mm : |m| ≤ 24 := by
    have := abs_le_of_near em qm; linarith
  have qh : |m * (1 / 2)| ≤ 12 := by
    have := abs_mul_le_mul mm (show |(1:ℚ) / 2| ≤ 1 / 2 by rw [abs_of_pos (by norm_num)]); linarith
  have eh := rounds_div hh qh
  have mh : |h| ≤ 13 := by
    have := abs_le_of_near eh qh; linarith
  have ea := rounds_div ha1 (B := 1037) (by have := abs_sub ap h; linarith)
  have eb := rounds_div hb1 (B := 1037) (by have := abs_add bp h; linarith)
  have eno : |n * (o - (20 - d))| ≤ 9 / 8 * ((20 + tiny) / 2 ^ 53) := abs_mul_le_mul hn eo
  have hid : b1 - a1 - 20 * n =
      (b1 - (bp + h)) - (a1 - (ap - h)) - (X - (bp - ap)) + (X - n * d)
        + 2 * (h - m * (1 / 2)) + (m - n * o) + n * (o - (20 - d)) := by ring
  rw [abs_le] at eX eo em eh ea eb eno hXn
  rw [hid, abs_le]
  constructor <;> linarith [eX.1, eX.2, em.1, em.2, eh.1, eh.2, ea.1, ea.2, eb.1, eb.2,
    eno.1, eno.2, hXn.1, hXn.2]

set_option maxHeartbeats 1000000 in
/-- The squared distance of two points whose difference is within `e` of `20 n`. -/
theorem distance_chain (nx ny Dx Dy : ℚ)
    (hnn : |nx * nx + ny * ny - 1| ≤ 20 / 2 ^ 53) (hnx : |nx| ≤ 9 / 8) (hny : |ny| ≤ 9 / 8)
    (hx : |Dx - 20 * nx| ≤ 4300 / 2 ^ 53) (hy : |Dy - 20 * ny| ≤ 4300 / 2 ^ 53) :
    |Dx * Dx + Dy * Dy - 400| ≤ 400 / 2 ^ 42 := by
  have k1 := abs_le.mp (abs_mul_le_mul hnx hx)
  have k2 := abs_le.mp (abs_mul_le_mul hny hy)
  have k3 := abs_le.mp (abs_mul_le_mul hx hx)
  have k4 := abs_le.mp (abs_mul_le_mul hy hy)
  have hid : Dx * Dx + Dy * Dy - 400 =
      400 * (nx * nx + ny * ny - 1) + 40 * (nx * (Dx - 20 * nx)) + 40 * (ny * (Dy - 20 * ny))
        + (Dx - 20 * nx) * (Dx - 20 * nx) + (Dy - 20 * ny) * (Dy - 20 * ny) := by ring
  rw [abs_le] at hnn
  rw [hid, abs_le]
  constructor <;> linarith [k1.1, k1.2, k2.1, k2.2, k3.1, k3.2, k4.1, k4.2, hnn.1, hnn.2]

set_option maxHeartbeats 1000000 in
/-- The velocity update of the overlap branch on finite doubles: every
intermediate result is a finite double, the rounding of its exact value. -/
theorem velocity_finite (avx avy bvx bvy nx ny : ℚ)
    (h1 : |avx| ≤ 1024) (h2 : |avy| ≤ 1024) (h3 : |bvx| ≤ 1024) (h4 : |bvy| ≤ 1024)
    (hnx : |nx| ≤ 9 / 8) (hny : |ny| ≤ 9 / 8) :
    ∃ rx ry p1 p2 p vx vy a1x a1y b1x b1y : ℚ,
      Fp.sub ⟨Double.fin avx, Double.fin avy⟩ (Fp.mul ⟨Double.fin nx, Double.fin ny⟩
        (Fp.dot (Fp.sub ⟨Double.fin avx, Double.fin avy⟩ ⟨Double.fin bvx, Double.fin bvy⟩)
          ⟨Double.fin nx, Double.fin ny⟩)) = ⟨Double.fin a1x, Double.fin a1y⟩ ∧
      Fp.add ⟨Double.fin bvx, Double.fin bvy⟩ (Fp.mul ⟨Double.fin nx, Double.fin ny⟩
        (Fp.dot (Fp.sub ⟨Double.fin avx, Double.fin avy⟩ ⟨Double.fin bvx, Double.fin bvy⟩)
          ⟨Double.fin nx, Double.fin ny⟩)) = ⟨Double.fin b1x, Double.fin b1y⟩ ∧
      Rounds (avx - bvx) rx ∧ Rounds (avy - bvy) ry ∧
      Rounds (rx * nx) p1 ∧ Rounds (ry * ny) p2 ∧ Rounds (p1 + p2) p ∧
      Rounds (nx * p) vx ∧ Rounds (ny * p) vy ∧
      Rounds (avx - vx) a1x ∧ Rounds (avy - vy) a1y ∧
      Rounds (bvx + vx) b1x ∧ Rounds (bvy + vy) b1y := by
  obtain ⟨rx, erx, Rrx, mrx, -⟩ := round_fin_of_le (q := avx - bvx) (B := 2048)
    (by have := abs_sub avx bvx; linarith) (by norm_num)
  obtain ⟨ry, ery, Rry, mry, -⟩ := round_fin_of_le (q := avy - bvy) (B := 2048)
    (by have := abs_sub avy bvy; linarith) (by norm_num)
  obtain ⟨p1, ep1, Rp1, mp1, -⟩ := round_fin_of_le (q := rx * nx) (B := 4610)
    (by have := abs_mul_le_mul mrx hnx; linarith) (by norm_num)
  obtain ⟨p2, ep2, Rp2, mp2, -⟩ := round_fin_of_le (q := ry * ny) (B := 4610)
    (by have := abs_mul_le_mul mry hny; linarith) (by norm_num)
  obtain ⟨p, ep, Rp, mp, -⟩ := round_fin_of_le (q := p1 + p2) (B := 18442)
    (by have := abs_add p1 p2; linarith) (by norm_num)
  obtain ⟨vx, evx, Rvx, mvx, -⟩ := round_fin_of_le (q := nx * p) (B := 41496)
    (by have := abs_mul_le_mul hnx mp; linarith) (by norm_num)
  obtain ⟨vy, evy, Rvy, mvy, -⟩ := round_fin_of_le (q := ny * p) (B := 41496)
    (by have := abs_mul_le_mul hny mp; linarith) (by norm_num)
  obtain ⟨a1x, ea1x, Ra1x, -, -⟩ := round_fin_of_le (q := avx - vx) (B := 84017)
    (by have := abs_sub avx vx; linarith) (by norm_num)
  obtain ⟨a1y, ea1y, Ra1y, -, -⟩ := round_fin_of_le (q := avy - vy) (B := 84017)
    (by have := abs_sub avy vy; linarith) (by norm_num)
  obtain ⟨b1x, eb1x, Rb1x, -, -⟩ := round_fin_of_le (q := bvx + vx) (B := 84017)
    (by have := abs_add bvx vx; linarith) (by norm_num)
  obtain ⟨b1y, eb1y, Rb1y, -, -⟩ := round_fin_of_le (q := bvy + vy) (B := 84017)
    (by have := abs_add bvy vy; linarith) (by norm_num)
  refine ⟨rx, ry, p1, p2, p, vx, vy, a1x, a1y, b1x, b1y, ?_, ?_,
    Rrx, Rry, Rp1, Rp2, Rp, Rvx, Rvy, Ra1x, Ra1y, Rb1x, Rb1y⟩
  · simp only [Fp.sub, Fp.mul, Fp.dot, fin_sub, fin_mul, fin_add, erx, ery, ep1, ep2, ep, evx,
      evy, ea1x, ea1y]
  · simp only [Fp.sub, Fp.add, Fp.mul, Fp.dot, fin_sub, fin_mul, fin_add, erx, ery, ep1, ep2, ep,
      evx, evy, eb1x, eb1y]

set_option maxHeartbeats 1000000 in
/-- The centre distance of `handleCollision` on finite doubles: every
intermediate result is a finite double, the rounding of its exact value. -/
theorem distance_finite (apx apy bpx bpy d : ℚ)
    (h1 : |apx| ≤ 1024) (h2 : |apy| ≤ 1024) (h3 : |bpx| ≤ 1024) (h4 : |bpy| ≤ 1024)
    (hd : Double.sqrt (Fp.squaredLength (Fp.sub ⟨Double.fin bpx, Double.fin bpy⟩
      ⟨Double.fin apx, Double.fin apy⟩)) = Double.fin d) (hd0 : 0 < d) :
    ∃ X Y sx sy s : ℚ,
      Fp.sub ⟨Double.fin bpx, Double.fin bpy⟩ ⟨Double.fin apx, Double.fin apy⟩ =
        ⟨Double.fin X, Double.fin Y⟩ ∧
      Rounds (bpx - apx) X ∧ Rounds (bpy - apy) Y ∧ |X| ≤ 4097 ∧ |Y| ≤ 4097 ∧
      Rounds (X * X) sx ∧ Rounds (Y * Y) sy ∧ Rounds (sx + sy) s ∧
      |d * d - s| ≤ d * d / 2 ^ 51 := by
  obtain ⟨X, eX, RX, mX, -⟩ := round_fin_of_le (q := bpx - apx) (B := 2048)
    (by have := abs_sub bpx apx; linarith) (by norm_num)
  obtain ⟨Y, eY, RY, mY, -⟩ := round_fin_of_le (q := bpy - apy) (B := 2048)
    (by have := abs_sub bpy apy; linarith) (by norm_num)
  obtain ⟨sx, esx, Rsx, msx, -⟩ := round_fin_of_le (q := X * X) (B := 4097 * 4097)
    (by have := abs_mul_le_mul mX mX; linarith) (by norm_num)
  obtain ⟨sy, esy, Rsy, msy, -⟩ := round_fin_of_le (q := Y * Y) (B := 4097 * 4097)
    (by have := abs_mul_le_mul mY mY; linarith) (by norm_num)
  obtain ⟨s, es, Rs, -, -⟩ := round_fin_of_le (q := sx + sy) (B := 4 * (4097 * 4097) + 2)
    (by have := abs_add sx sy; linarith) (by norm_num)
  have hsub : Fp.sub ⟨Double.fin bpx, Double.fin bpy⟩ ⟨Double.fin apx, Double.fin apy⟩ =
      ⟨Double.fin X, Double.fin Y⟩ := by
    simp only [Fp.sub, fin_sub, eX, eY]
  rw [hsub] at hd
  have hsq : Fp.squaredLength ⟨Double.fin X, Double.fin Y⟩ = Double.fin s := by
    simp only [Fp.squaredLength, Fp.dot, fin_mul, fin_add, esx, esy, es]
  rw [hsq] at hd
  exact ⟨X, Y, sx, sy, s, hsub, RX, RY, by linarith, by linarith, Rsx, Rsy, Rs,
    (sqrt_fin s d hd hd0).2⟩

/-- The computed normal on finite doubles. -/
theorem normal_finite (X Y d : ℚ) (hX : |X / d| ≤ 2) (hY : |Y / d| ≤ 2) (hd0 : 0 < d) :
    ∃ nx ny : ℚ, Fp.div ⟨Double.fin X, Double.fin Y⟩ (Double.fin d) =
        ⟨Double.fin nx, Double.fin ny⟩ ∧ Rounds (X / d) nx ∧ Rounds (Y / d) ny := by
  obtain ⟨nx, enx, Rnx, -, -⟩ := round_fin_of_le (q := X / d) (B := 2) hX (by norm_num)
  obtain ⟨ny, eny, Rny, -, -⟩ := round_fin_of_le (q := Y / d) (B := 2) hY (by norm_num)
  refine ⟨nx, ny, ?_, Rnx, Rny⟩
  simp only [Fp.div, fin_div _ _ (ne_of_gt hd0), enx, eny]

set_option maxHeartbeats 1000000 in
/-- A moving ball has speed components that are not both tiny. -/
theorem moving_lower (vx vy : ℚ)
    (hm : Double.lt (Fp.squaredLength ⟨Double.fin vx, Double.fin vy⟩) (Double.round 0.0001)
      = false) : 1 / 2 ^ 10 ≤ |vx| + |vy| := by
  by_contra hc
  push_neg at hc
  have g1 := abs_nonneg vx
  have g2 := abs_nonneg vy
  have b1 : |vx| ≤ 1 / 2 ^ 10 := by linarith
  have b2 : |vy| ≤ 1 / 2 ^ 10 := by linarith
  obtain ⟨sx, esx, Rsx, -, -⟩ := round_fin_of_le (q := vx * vx) (B := 1)
    (by have := abs_mul_le_mul b1 b1; linarith) (by norm_num)
  obtain ⟨sy, esy, Rsy, -, -⟩ := round_fin_of_le (q := vy * vy) (B := 1)
    (by have := abs_mul_le_mul b2 b2; linarith) (by norm_num)
  have q1 : |vx * vx| ≤ 1 / 2 ^ 20 := by
    have := abs_mul_le_mul b1 b1; linarith
  have q2 : |vy * vy| ≤ 1 / 2 ^ 20 := by
    have := abs_mul_le_mul b2 b2; linarith
  have hT := tiny_le_pow40
  have e1 := abs_le_of_near (rounds_div Rsx q1) q1
  have e2 := abs_le_of_near (rounds_div Rsy q2) q2
  have q3 : |sx + sy| ≤ 1 / 2 ^ 18 := by
    have := abs_add sx sy; linarith
  obtain ⟨s, es, Rs, -, -⟩ := round_fin_of_le (q := sx + sy) (B := 1)
    (by linarith) (by norm_num)
  have e3 := abs_le_of_near (rounds_div Rs q3) q3
  have hsq : Fp.squaredLength ⟨Double.fin vx, Double.fin vy⟩ = Double.fin s := by
    simp only [Fp.squaredLength, Fp.dot, fin_mul, fin_add, esx, esy, es]
  rw [hsq, round_threshold, lt_fin] at hm
  have hs := (abs_le.mp e3).2
  have : s < 7378697629483821 / 73786976294838206464 := by
    have : s ≤ 1 / 2 ^ 17 := by linarith
    refine lt_of_le_of_lt this ?_
    norm_num
  simp [this] at hm

set_option maxHeartbeats 1000000 in
/-- The separation of the overlap branch on finite doubles: every intermediate
result is a finite double, the rounding of its exact value. -/
theorem position_finite (apx apy bpx bpy nx ny d : ℚ)
    (h1 : |apx| ≤ 1024) (h2 : |apy| ≤ 1024) (h3 : |bpx| ≤ 1024) (h4 : |bpy| ≤ 1024)
    (hnx : |nx| ≤ 9 / 8) (hny : |ny| ≤ 9 / 8) (hd0 : 0 < d) (hd20 : d < 20) :
    ∃ o mx my hx hy a1x a1y b1x b1y : ℚ,
      Fp.sub ⟨Double.fin apx, Double.fin apy⟩ (Fp.mul (Fp.mul ⟨Double.fin nx, Double.fin ny⟩
        (Double.fin 20 - Double.fin d)) (Double.fin (1 / 2))) =
        ⟨Double.fin a1x, Double.fin a1y⟩ ∧
      Fp.add ⟨Double.fin bpx, Double.fin bpy⟩ (Fp.mul (Fp.mul ⟨Double.fin nx, Double.fin ny⟩
        (Double.fin 20 - Double.fin d)) (Double.fin (1 / 2))) =
        ⟨Double.fin b1x, Double.fin b1y⟩ ∧
      Rounds (20 - d) o ∧ Rounds (nx * o) mx ∧ Rounds (ny * o) my ∧
      Rounds (mx * (1 / 2)) hx ∧ Rounds (my * (1 / 2)) hy ∧
      Rounds (apx - hx) a1x ∧ Rounds (apy - hy) a1y ∧
      Rounds (bpx + hx) b1x ∧ Rounds (bpy + hy) b1y := by
  have hhalf : |(1:ℚ) / 2| ≤ 1 / 2 := by rw [abs_of_pos (by norm_num)]
  obtain ⟨o, eo, Ro, mo, -⟩ := round_fin_of_le (q := 20 - d) (B := 20)
    (by rw [abs_le]; constructor <;> linarith) (by norm_num)
  obtain ⟨mx, emx, Rmx, mmx, -⟩ := round_fin_of_le (q := nx * o) (B := 47)
    (by have := abs_mul_le_mul hnx mo; linarith) (by norm_num)
  obtain ⟨my, emy, Rmy, mmy, -⟩ := round_fin_of_le (q := ny * o) (B := 47)
    (by have := abs_mul_le_mul hny mo; linarith) (by norm_num)
  obtain ⟨hx, ehx, Rhx, mhx, -⟩ := round_fin_of_le (q := mx * (1 / 2)) (B := 48)
    (by have := abs_mul_le_mul mmx hhalf; linarith) (by norm_num)
  obtain ⟨hy, ehy, Rhy, mhy, -⟩ := round_fin_of_le (q := my * (1 / 2)) (B := 48)
    (by have := abs_mul_le_mul mmy hhalf; linarith) (by norm_num)
  obtain ⟨a1x, ea1x, Ra1x, -, -⟩ := round_fin_of_le (q := apx - hx) (B := 1121)
    (by have := abs_sub apx hx; linarith) (by norm_num)
  obtain ⟨a1y, ea1y, Ra1y, -, -⟩ := round_fin_of_le (q := apy - hy) (B := 1121)
    (by have := abs_sub apy hy; linarith) (by norm_num)
  obtain ⟨b1x, eb1x, Rb1x, -, -⟩ := round_fin_of_le (q := bpx + hx) (B := 1121)
    (by have := abs_add bpx hx; linarith) (by norm_num)
  obtain ⟨b1y, eb1y, Rb1y, -, -⟩ := round_fin_of_le (q := bpy + hy) (B := 1121)
    (by have := abs_add bpy hy; linarith) (by norm_num)
  refine ⟨o, mx, my, hx, hy, a1x, a1y, b1x, b1y, ?_, ?_, Ro, Rmx, Rmy, Rhx, Rhy, Ra1x, Ra1y,
    Rb1x, Rb1y⟩
  · simp only [Fp.sub, Fp.mul, fin_sub, fin_mul, eo, emx, emy, ehx, ehy, ea1x, ea1y]
  · simp only [Fp.add, Fp.mul, fin_sub, fin_mul, fin_add, eo, emx, emy, ehx, ehy, eb1x, eb1y]

/-! ## Collisions within floating tolerance -/

theorem isMoving_fin (ball : Ball Double) (vx vy : ℚ)
    (hv : ball.v = ⟨Double.fin vx, Double.fin vy⟩) (hm : Fp.isMoving ball = true) :
    1 / 2 ^ 10 ≤ |vx| + |vy| := by
  apply moving_lower vx vy
  unfold Fp.isMoving at hm
  rw [hv] at hm
  by_contra hc
  rw [Bool.not_eq_false] at hc
  rw [hc] at hm
  simp at hm

set_option maxHeartbeats 2000000 in
/-- Claim C1 (energy non-creation, as amended).  In double precision, for two
unpotted balls, not both at rest, with coordinates and velocity components of
absolute value at most 1024 and a computed centre distance of at least
`2 ^ (-400)`: after `handleCollision` all four velocity components are finite
and the sum of their squares is at most `1 + 2 ^ (-42)` times the sum before. -/
theorem energy_within_tolerance (a b : Ball Double)
    (apx apy avx avy bpx bpy bvx bvy d : ℚ)
    (hap : a.pos = ⟨Double.fin apx, Double.fin apy⟩)
    (hav : a.v = ⟨Double.fin avx, Double.fin avy⟩)
    (hbp : b.pos = ⟨Double.fin bpx, Double.fin bpy⟩)
    (hbv : b.v = ⟨Double.fin bvx, Double.fin bvy⟩)
    (hpos : |apx| ≤ 1024 ∧ |apy| ≤ 1024 ∧ |bpx| ≤ 1024 ∧ |bpy| ≤ 1024)
    (hvel : |avx| ≤ 1024 ∧ |avy| ≤ 1024 ∧ |bvx| ≤ 1024 ∧ |bvy| ≤ 1024)
    (ha : a.potted = false) (hb : b.potted = false)
    (hm : Fp.isMoving a = true ∨ Fp.isMoving b = true)
    (hd : Double.sqrt (Fp.squaredLength (Fp.sub b.pos a.pos)) = Double.fin d)
    (hlow : 1 / 2 ^ 400 ≤ d) :
    ∃ a1x a1y b1x b1y : ℚ,
      (Fp.handleCollision a b).1.v = ⟨Double.fin a1x, Double.fin a1y⟩ ∧
      (Fp.handleCollision a b).2.v = ⟨Double.fin b1x, Double.fin b1y⟩ ∧
      a1x * a1x + a1y * a1y + b1x * b1x + b1y * b1y ≤
        (1 + 1 / 2 ^ 42) * (avx * avx + avy * avy + bvx * bvx + bvy * bvy) := by
  obtain ⟨hp1, hp2, hp3, hp4⟩ := hpos
  obtain ⟨hv1, hv2, hv3, hv4⟩ := hvel
  have hd0 : 0 < d := lt_of_lt_of_le (by positivity) hlow
  have hdist : Fp.distance a b = Double.fin d := hd
  rw [handleCollision_rounded a b ha hb hm, hdist, ofInt_diameter, lt_fin]
  by_cases h20 : d < 20
  · rw [if_pos (by simp [h20])]
    simp only
    rw [hap, hbp] at hd ⊢
    obtain ⟨X, Y, sx, sy, s, hsub, -, -, mX, mY, Rsx, Rsy, Rs, hds⟩ :=
      distance_finite apx apy bpx bpy d hp1 hp2 hp3 hp4 hd hd0
    obtain ⟨qX, qY, -, -⟩ := normal_exact X Y sx sy s d Rsx Rsy Rs hd0 hds hlow
    obtain ⟨nx, ny, hn, Rnx, Rny⟩ := normal_finite X Y d (le_trans qX (by norm_num))
      (le_trans qY (by norm_num)) hd0
    obtain ⟨hnn, mnx, mny, -, -⟩ := normal_chain X Y sx sy s d nx ny Rsx Rsy Rs hd0 hds hlow
      Rnx Rny
    have mnx' : |nx| ≤ 9 / 8 := le_trans mnx (by norm_num)
    have mny' : |ny| ≤ 9 / 8 := le_trans mny (by norm_num)
    obtain ⟨rx, ry, p1, p2, p, vx, vy, a1x, a1y, b1x, b1y, ea, eb, Rrx, Rry, Rp1, Rp2, Rp, Rvx,
      Rvy, Ra1x, Ra1y, Rb1x, Rb1y⟩ := velocity_finite avx avy bvx bvy nx ny hv1 hv2 hv3 hv4 mnx' mny'
    refine ⟨a1x, a1y, b1x, b1y, ?_, ?_, ?_⟩
    · rw [hsub, hn, hav, hbv, ea]
    · rw [hsub, hn, hav, hbv, eb]
    · obtain ⟨S, hS⟩ : ∃ S, S = |avx| + |avy| + |bvx| + |bvy| := ⟨_, rfl⟩
      have hSlow : 1 / 2 ^ 10 ≤ S := by
        have g1 := abs_nonneg avx
        have g2 := abs_nonneg avy
        have g3 := abs_nonneg bvx
        have g4 := abs_nonneg bvy
        rcases hm with h | h
        · have := isMoving_fin a avx avy hav h; linarith
        · have := isMoving_fin b bvx bvy hbv h; linarith
      have hT : tiny ≤ S / 2 ^ 20 := by
        have := tiny_le_pow40
        have : (1:ℚ) / 2 ^ 40 ≤ S / 2 ^ 20 := by
          rw [le_div_iff₀ (by positivity)]
          have : (1:ℚ) / 2 ^ 40 * 2 ^ 20 = 1 / 2 ^ 20 := by norm_num
          rw [this]
          refine le_trans ?_ hSlow
          norm_num
        linarith
      obtain ⟨c1, c2, c3, c4⟩ := velocity_chain avx avy bvx bvy nx ny rx ry p1 p2 p vx vy
        a1x a1y b1x b1y S hS hT mnx' mny' Rrx Rry Rp1 Rp2 Rp Rvx Rvy Ra1x Ra1y Rb1x Rb1y
      exact energy_chain avx avy bvx bvy nx ny a1x a1y b1x b1y S hS hnn mnx' mny' c1 c2 c3 c4
  · rw [if_neg (by simp [h20])]
    refine ⟨avx, avy, bvx, bvy, hav, hbv, ?_⟩
    have : 0 ≤ avx * avx + avy * avy + bvx * bvx + bvy * bvy := by
      linarith [mul_self_nonneg avx, mul_self_nonneg avy, mul_self_nonneg bvx,
        mul_self_nonneg bvy]
    have h42 : (0:ℚ) ≤ 1 / 2 ^ 42 := by positivity
    nlinarith

set_option maxHeartbeats 2000000 in
/-- Claim C2 (overlap elimination, as amended).  In double precision, for two
unpotted balls, not both at rest, with coordinates of absolute value at most
1024 and a computed centre distance `d` with `2 ^ (-400) ≤ d < 20`:
`handleCollision` moves `a` to `a.pos - n * (20 - d) * 0.5` and `b` to
`b.pos + n * (20 - d) * 0.5`, `n = (b.pos - a.pos) / d`, every operation
rounded to double; the new coordinates are finite and the square of the new
centre distance is within `400 * 2 ^ (-42)` of 400. -/
theorem separation_within_tolerance (a b : Ball Double) (apx apy bpx bpy d : ℚ)
    (hap : a.pos = ⟨Double.fin apx, Double.fin apy⟩)
    (hbp : b.pos = ⟨Double.fin bpx, Double.fin bpy⟩)
    (hpos : |apx| ≤ 1024 ∧ |apy| ≤ 1024 ∧ |bpx| ≤ 1024 ∧ |bpy| ≤ 1024)
    (ha : a.potted = false) (hb : b.potted = false)
    (hm : Fp.isMoving a = true ∨ Fp.isMoving b = true)
    (hd : Double.sqrt (Fp.squaredLength (Fp.sub b.pos a.pos)) = Double.fin d)
    (hlow : 1 / 2 ^ 400 ≤ d) (h20 : d < 20) :
    (Fp.handleCollision a b).1.pos =
      Fp.sub a.pos (Fp.mul (Fp.mul (Fp.div (Fp.sub b.pos a.pos) (Double.fin d))
        (Double.ofInt (BALL_RADIUS * 2) - Double.fin d)) (Double.round 0.5)) ∧
    (Fp.handleCollision a b).2.pos =
      Fp.add b.pos (Fp.mul (Fp.mul (Fp.div (Fp.sub b.pos a.pos) (Double.fin d))
        (Double.ofInt (BALL_RADIUS * 2) - Double.fin d)) (Double.round 0.5)) ∧
    ∃ a1x a1y b1x b1y : ℚ,
      (Fp.handleCollision a b).1.pos = ⟨Double.fin a1x, Double.fin a1y⟩ ∧
      (Fp.handleCollision a b).2.pos = ⟨Double.fin b1x, Double.fin b1y⟩ ∧
      |(b1x - a1x) * (b1x - a1x) + (b1y - a1y) * (b1y - a1y) - 400| ≤ 400 / 2 ^ 42 := by
  obtain ⟨hp1, hp2, hp3, hp4⟩ := hpos
  have hd0 : 0 < d := lt_of_lt_of_le (by positivity) hlow
  have hdist : Fp.distance a b = Double.fin d := hd
  have hcond : (Double.lt (Fp.distance a b) (Double.ofInt (BALL_RADIUS * 2)) = true) := by
    rw [hdist, ofInt_diameter, lt_fin]; simp [h20]
  rw [handleCollision_rounded a b ha hb hm, if_pos hcond, hdist]
  refine ⟨rfl, rfl, ?_⟩
  simp only
  rw [ofInt_diameter, round_half, hap, hbp] at *
  obtain ⟨X, Y, sx, sy, s, hsub, RX, RY, mX, mY, Rsx, Rsy, Rs, hds⟩ :=
    distance_finite apx apy bpx bpy d hp1 hp2 hp3 hp4 hd hd0
  obtain ⟨qX, qY, -, -⟩ := normal_exact X Y sx sy s d Rsx Rsy Rs hd0 hds hlow
  obtain ⟨nx, ny, hn, Rnx, Rny⟩ := normal_finite X Y d (le_trans qX (by norm_num))
    (le_trans qY (by norm_num)) hd0
  obtain ⟨hnn, mnx, mny, hXn, hYn⟩ := normal_chain X Y sx sy s d nx ny Rsx Rsy Rs hd0 hds hlow
    Rnx Rny
  have mnx' : |nx| ≤ 9 / 8 := le_trans mnx (by norm_num)
  have mny' : |ny| ≤ 9 / 8 := le_trans mny (by norm_num)
  obtain ⟨o, mx, my, hx, hy, a1x, a1y, b1x, b1y, ea, eb, Ro, Rmx, Rmy, Rhx, Rhy, Ra1x, Ra1y,
    Rb1x, Rb1y⟩ := position_finite apx apy bpx bpy nx ny d hp1 hp2 hp3 hp4 mnx' mny' hd0 h20
  refine ⟨a1x, a1y, b1x, b1y, ?_, ?_, ?_⟩
  · rw [hsub, hn, ea]
  · rw [hsub, hn, eb]
  · have cx := position_chain apx bpx X d nx o mx hx a1x b1x hp1 hp3 RX hd0 h20 mnx' hXn Ro
      Rmx Rhx Ra1x Rb1x
    have cy := position_chain apy bpy Y d ny o my hy a1y b1y hp2 hp4 RY hd0 h20 mny' hYn Ro
      Rmy Rhy Ra1y Rb1y
    exact distance_chain nx ny (b1x - a1x) (b1y - a1y) hnn mnx' mny' cx cy

set_option maxHeartbeats 2000000 in
/-- Claim C7 (equal-mass elastic exchange, as amended).  In double precision, for
two unpotted balls, not both at rest, with coordinates and velocity components
of absolute value at most 1024 and a computed centre distance `d` with
`2 ^ (-400) ≤ d < 20`, and with `n = (b.pos - a.pos) / d` as computed:
`handleCollision` yields `a.v' = a.v - n * ((a.v - b.v) · n)` and
`b.v' = b.v + n * ((a.v - b.v) · n)`, every operation rounded to double; all
components are finite, `n · n` is within `20 * 2 ^ (-53)` of 1, the components
along `n` are exchanged up to `2 ^ (-47) * S`, and the components along any `t`
orthogonal to `n` are kept up to `2 ^ (-48) * S * (|t.x| + |t.y|)`, where `S` is
the sum of the absolute values of the four old velocity components. -/
theorem exchange_within_tolerance (a b : Ball Double)
    (apx apy avx avy bpx bpy bvx bvy d : ℚ)
    (hap : a.pos = ⟨Double.fin apx, Double.fin apy⟩)
    (hav : a.v = ⟨Double.fin avx, Double.fin avy⟩)
    (hbp : b.pos = ⟨Double.fin bpx, Double.fin bpy⟩)
    (hbv : b.v = ⟨Double.fin bvx, Double.fin bvy⟩)
    (hpos : |apx| ≤ 1024 ∧ |apy| ≤ 1024 ∧ |bpx| ≤ 1024 ∧ |bpy| ≤ 1024)
    (hvel : |avx| ≤ 1024 ∧ |avy| ≤ 1024 ∧ |bvx| ≤ 1024 ∧ |bvy| ≤ 1024)
    (ha : a.potted = false) (hb : b.potted = false)
    (hm : Fp.isMoving a = true ∨ Fp.isMoving b = true)
    (hd : Double.sqrt (Fp.squaredLength (Fp.sub b.pos a.pos)) = Double.fin d)
    (hlow : 1 / 2 ^ 400 ≤ d) (h20 : d < 20) :
    (Fp.handleCollision a b).1.v =
      Fp.sub a.v (Fp.mul (Fp.div (Fp.sub b.pos a.pos) (Double.fin d))
        (Fp.dot (Fp.sub a.v b.v) (Fp.div (Fp.sub b.pos a.pos) (Double.fin d)))) ∧
    (Fp.handleCollision a b).2.v =
      Fp.add b.v (Fp.mul (Fp.div (Fp.sub b.pos a.pos) (Double.fin d))
        (Fp.dot (Fp.sub a.v b.v) (Fp.div (Fp.sub b.pos a.pos) (Double.fin d)))) ∧
    ∃ nx ny a1x a1y b1x b1y : ℚ,
      Fp.div (Fp.sub b.pos a.pos) (Double.fin d) = ⟨Double.fin nx, Double.fin ny⟩ ∧
      (Fp.handleCollision a b).1.v = ⟨Double.fin a1x, Double.fin a1y⟩ ∧
      (Fp.handleCollision a b).2.v = ⟨Double.fin b1x, Double.fin b1y⟩ ∧
      |nx * nx + ny * ny - 1| ≤ 20 / 2 ^ 53 ∧
      |a1x * nx + a1y * ny - (bvx * nx + bvy * ny)| ≤
        (|avx| + |avy| + |bvx| + |bvy|) / 2 ^ 47 ∧
      |b1x * nx + b1y * ny - (avx * nx + avy * ny)| ≤
        (|avx| + |avy| + |bvx| + |bvy|) / 2 ^ 47 ∧
      ∀ tx ty : ℚ, tx * nx + ty * ny = 0 →
        |a1x * tx + a1y * ty - (avx * tx + avy * ty)| ≤
          (|avx| + |avy| + |bvx| + |bvy|) / 2 ^ 48 * (|tx| + |ty|) ∧
        |b1x * tx + b1y * ty - (bvx * tx + bvy * ty)| ≤
          (|avx| + |avy| + |bvx| + |bvy|) / 2 ^ 48 * (|tx| + |ty|) := by
  obtain ⟨hp1, hp2, hp3, hp4⟩ := hpos
  obtain ⟨hv1, hv2, hv3, hv4⟩ := hvel
  have hd0 : 0 < d := lt_of_lt_of_le (by positivity) hlow
  have hdist : Fp.distance a b = Double.fin d := hd
  have hcond : (Double.lt (Fp.distance a b) (Double.ofInt (BALL_RADIUS * 2)) = true) := by
    rw [hdist, ofInt_diameter, lt_fin]; simp [h20]
  rw [handleCollision_rounded a b ha hb hm, if_pos hcond, hdist]
  refine ⟨rfl, rfl, ?_⟩
  simp only
  rw [hap, hbp] at hd ⊢
  obtain ⟨X, Y, sx, sy, s, hsub, -, -, mX, mY, Rsx, Rsy, Rs, hds⟩ :=
    distance_finite apx apy bpx bpy d hp1 hp2 hp3 hp4 hd hd0
  obtain ⟨qX, qY, -, -⟩ := normal_exact X Y sx sy s d Rsx Rsy Rs hd0 hds hlow
  obtain ⟨nx, ny, hn, Rnx, Rny⟩ := normal_finite X Y d (le_trans qX (by norm_num))
    (le_trans qY (by norm_num)) hd0
  obtain ⟨hnn, mnx, mny, -, -⟩ := normal_chain X Y sx sy s d nx ny Rsx Rsy Rs hd0 hds hlow
    Rnx Rny
  have mnx' : |nx| ≤ 9 / 8 := le_trans mnx (by norm_num)
  have mny' : |ny| ≤ 9 / 8 := le_trans mny (by norm_num)
  obtain ⟨rx, ry, p1, p2, p, vx, vy, a1x, a1y, b1x, b1y, ea, eb, Rrx, Rry, Rp1, Rp2, Rp, Rvx,
    Rvy, Ra1x, Ra1y, Rb1x, Rb1y⟩ := velocity_finite avx avy bvx bvy nx ny hv1 hv2 hv3 hv4 mnx' mny'
  obtain ⟨S, hS⟩ : ∃ S, S = |avx| + |avy| + |bvx| + |bvy| := ⟨_, rfl⟩
  have hSlow : 1 / 2 ^ 10 ≤ S := by
    have g1 := abs_nonneg avx
    have g2 := abs_nonneg avy
    have g3 := abs_nonneg bvx
    have g4 := abs_nonneg bvy
    rcases hm with h | h
    · have := isMoving_fin a avx avy hav h; linarith
    · have := isMoving_fin b bvx bvy hbv h; linarith
  have hT : tiny ≤ S / 2 ^ 20 := by
    have := tiny_le_pow40
    have : (1:ℚ) / 2 ^ 40 ≤ S / 2 ^ 20 := by
      rw [le_div_iff₀ (by positivity)]
      have : (1:ℚ) / 2 ^ 40 * 2 ^ 20 = 1 / 2 ^ 20 := by norm_num
      rw [this]
      refine le_trans ?_ hSlow
      norm_num
    linarith
  obtain ⟨c1, c2, c3, c4⟩ := velocity_chain avx avy bvx bvy nx ny rx ry p1 p2 p vx vy
    a1x a1y b1x b1y S hS hT mnx' mny' Rrx Rry Rp1 Rp2 Rp Rvx Rvy Ra1x Ra1y Rb1x Rb1y
  have hex := exchange_chain avx avy bvx bvy nx ny a1x a1y b1x b1y S hS hnn mnx' mny' c1 c2 c3 c4
  rw [hS] at hex
  refine ⟨nx, ny, a1x, a1y, b1x, b1y, ?_, ?_, ?_, hnn, hex⟩
  · rw [hsub, hn]
  · rw [hsub, hn, hav, hbv, ea]
  · rw [hsub, hn, hav, hbv, eb]

theorem pow400_le (d : ℚ) (h : 1 ≤ d) : 1 / 2 ^ 400 ≤ d := by
  refine le_trans ?_ h
  rw [div_le_iff₀ (by positivity), one_mul]
  exact one_le_pow₀ (by norm_num)

theorem energy_within_tolerance_witness :
    (Fp.handleCollision Fp.glancingA Fp.glancingB).1.v =
      ⟨Double.fin (2296835809958953 / 1125899906842624),
        Double.fin (-1261007895663739 / 4503599627370496)⟩ ∧
    (Fp.handleCollision Fp.glancingA Fp.glancingB).2.v =
      ⟨Double.fin (-360287970189641 / 9007199254740992),
        Double.fin (3692951694443807 / 1125899906842624)⟩ ∧
    ∃ a1x a1y b1x b1y : ℚ,
      (Fp.handleCollision Fp.glancingA Fp.glancingB).1.v = ⟨Double.fin a1x, Double.fin a1y⟩ ∧
      (Fp.handleCollision Fp.glancingA Fp.glancingB).2.v = ⟨Double.fin b1x, Double.fin b1y⟩ ∧
      a1x * a1x + a1y * a1y + b1x * b1x + b1y * b1y ≤
        (1 + 1 / 2 ^ 42) * (3 * 3 + 1 * 1 + (-1) * (-1) + 2 * 2) :=
  ⟨by decide!, by decide!,
    energy_within_tolerance Fp.glancingA Fp.glancingB 100 100 3 1 109 112 (-1) 2 15
      (by decide!) (by decide!) (by decide!) (by decide!)
      (by norm_num) (by norm_num) rfl rfl (Or.inl (by decide!)) (by decide!)
      (pow400_le 15 (by norm_num))⟩

theorem separation_within_tolerance_witness :
    (Fp.handleCollision Fp.obliqueA Fp.obliqueB).1.pos =
      ⟨Double.fin (1294382690195369 / 4398046511104),
        Double.fin (6951052944157837 / 35184372088832)⟩ ∧
    (Fp.handleCollision Fp.obliqueA Fp.obliqueB).2.pos =
      ⟨Double.fin (1375231542044759 / 4398046511104),
        Double.fin (7228249007641459 / 35184372088832)⟩ ∧
    ((Fp.handleCollision Fp.obliqueA Fp.obliqueB).1.pos =
      Fp.sub Fp.obliqueA.pos (Fp.mul (Fp.mul (Fp.div (Fp.sub Fp.obliqueB.pos Fp.obliqueA.pos)
          (Double.fin (535912389401671 / 70368744177664)))
        (Double.ofInt (BALL_RADIUS * 2) - Double.fin (535912389401671 / 70368744177664)))
        (Double.round 0.5)) ∧
    (Fp.handleCollision Fp.obliqueA Fp.obliqueB).2.pos =
      Fp.add Fp.obliqueB.pos (Fp.mul (Fp.mul (Fp.div (Fp.sub Fp.obliqueB.pos Fp.obliqueA.pos)
          (Double.fin (535912389401671 / 70368744177664)))
        (Double.ofInt (BALL_RADIUS * 2) - Double.fin (535912389401671 / 70368744177664)))
        (Double.round 0.5)) ∧
    ∃ a1x a1y b1x b1y : ℚ,
      (Fp.handleCollision Fp.obliqueA Fp.obliqueB).1.pos = ⟨Double.fin a1x, Double.fin a1y⟩ ∧
      (Fp.handleCollision Fp.obliqueA Fp.obliqueB).2.pos = ⟨Double.fin b1x, Double.fin b1y⟩ ∧
      |(b1x - a1x) * (b1x - a1x) + (b1y - a1y) * (b1y - a1y) - 400| ≤ 400 / 2 ^ 42) :=
  ⟨by decide!, by decide!,
    separation_within_tolerance Fp.obliqueA Fp.obliqueB 300 200 307 203
      (535912389401671 / 70368744177664) (by decide!) (by decide!) (by norm_num) rfl rfl
      (Or.inl (by decide!)) (by decide!) (pow400_le _ (by norm_num)) (by norm_num)⟩

theorem exchange_within_tolerance_witness :
    (Fp.handleCollision Fp.headOnA Fp.headOnB).1.v = ⟨Double.fin (-2), Double.fin 0⟩ ∧
    (Fp.handleCollision Fp.headOnA Fp.headOnB).2.v = ⟨Double.fin 2, Double.fin 0⟩ ∧
    Fp.distance (Fp.handleCollision Fp.headOnA Fp.headOnB).1
      (Fp.handleCollision Fp.headOnA Fp.headOnB).2 = Double.fin 20 ∧
    ((Fp.handleCollision Fp.headOnA Fp.headOnB).1.v =
      Fp.sub Fp.headOnA.v (Fp.mul (Fp.div (Fp.sub Fp.headOnB.pos Fp.headOnA.pos) (Double.fin 15))
        (Fp.dot (Fp.sub Fp.headOnA.v Fp.headOnB.v)
          (Fp.div (Fp.sub Fp.headOnB.pos Fp.headOnA.pos) (Double.fin 15)))) ∧
    (Fp.handleCollision Fp.headOnA Fp.headOnB).2.v =
      Fp.add Fp.headOnB.v (Fp.mul (Fp.div (Fp.sub Fp.headOnB.pos Fp.headOnA.pos) (Double.fin 15))
        (Fp.dot (Fp.sub Fp.headOnA.v Fp.headOnB.v)
          (Fp.div (Fp.sub Fp.headOnB.pos Fp.headOnA.pos) (Double.fin 15)))) ∧
    ∃ nx ny a1x a1y b1x b1y : ℚ,
      Fp.div (Fp.sub Fp.headOnB.pos Fp.headOnA.pos) (Double.fin 15) =
        ⟨Double.fin nx, Double.fin ny⟩ ∧
      (Fp.handleCollision Fp.headOnA Fp.headOnB).1.v = ⟨Double.fin a1x, Double.fin a1y⟩ ∧
      (Fp.handleCollision Fp.headOnA Fp.headOnB).2.v = ⟨Double.fin b1x, Double.fin b1y⟩ ∧
      |nx * nx + ny * ny - 1| ≤ 20 / 2 ^ 53 ∧
      |a1x * nx + a1y * ny - ((-2) * nx + 0 * ny)| ≤ (|(2:ℚ)| + |0| + |(-2)| + |0|) / 2 ^ 47 ∧
      |b1x * nx + b1y * ny - (2 * nx + 0 * ny)| ≤ (|(2:ℚ)| + |0| + |(-2)| + |0|) / 2 ^ 47 ∧
      ∀ tx ty : ℚ, tx * nx + ty * ny = 0 →
        |a1x * tx + a1y * ty - (2 * tx + 0 * ty)| ≤
          (|(2:ℚ)| + |0| + |(-2)| + |0|) / 2 ^ 48 * (|tx| + |ty|) ∧
        |b1x * tx + b1y * ty - ((-2) * tx + 0 * ty)| ≤
          (|(2:ℚ)| + |0| + |(-2)| + |0|) / 2 ^ 48 * (|tx| + |ty|)) :=
  ⟨by decide!, by decide!, by decide!,
    exchange_within_tolerance Fp.headOnA Fp.headOnB 100 200 2 0 115 200 (-2) 0 15
      (by decide!) (by decide!) (by decide!) (by decide!)
      (by norm_num) (by norm_num) rfl rfl (Or.inl (by decide!)) (by decide!)
      (pow400_le 15 (by norm_num)) (by norm_num)⟩

/-- In double precision centres closer than the square root of the smallest
double are told apart, but the squares of their offsets underflow and the computed
normal is no unit vector: balls at `(0, 0)` and `(3 * 2 ^ (-538), 0)` with
velocities `(2, 0)` and `(-2, 0)` have the computed normal
`(1.0606601717798212, 0)` and leave `handleCollision` 21.213203435596423 apart,
with the sum of squared speeds 12.499999999999991 instead of 8 and with
`b.v' · n = 2.651650429449552` against `a.v · n = 2.1213203435596424`. -/
theorem normal_not_unit_by_underflow :
    Fp.distance Fp.nearA Fp.nearB = Double.fin (6369051672525773 / 2 ^ 589) ∧
    Fp.norm (Fp.sub Fp.nearB.pos Fp.nearA.pos) =
      ⟨Double.fin (4776788754394329 / 4503599627370496), Double.fin 0⟩ ∧
    Fp.distance (Fp.handleCollision Fp.nearA Fp.nearB).1 (Fp.handleCollision Fp.nearA Fp.nearB).2 =
      Double.fin (5970985942992911 / 281474976710656) ∧
    Fp.energy Fp.nearA Fp.nearB = Double.fin 8 ∧
    Fp.energy (Fp.handleCollision Fp.nearA Fp.nearB).1 (Fp.handleCollision Fp.nearA Fp.nearB).2 =
      Double.fin (7036874417766395 / 562949953421312) ∧
    Fp.dot (Fp.handleCollision Fp.nearA Fp.nearB).2.v (Fp.norm (Fp.sub Fp.nearB.pos Fp.nearA.pos)) =
      Double.fin (5970985942992909 / 2251799813685248) ∧
    Fp.dot Fp.nearA.v (Fp.norm (Fp.sub Fp.nearB.pos Fp.nearA.pos)) =
      Double.fin (4776788754394329 / 2251799813685248) := by
  decide!

end Theorems

end Snooker

